import Mathlib

/-!
# Verification of the DOCX → JATS converter core (`converter.py`)

This file gives a shallow embedding, in Lean 4, of the core functions of the
converter: the inline formatter (`para_to_inline`, `_fmt_chunk`), the entity
extractors (`parse_author_name`, `parse_authors_para`, `parse_affiliation`,
`parse_ref`, `_fix_lpage`), the document-model builder (`parse_docx`) and the
markup serializer (`build_xml` with its helpers `nid`, `make_prefix`, `xe`,
`build_table_xml`, `build_fig_xml`), and proves or refutes the frozen claims
about them.

Modelling conventions:
* Python strings are modelled as `Str := List Char`.  Python string literals
  appear through the coercion `S "…" := String.data "…"`.
* Python `\d` / `\s` character classes and `str.strip()` are modelled over the
  ASCII range (`Char.isDigit`, `Char.isWhitespace`); all claims and all
  concrete inputs considered here are ASCII.
* `hashlib.md5(...).hexdigest()` is an external library primitive; the
  embedding is parametric in a function `md : Str → Str` standing for the
  hex digest.  Where a property of the digest matters (it consists of hex
  digit characters) it is an explicit hypothesis (`HexStr`).
* The mutable counter `_ctr` is threaded through as explicit state, and the
  serializer state additionally records, in emission order, the value of every
  `id="…"` attribute it writes (field `ids`) and an event trace of the
  paragraph/table/figure emissions (field `evs`).  Each recorded entry
  accompanies exactly one emission in the source.
-/

set_option maxRecDepth 10000

/-- Python strings, modelled as lists of characters. -/
abbrev Str := List Char

/-- Coercion from Lean string literals to `Str`. -/
def S (s : String) : Str := s.data

/-- Decimal digit character for `d < 10` (the digits of Python `str(n)`). -/
def digitChar (d : Nat) : Char := Char.ofNat (48 + d)

/-- Fuel-indexed helper for `natRepr`; the fuel only serves structural
termination and is always sufficient at the call site. -/
def natReprF : Nat → Nat → Str
  | 0, _ => []
  | fuel + 1, n =>
    if n < 10 then [digitChar n]
    else natReprF fuel (n / 10) ++ [digitChar (n % 10)]

/-- Decimal representation of a natural number: Python `str(n)` for `n : int`,
`n ≥ 0` (the converter only formats non-negative counters and numbers). -/
def natRepr (n : Nat) : Str := natReprF (n + 1) n

theorem natReprF_mono : ∀ {f1 : Nat} {n : Nat} (f2 : Nat), n < f1 → n < f2 →
    natReprF f1 n = natReprF f2 n := by
  intro f1
  induction f1 with
  | zero => intro n f2 h; omega
  | succ f ih =>
    intro n f2 h1 h2
    cases f2 with
    | zero => omega
    | succ g =>
      show natReprF (f + 1) n = natReprF (g + 1) n
      rw [natReprF, natReprF]
      by_cases hn : n < 10
      · simp [hn]
      · have hd : n / 10 < n := Nat.div_lt_self (by omega) (by omega)
        rw [ih g (by omega) (by omega)]

/-- The recurrence satisfied by `natRepr` (the shape of Python `str`). -/
theorem natRepr_eq (n : Nat) :
    natRepr n = if n < 10 then [digitChar n]
      else natRepr (n / 10) ++ [digitChar (n % 10)] := by
  show natReprF (n + 1) n = _
  rw [natReprF]
  by_cases hn : n < 10
  · simp [hn]
  · have hd : n / 10 < n := Nat.div_lt_self (by omega) (by omega)
    rw [if_neg hn, if_neg hn, natReprF_mono (n / 10 + 1) (by omega) (by omega)]
    rfl

/-- Numeric value of a digit character. -/
def digitVal (c : Char) : Nat := c.toNat - 48

/-- Value of a (big-endian) digit string: Python `int(s)` on an all-digit `s`. -/
def digitsVal (s : Str) : Nat := s.foldl (fun a c => a * 10 + digitVal c) 0

/-- Python `int(s)` on a candidate digit string: defined exactly when `s` is a
non-empty string of ASCII digits (the only shapes the converter feeds to
`int`, all produced by `\d+` regex captures). -/
def natOfDigits (s : Str) : Option Nat :=
  if s ≠ [] ∧ s.all Char.isDigit then some (digitsVal s) else none

theorem digitVal_digitChar (d : Nat) (h : d < 10) : digitVal (digitChar d) = d := by
  interval_cases d <;> rfl

theorem isDigit_digitChar (d : Nat) (h : d < 10) : (digitChar d).isDigit := by
  interval_cases d <;> rfl

theorem digitsVal_append (a b : Str) :
    digitsVal (a ++ b) = b.foldl (fun a c => a * 10 + digitVal c) (digitsVal a) := by
  simp [digitsVal, List.foldl_append]

theorem natRepr_ne_nil (n : Nat) : natRepr n ≠ [] := by
  rw [natRepr_eq]
  split <;> simp

theorem natRepr_all_digits (n : Nat) : (natRepr n).all Char.isDigit := by
  induction n using Nat.strong_induction_on with
  | _ n ih =>
    rw [natRepr_eq]
    split
    next h => simp [List.all_cons, isDigit_digitChar n h]
    next h =>
      have h10 : 10 ≤ n := by omega
      have := ih (n / 10) (Nat.div_lt_self (by omega) (by omega))
      simp only [List.all_append, this, Bool.true_and, List.all_cons, List.all_nil]
      simp [isDigit_digitChar (n % 10) (Nat.mod_lt n (by omega))]

theorem digitsVal_natRepr (n : Nat) : digitsVal (natRepr n) = n := by
  induction n using Nat.strong_induction_on with
  | _ n ih =>
    rw [natRepr_eq]
    split
    next h => simp [digitsVal, digitVal_digitChar n h]
    next h =>
      have h10 : 10 ≤ n := by omega
      rw [digitsVal_append, ih (n / 10) (Nat.div_lt_self (by omega) (by omega))]
      simp [digitVal_digitChar (n % 10) (Nat.mod_lt n (by omega))]
      omega

theorem natOfDigits_natRepr (n : Nat) : natOfDigits (natRepr n) = some n := by
  simp [natOfDigits, natRepr_ne_nil, natRepr_all_digits, digitsVal_natRepr]

theorem natRepr_injective : Function.Injective natRepr := by
  intro a b h
  have := natOfDigits_natRepr a
  rw [h, natOfDigits_natRepr] at this
  exact (Option.some_inj.mp this).symm

theorem mem_natRepr_isDigit {c : Char} {n : Nat} (h : c ∈ natRepr n) : c.isDigit := by
  have := natRepr_all_digits n
  rw [List.all_eq_true] at this
  exact this c h

theorem natRepr_no_dash {n : Nat} : '-' ∉ natRepr n := by
  intro h
  have := mem_natRepr_isDigit h
  simp [Char.isDigit] at this

-- ── Python string primitives ────────────────────────────────────────────────

/-- Python `str.strip()` (ASCII whitespace model). -/
def pyStrip (s : Str) : Str :=
  ((s.dropWhile Char.isWhitespace).reverse.dropWhile Char.isWhitespace).reverse

/-- Python `str.rstrip(chars)`: drop trailing characters from the given set. -/
def pyRstrip (cs : List Char) (s : Str) : Str :=
  (s.reverse.dropWhile (fun c => c ∈ cs)).reverse

/-- Helper for Python `str.split()`: `acc` is the current token, reversed. -/
def splitWsAux : Str → Str → List Str
  | acc, [] => if acc = [] then [] else [acc.reverse]
  | acc, c :: rest =>
    if Char.isWhitespace c then
      if acc = [] then splitWsAux [] rest else acc.reverse :: splitWsAux [] rest
    else splitWsAux (c :: acc) rest

/-- Python `str.split()` with no argument: split on whitespace runs, no empty
tokens. -/
def splitWs (s : Str) : List Str := splitWsAux [] s

/-- Helper for `splitSepRun`: `acc` is the current token reversed, `inSep`
records that the scanner is inside a separator run (so further separator
characters extend the same run instead of emitting empty tokens). -/
def splitSepAux (p : Char → Bool) : Str → Str → Bool → List Str
  | [], acc, _ => [acc.reverse]
  | c :: rest, acc, inSep =>
    if p c then
      if inSep then splitSepAux p rest acc true
      else acc.reverse :: splitSepAux p rest [] true
    else splitSepAux p rest (c :: acc) false

/-- Python `re.split` where the separator pattern is one-or-more characters
from class `p` (used for `re.split(r'[,\s]+', s)`): empty tokens appear at
the boundaries when the string starts or ends with a separator run. -/
def splitSepRun (p : Char → Bool) (s : Str) : List Str := splitSepAux p s [] false

/-- Helper for `splitCommaWs`: `inWs` records that the scanner is consuming
the `\s*` tail of a comma separator. -/
def splitCommaWsAux : Str → Str → Bool → List Str
  | [], acc, _ => [acc.reverse]
  | c :: rest, acc, inWs =>
    if inWs && Char.isWhitespace c then splitCommaWsAux rest acc true
    else if c = ',' then acc.reverse :: splitCommaWsAux rest [] true
    else splitCommaWsAux rest (c :: acc) false

/-- Python `re.split(r',\s*', s)`: each comma (with its following whitespace)
is a separator. -/
def splitCommaWs (s : Str) : List Str := splitCommaWsAux s [] false

/-- Prefix test on character lists (Python `str.startswith` and the anchored
step of substring search). -/
def hasPfx : Str → Str → Bool
  | [], _ => true
  | _ :: _, [] => false
  | p :: ps, c :: cs => p = c && hasPfx ps cs

theorem hasPfx_append_self (p r : Str) : hasPfx p (p ++ r) = true := by
  induction p with
  | nil => rfl
  | cons c cs ih => simp [hasPfx, ih]

theorem hasPfx_length {p : Str} : ∀ {s : Str}, hasPfx p s = true → p.length ≤ s.length := by
  induction p with
  | nil => intro s _; simp
  | cons c cs ih =>
    intro s h
    cases s with
    | nil => simp [hasPfx] at h
    | cons d ds =>
      simp only [hasPfx, Bool.and_eq_true] at h
      have := ih h.2
      simp only [List.length_cons]
      omega

/-- Python `pat in hay` substring test. -/
def containsSub (hay pat : Str) : Bool :=
  if hasPfx pat hay then true
  else
    match hay with
    | [] => false
    | _ :: t => containsSub t pat

/-- Python `str.lower()` / the effect of `re.I`, ASCII model. -/
def lowerStr (s : Str) : Str := s.map Char.toLower

/-- A string of lowercase hexadecimal digits (the shape of every
`hashlib.md5(...).hexdigest()` value). -/
def HexStr (s : Str) : Prop :=
  ∀ c ∈ s, c.isDigit ∨ ('a' ≤ c ∧ c ≤ 'f')

instance (s : Str) : Decidable (HexStr s) := by unfold HexStr; infer_instance

-- ── XML escaping (`xe`) and the spec-side visible-text extraction ───────────

/-- Escape of a single character, as performed by `xe` (source lines 23–25).
`xe` applies `.replace('&','&amp;').replace('<','&lt;').replace('>','&gt;')
.replace('"','&quot;')` in sequence; since no replacement output contains a
character that a later replacement targets (`&` is handled first), the chain
acts independently on each input character, which is what this function
captures.  The apostrophe is NOT escaped by the source. -/
def xeChar (c : Char) : Str :=
  if c = '&' then S "&amp;"
  else if c = '<' then S "&lt;"
  else if c = '>' then S "&gt;"
  else if c = '"' then S "&quot;"
  else [c]

/-- `xe` (source lines 23–25): XML-escape a text chunk.  `xe [] = []` matches
the `if not t: return ''` guard. -/
def xe : Str → Str
  | [] => []
  | c :: cs => xeChar c ++ xe cs

theorem xe_append (a b : Str) : xe (a ++ b) = xe a ++ xe b := by
  induction a with
  | nil => rfl
  | cons c cs ih => simp [xe, ih]

/-- Fuel-indexed helper for `unescape` (fuel is only a structural-termination
device and is always sufficient at the call site). -/
def unescapeF : Nat → Str → Str
  | 0, s => s
  | _ + 1, [] => []
  | fuel + 1, c :: rest =>
    if hasPfx (S "&amp;") (c :: rest) then '&' :: unescapeF fuel (rest.drop 4)
    else if hasPfx (S "&lt;") (c :: rest) then '<' :: unescapeF fuel (rest.drop 3)
    else if hasPfx (S "&gt;") (c :: rest) then '>' :: unescapeF fuel (rest.drop 3)
    else if hasPfx (S "&quot;") (c :: rest) then '"' :: unescapeF fuel (rest.drop 5)
    else c :: unescapeF fuel rest

/-- One left-to-right pass replacing the four entity forms emitted by `xe`
with their characters (the spec-side reading of "undoing XML escaping"). -/
def unescape (s : Str) : Str := unescapeF s.length s

theorem unescapeF_mono : ∀ (f1 : Nat) (s : Str) (f2 : Nat), s.length ≤ f1 →
    s.length ≤ f2 → unescapeF f1 s = unescapeF f2 s := by
  intro f1
  induction f1 with
  | zero =>
    intro s f2 h1 _
    have hs : s = [] := by cases s with | nil => rfl | cons a b => simp at h1
    subst hs
    cases f2 <;> rfl
  | succ f ih =>
    intro s f2 h1 h2
    cases s with
    | nil => cases f2 <;> rfl
    | cons c rest =>
      cases f2 with
      | zero => simp at h2
      | succ g =>
        have hr : rest.length ≤ f := by simp at h1; omega
        have hg : rest.length ≤ g := by simp at h2; omega
        have l4 : (rest.drop 4).length ≤ rest.length := by simp [List.length_drop]
        have l3 : (rest.drop 3).length ≤ rest.length := by simp [List.length_drop]
        have l5 : (rest.drop 5).length ≤ rest.length := by simp [List.length_drop]
        show unescapeF (f + 1) (c :: rest) = unescapeF (g + 1) (c :: rest)
        rw [unescapeF, unescapeF]
        by_cases a1 : hasPfx (S "&amp;") (c :: rest)
        · simp only [a1, if_true]
          rw [ih (rest.drop 4) g (by omega) (by omega)]
        · simp only [a1, Bool.false_eq_true, if_false]
          by_cases a2 : hasPfx (S "&lt;") (c :: rest)
          · simp only [a2, if_true]
            rw [ih (rest.drop 3) g (by omega) (by omega)]
          · simp only [a2, Bool.false_eq_true, if_false]
            by_cases a3 : hasPfx (S "&gt;") (c :: rest)
            · simp only [a3, if_true]
              rw [ih (rest.drop 3) g (by omega) (by omega)]
            · simp only [a3, Bool.false_eq_true, if_false]
              by_cases a4 : hasPfx (S "&quot;") (c :: rest)
              · simp only [a4, if_true]
                rw [ih (rest.drop 5) g (by omega) (by omega)]
              · simp only [a4, Bool.false_eq_true, if_false]
                rw [ih rest g (by omega) (by omega)]

theorem unescapeF_eq_unescape {f : Nat} {s : Str} (h : s.length ≤ f) :
    unescapeF f s = unescape s :=
  unescapeF_mono f s s.length h le_rfl

theorem unescape_cons (c : Char) (rest : Str) :
    unescape (c :: rest) =
      (if hasPfx (S "&amp;") (c :: rest) then '&' :: unescape (rest.drop 4)
      else if hasPfx (S "&lt;") (c :: rest) then '<' :: unescape (rest.drop 3)
      else if hasPfx (S "&gt;") (c :: rest) then '>' :: unescape (rest.drop 3)
      else if hasPfx (S "&quot;") (c :: rest) then '"' :: unescape (rest.drop 5)
      else c :: unescape rest) := by
  show unescapeF (rest.length + 1) (c :: rest) = _
  rw [unescapeF]
  rw [@unescapeF_eq_unescape rest.length (rest.drop 4) (by simp [List.length_drop])]
  rw [@unescapeF_eq_unescape rest.length (rest.drop 3) (by simp [List.length_drop])]
  rw [@unescapeF_eq_unescape rest.length (rest.drop 5) (by simp [List.length_drop])]
  rfl

theorem unescape_xeChar (c : Char) (r : Str) :
    unescape (xeChar c ++ r) = c :: unescape r := by
  by_cases h1 : c = '&'
  · subst h1
    rw [show xeChar '&' ++ r = '&' :: (S "amp;" ++ r) from rfl, unescape_cons]
    rw [show ('&' : Char) :: (S "amp;" ++ r) = S "&amp;" ++ r from rfl,
        hasPfx_append_self]
    rw [show (4:Nat) = (S "amp;").length from rfl, List.drop_left]
    rfl
  · by_cases h2 : c = '<'
    · subst h2
      rw [show xeChar '<' ++ r = '&' :: ('l' :: 't' :: ';' :: r) from rfl, unescape_cons]
      have amp : hasPfx (S "&amp;") ('&' :: 'l' :: 't' :: ';' :: r) = false := by
        rw [show S "&amp;" = '&' :: 'a' :: S "mp;" from rfl]; simp [hasPfx]
      rw [amp]
      rw [show ('&' : Char) :: ('l' :: 't' :: ';' :: r) = S "&lt;" ++ r from rfl,
          hasPfx_append_self]
      simp only [if_false, if_true, Bool.false_eq_true]
      rw [show ('l' :: 't' :: ';' :: r).drop 3 = (S "lt;" ++ r).drop (S "lt;").length from rfl,
          List.drop_left]
    · by_cases h3 : c = '>'
      · subst h3
        rw [show xeChar '>' ++ r = '&' :: ('g' :: 't' :: ';' :: r) from rfl, unescape_cons]
        have amp : hasPfx (S "&amp;") ('&' :: 'g' :: 't' :: ';' :: r) = false := by
          rw [show S "&amp;" = '&' :: 'a' :: S "mp;" from rfl]; simp [hasPfx]
        have lt : hasPfx (S "&lt;") ('&' :: 'g' :: 't' :: ';' :: r) = false := by
          rw [show S "&lt;" = '&' :: 'l' :: S "t;" from rfl]; simp [hasPfx]
        rw [amp, lt]
        rw [show ('&' : Char) :: ('g' :: 't' :: ';' :: r) = S "&gt;" ++ r from rfl,
            hasPfx_append_self]
        simp only [if_false, if_true, Bool.false_eq_true]
        rw [show ('g' :: 't' :: ';' :: r).drop 3 = (S "gt;" ++ r).drop (S "gt;").length from rfl,
            List.drop_left]
      · by_cases h4 : c = '"'
        · subst h4
          rw [show xeChar '"' ++ r = '&' :: ('q' :: 'u' :: 'o' :: 't' :: ';' :: r) from rfl,
              unescape_cons]
          have amp : hasPfx (S "&amp;") ('&' :: 'q' :: 'u' :: 'o' :: 't' :: ';' :: r) = false := by
            rw [show S "&amp;" = '&' :: 'a' :: S "mp;" from rfl]; simp [hasPfx]
          have lt : hasPfx (S "&lt;") ('&' :: 'q' :: 'u' :: 'o' :: 't' :: ';' :: r) = false := by
            rw [show S "&lt;" = '&' :: 'l' :: S "t;" from rfl]; simp [hasPfx]
          have gt : hasPfx (S "&gt;") ('&' :: 'q' :: 'u' :: 'o' :: 't' :: ';' :: r) = false := by
            rw [show S "&gt;" = '&' :: 'g' :: S "t;" from rfl]; simp [hasPfx]
          rw [amp, lt, gt]
          rw [show ('&' : Char) :: ('q' :: 'u' :: 'o' :: 't' :: ';' :: r) = S "&quot;" ++ r from rfl,
              hasPfx_append_self]
          simp only [if_false, if_true, Bool.false_eq_true]
          rw [show ('q' :: 'u' :: 'o' :: 't' :: ';' :: r).drop 5
                = (S "quot;" ++ r).drop (S "quot;").length from rfl,
              List.drop_left]
        · have hx : xeChar c = [c] := by simp [xeChar, h1, h2, h3, h4]
          have amp : hasPfx (S "&amp;") (c :: r) = false := by
            rw [show S "&amp;" = '&' :: S "amp;" from rfl]
            simp [hasPfx, Ne.symm h1]
          have lt : hasPfx (S "&lt;") (c :: r) = false := by
            rw [show S "&lt;" = '&' :: S "lt;" from rfl]
            simp [hasPfx, Ne.symm h1]
          have gt : hasPfx (S "&gt;") (c :: r) = false := by
            rw [show S "&gt;" = '&' :: S "gt;" from rfl]
            simp [hasPfx, Ne.symm h1]
          have qt : hasPfx (S "&quot;") (c :: r) = false := by
            rw [show S "&quot;" = '&' :: S "quot;" from rfl]
            simp [hasPfx, Ne.symm h1]
          rw [hx, List.singleton_append, unescape_cons]
          simp [amp, lt, gt, qt]

theorem unescape_xe_append (t r : Str) : unescape (xe t ++ r) = t ++ unescape r := by
  induction t with
  | nil => rfl
  | cons c cs ih =>
    show unescape ((xeChar c ++ xe cs) ++ r) = (c :: cs) ++ unescape r
    rw [List.append_assoc, unescape_xeChar, ih]
    rfl

theorem unescape_nil : unescape [] = [] := rfl

theorem unescape_xe (t : Str) : unescape (xe t) = t := by
  have := unescape_xe_append t []
  simpa [unescape_nil] using this

-- ── Spec-side: markup-tag stripping ─────────────────────────────────────────

/-- State machine stripping `<…>` tags; `inTag` is true between `<` and `>`. -/
def stripTagsAux (inTag : Bool) : Str → Str
  | [] => []
  | c :: cs =>
    if c = '<' then stripTagsAux true cs
    else if c = '>' then stripTagsAux false cs
    else if inTag then stripTagsAux true cs
    else c :: stripTagsAux false cs

/-- Final tag state after scanning a string. -/
def tagState (inTag : Bool) : Str → Bool
  | [] => inTag
  | c :: cs =>
    if c = '<' then tagState true cs
    else if c = '>' then tagState false cs
    else tagState inTag cs

/-- Spec-side: the visible text of a markup string — strip all tags, then undo
the XML escaping. -/
def visible (s : Str) : Str := unescape (stripTagsAux false s)

theorem stripTagsAux_append (b : Bool) (x y : Str) :
    stripTagsAux b (x ++ y) = stripTagsAux b x ++ stripTagsAux (tagState b x) y := by
  induction x generalizing b with
  | nil => rfl
  | cons c cs ih =>
    simp only [List.cons_append, stripTagsAux, tagState]
    by_cases h1 : c = '<'
    · simp [h1, ih]
    · by_cases h2 : c = '>'
      · simp [h1, h2, ih]
      · by_cases h3 : b
        · simp [h1, h2, h3, ih]
        · simp [h1, h2, h3, ih]

/-- Characters that may appear in escaped text and inside tag bodies without
disturbing the tag-stripping state machine. -/
def TagFree (s : Str) : Prop := ∀ c ∈ s, c ≠ '<' ∧ c ≠ '>'

instance (s : Str) : Decidable (TagFree s) := by unfold TagFree; infer_instance

theorem tagState_of_tagFree {s : Str} (h : TagFree s) (b : Bool) :
    tagState b s = b := by
  induction s with
  | nil => rfl
  | cons c cs ih =>
    have hc := h c (by simp)
    have hcs : TagFree cs := fun d hd => h d (by simp [hd])
    simp [tagState, hc.1, hc.2, ih hcs]

theorem stripTagsAux_of_tagFree {s : Str} (h : TagFree s) :
    stripTagsAux false s = s := by
  induction s with
  | nil => rfl
  | cons c cs ih =>
    have hc := h c (by simp)
    have hcs : TagFree cs := fun d hd => h d (by simp [hd])
    simp [stripTagsAux, hc.1, hc.2, ih hcs]

theorem stripTagsAux_true_of_tagFree {s : Str} (h : TagFree s) (r : Str) :
    stripTagsAux true (s ++ r) = stripTagsAux true r := by
  induction s with
  | nil => rfl
  | cons c cs ih =>
    have hc := h c (by simp)
    have hcs : TagFree cs := fun d hd => h d (by simp [hd])
    simp [stripTagsAux, hc.1, hc.2, ih hcs]

theorem xeChar_tagFree (c : Char) : TagFree (xeChar c) := by
  intro d hd
  by_cases h1 : c = '&'
  · subst h1
    exact (by decide : ∀ x ∈ S "&amp;", x ≠ '<' ∧ x ≠ '>') d hd
  · by_cases h2 : c = '<'
    · subst h2
      exact (by decide : ∀ x ∈ S "&lt;", x ≠ '<' ∧ x ≠ '>') d hd
    · by_cases h3 : c = '>'
      · subst h3
        exact (by decide : ∀ x ∈ S "&gt;", x ≠ '<' ∧ x ≠ '>') d hd
      · by_cases h4 : c = '"'
        · subst h4
          exact (by decide : ∀ x ∈ S "&quot;", x ≠ '<' ∧ x ≠ '>') d hd
        · have hx : xeChar c = [c] := by simp [xeChar, h1, h2, h3, h4]
          rw [hx] at hd
          simp at hd
          subst hd
          exact ⟨h2, h3⟩

theorem xe_tagFree (t : Str) : TagFree (xe t) := by
  induction t with
  | nil => intro c h; simp [xe] at h
  | cons c cs ih =>
    intro d hd
    simp only [xe, List.mem_append] at hd
    rcases hd with hd | hd
    · exact xeChar_tagFree c d hd
    · exact ih d hd

/-- A well-formed single tag `<…>` whose interior has no `<`/`>`:  stripping
removes it entirely and returns to the outside-tag state. -/
theorem strip_tag (a : Str) (ha : TagFree a) (r : Str) :
    stripTagsAux false (('<' :: a ++ ['>']) ++ r) = stripTagsAux false r := by
  have h1 : ('<' :: a ++ ['>']) ++ r = '<' :: (a ++ ('>' :: r)) := by simp
  rw [h1]
  show stripTagsAux false ('<' :: (a ++ '>' :: r)) = _
  simp only [stripTagsAux, if_pos rfl]
  rw [stripTagsAux_true_of_tagFree ha ('>' :: r)]
  simp [stripTagsAux]

-- ── Identifier generation (`make_prefix`, `nid`, source lines 14–22) ────────

/-- `make_prefix(title)`: `'id' + md5(title or "article").hexdigest()[:8]`.
`md` is the md5-hexdigest primitive (external library). -/
def makePfx (md : Str → Str) (title : Str) : Str :=
  S "id" ++ (md (if title = [] then S "article" else title)).take 8

/-- The id string produced by the `k`-th call of `nid`:
`f"{label}-{pfx}-{k}-{md5(f'{label}-{k}')[:12]}"`. -/
def mkNid (md : Str → Str) (pfx label : Str) (k : Nat) : Str :=
  label ++ S "-" ++ pfx ++ S "-" ++ natRepr k ++ S "-" ++
    (md (label ++ S "-" ++ natRepr k)).take 12

/-- `nid(pfx, label)` with the global counter threaded explicitly: increments
the counter, returns the fresh id and the new counter. -/
def nid (md : Str → Str) (pfx label : Str) (ctr : Nat) : Str × Nat :=
  (mkNid md pfx label (ctr + 1), ctr + 1)

-- ── Inline formatter (`para_to_inline` / `_fmt_chunk`, lines 253–341) ───────

/-- A formatted run as consumed by the converter: text plus the
superscript/italic/bold flags read from the docx run. -/
structure Run where
  t : Str
  sup : Bool
  ital : Bool
  bold : Bool
deriving Repr, DecidableEq

/-- The four alternatives of the regex group `(Table|Figure|Fig\.?)`, in the
order the regex engine tries them, each tagged with whether it yields
`ref-type="table"` (`m.group(1) == 'Table'`). -/
def kwAlts : List (Str × Bool) :=
  [(S "Table", true), (S "Figure", false), (S "Fig.", false), (S "Fig", false)]

/-- Anchored match of `(Table|Figure|Fig\.?)\s+(\d+)` at the head of `cs`:
returns (total length, digit capture, is-table).  Greedy `\s+`/`\d+` take the
maximal runs; the alternation falls through in order on failure, exactly as
the backtracking engine does. -/
def altMatch (cs : Str) : List (Str × Bool) → Option (Nat × Str × Bool)
  | [] => none
  | (kw, b) :: alts =>
    if hasPfx kw cs then
      let rest := cs.drop kw.length
      let ws := rest.takeWhile Char.isWhitespace
      let ds := (rest.drop ws.length).takeWhile Char.isDigit
      if ws ≠ [] ∧ ds ≠ [] then some (kw.length + ws.length + ds.length, ds, b)
      else altMatch cs alts
    else altMatch cs alts

theorem altMatch_len {cs : Str} {alts : List (Str × Bool)} {len : Nat} {ds : Str}
    {b : Bool} (h : altMatch cs alts = some (len, ds, b)) :
    1 ≤ len ∧ len ≤ cs.length := by
  induction alts with
  | nil => simp [altMatch] at h
  | cons a alts ih =>
    obtain ⟨kw, tb⟩ := a
    rw [altMatch] at h
    by_cases hp : hasPfx kw cs
    · simp only [hp, if_true] at h
      by_cases hws : (cs.drop kw.length).takeWhile Char.isWhitespace ≠ [] ∧
          ((cs.drop kw.length).drop
            ((cs.drop kw.length).takeWhile Char.isWhitespace).length).takeWhile
            Char.isDigit ≠ []
      · rw [if_pos hws] at h
        obtain ⟨h1, h2, h3⟩ := Prod.mk.injEq .. ▸ (Option.some_inj.mp h)
        subst h1
        constructor
        · have : (cs.drop kw.length).takeWhile Char.isWhitespace ≠ [] := hws.1
          have : 1 ≤ ((cs.drop kw.length).takeWhile Char.isWhitespace).length := by
            cases hh : (cs.drop kw.length).takeWhile Char.isWhitespace with
            | nil => exact absurd hh this
            | cons x xs => simp
          omega
        · -- pieces fit inside cs
          have hkw : kw.length ≤ cs.length := hasPfx_length hp
          have hws_len : ((cs.drop kw.length).takeWhile Char.isWhitespace).length
              ≤ (cs.drop kw.length).length :=
            (List.takeWhile_sublist Char.isWhitespace).length_le
          have hds_len :
              (((cs.drop kw.length).drop
                ((cs.drop kw.length).takeWhile Char.isWhitespace).length).takeWhile
                Char.isDigit).length
              ≤ ((cs.drop kw.length).drop
                ((cs.drop kw.length).takeWhile Char.isWhitespace).length).length :=
            (List.takeWhile_sublist _).length_le
          simp only [List.length_drop] at hws_len hds_len ⊢
          omega
      · rw [if_neg hws] at h
        exact ih h
    · simp only [hp, if_false, Bool.false_eq_true] at h
      exact ih h

/-- `re.finditer` for the Table/Figure pattern: scan left to right, restart
after each match end (non-overlapping), advance one character on failure.
Returns `(start, end, digit capture, is-table)` per match; `p` is the
absolute position of the head of `cs`. -/
def findIterF : Nat → Str → Nat → List (Nat × Nat × Str × Bool)
  | 0, _, _ => []
  | fuel + 1, cs, p =>
    match cs with
    | [] => []
    | c :: rest =>
      match altMatch (c :: rest) kwAlts with
      | some (len, ds, b) =>
        (p, p + len, ds, b) :: findIterF fuel ((c :: rest).drop len) (p + len)
      | none => findIterF fuel rest (p + 1)

def findIter (cs : Str) (p : Nat) : List (Nat × Nat × Str × Bool) :=
  findIterF cs.length cs p

/-- `m.group(0)` of a match spanning absolute positions `[s, e)` of `full`. -/
def sliceStr (full : Str) (s e : Nat) : Str := (full.drop s).take (e - s)

/-- Python dict `.get` on an association list with unique keys. -/
def lookupA : List (Str × Str) → Str → Option Str
  | [], _ => none
  | (k, v) :: kvs, q => if k = q then some v else lookupA kvs q

/-- The xref element emitted for a Table/Figure span (line 278). -/
def spanXref (xid rid : Str) (isTable : Bool) (mtext : Str) : Str :=
  S "<xref id=\"" ++ xid ++ S "\" rid=\"" ++ rid ++ S "\" ref-type=\"" ++
    (if isTable then S "table" else S "fig") ++ S "\">" ++ xe mtext ++ S "</xref>"

/-- Lines 271–279: for each regex match in order, look the number up in the
table/figure id map; when found, allocate an xref id (this is the only place
the counter moves) and record the span `(start, (end, xml))`.  Returns the
span list, the new counter and the allocated ids in order. -/
def buildSpans (md : Str → Str) (pfx : Str) (full : Str) (tids fids : List (Str × Str)) :
    List (Nat × Nat × Str × Bool) → Nat → List (Nat × Nat × Str) × Nat × List Str
  | [], ctr => ([], ctr, [])
  | (s, e, ds, b) :: ms, ctr =>
    match lookupA (if b then tids else fids) ds with
    | some rid =>
      let (xid, k) := nid md pfx (S "xref") ctr
      let xml := spanXref xid rid b (sliceStr full s e)
      let (sp, c2, ids) := buildSpans md pfx full tids fids ms k
      ((s, e, xml) :: sp, c2, xid :: ids)
    | none => buildSpans md pfx full tids fids ms ctr

/-- Lookup of `span_starts[abs]`. -/
def lookupSpan : List (Nat × Nat × Str) → Nat → Option (Nat × Str)
  | [], _ => none
  | (s, e, xml) :: sp, q => if s = q then some (e, xml) else lookupSpan sp q

/-- The separator class of `re.split(r'[,\s]+', …)`. -/
def citeSep (c : Char) : Bool := c = ',' || c.isWhitespace

/-- The character class `[\d,\s\-–]` of the superscript-citation pattern. -/
def citeClass (c : Char) : Bool :=
  c.isDigit || c = ',' || c.isWhitespace || c = '-' || c = '–'

/-- The rid emitted for an in-text citation token (line 333):
`f"{pfx}-B{num}"`. -/
def citeRid (pfx num : Str) : Str := pfx ++ S "-B" ++ num

/-- The loop of lines 329–333: one `<xref ref-type="bibr">` per all-digit
token; the counter moves only for emitted tokens. -/
def citeLoop (md : Str → Str) (pfx : Str) : List Str → Nat → Str × Nat × List Str
  | [], ctr => ([], ctr, [])
  | tok :: toks, ctr =>
    let num := pyStrip tok
    if num ≠ [] ∧ num.all Char.isDigit then
      let (xid, k) := nid md pfx (S "x") ctr
      let x := S "<xref id=\"" ++ xid ++ S "\" rid=\"" ++ citeRid pfx num ++
        S "\" ref-type=\"bibr\">" ++ xe num ++ S "</xref>"
      let (r, c2, ids) := citeLoop md pfx toks k
      (x ++ r, c2, xid :: ids)
    else citeLoop md pfx toks ctr

/-- `_fmt_chunk(t, rd, pfx)` (lines 322–341), with the counter threaded and
the allocated ids recorded. -/
def fmtChunk (md : Str → Str) (pfx : Str) (rd : Run) (t : Str) (ctr : Nat) : Str × Nat × List Str :=
  if t = [] ∨ pyStrip t = [] then (xe t, ctr, [])
  else if rd.sup then
    let numsStr := pyStrip t
    if numsStr.all citeClass then
      let (result, c2, ids) := citeLoop md pfx (splitSepRun citeSep numsStr) ctr
      if result ≠ [] then (result, c2, ids)
      else (S "<sup>" ++ xe t ++ S "</sup>", c2, ids)
    else (S "<sup>" ++ xe t ++ S "</sup>", ctr, [])
  else if rd.ital && rd.bold then
    (S "<bold><italic>" ++ xe t ++ S "</italic></bold>", ctr, [])
  else if rd.ital then (S "<italic>" ++ xe t ++ S "</italic>", ctr, [])
  else if rd.bold then
    let (bid, k) := nid md pfx (S "s") ctr
    (S "<bold id=\"" ++ bid ++ S "\">" ++ xe t ++ S "</bold>", k, [bid])
  else (xe t, ctr, [])

/-- Split the characters that follow the head of a chunk: take until reaching
a position where a span starts (the inner `j` loop of lines 305–312). -/
def takeUntilStart (isStart : Nat → Bool) : Str → Nat → Str × Str
  | [], _ => ([], [])
  | c :: rest, pos =>
    if isStart pos then ([], c :: rest)
    else
      let (a, b) := takeUntilStart isStart rest (pos + 1)
      (c :: a, b)

theorem takeUntilStart_append (isStart : Nat → Bool) :
    ∀ (cs : Str) (pos : Nat),
      (takeUntilStart isStart cs pos).1 ++ (takeUntilStart isStart cs pos).2 = cs := by
  intro cs
  induction cs with
  | nil => intro pos; rfl
  | cons c rest ih =>
    intro pos
    rw [takeUntilStart]
    by_cases h : isStart pos
    · simp [h]
    · simp only [h, if_false, Bool.false_eq_true]
      simp [ih (pos + 1)]

theorem takeUntilStart_snd_len (isStart : Nat → Bool) :
    ∀ (cs : Str) (pos : Nat),
      (takeUntilStart isStart cs pos).2.length ≤ cs.length := by
  intro cs
  induction cs with
  | nil => intro pos; simp [takeUntilStart]
  | cons c rest ih =>
    intro pos
    rw [takeUntilStart]
    by_cases h : isStart pos
    · simp [h]
    · simp only [h, if_false, Bool.false_eq_true]
      have := ih (pos + 1)
      cases hh : takeUntilStart isStart rest (pos + 1) with
      | mk a b => simp only [hh] at this ⊢; simp; omega

/-- Whether a span starts at absolute position `pos`. -/
def isSpanStart (spans : List (Nat × Nat × Str)) (pos : Nat) : Bool :=
  (lookupSpan spans pos).isSome

/-- The per-run walk of lines 283–318: skip positions inside the current skip
zone, emit the recorded xref where a span starts, otherwise gather a maximal
chunk (up to the next span start or the run end) and format it. -/
def walkRunF (md : Str → Str) (pfx : Str) (spans : List (Nat × Nat × Str)) (rd : Run) :
    Nat → Str → Nat → Nat → Nat → Str × Nat × Nat × List Str
  | 0, _, _, skipTo, ctr => ([], skipTo, ctr, [])
  | _ + 1, [], _, skipTo, ctr => ([], skipTo, ctr, [])
  | fuel + 1, c :: rest, abs, skipTo, ctr =>
    if abs < skipTo then walkRunF md pfx spans rd fuel rest (abs + 1) skipTo ctr
    else
      match lookupSpan spans abs with
      | some (e, xml) =>
        let r2 := walkRunF md pfx spans rd fuel rest (abs + 1) e ctr
        (xml ++ r2.1, r2.2)
      | none =>
        let ab := takeUntilStart (isSpanStart spans) rest (abs + 1)
        let chunk := c :: ab.1
        let fr := fmtChunk md pfx rd chunk ctr
        let r2 := walkRunF md pfx spans rd fuel ab.2 (abs + chunk.length) skipTo fr.2.1
        (fr.1 ++ r2.1, r2.2.1, r2.2.2.1, fr.2.2 ++ r2.2.2.2)

def walkRun (md : Str → Str) (pfx : Str) (spans : List (Nat × Nat × Str)) (rd : Run)
    (cs : Str) (abs skipTo ctr : Nat) : Str × Nat × Nat × List Str :=
  walkRunF md pfx spans rd cs.length cs abs skipTo ctr

/-- The outer loop over runs (lines 283–318): `char_pos` advances by the run
length; `skip_to` persists across runs. -/
def walkRuns (md : Str → Str) (pfx : Str) (spans : List (Nat × Nat × Str)) :
    List Run → Nat → Nat → Nat → Str × Nat × Nat × List Str
  | [], _, skipTo, ctr => ([], skipTo, ctr, [])
  | r :: rs, abs, skipTo, ctr =>
    let w1 := walkRun md pfx spans r r.t abs skipTo ctr
    let w2 := walkRuns md pfx spans rs (abs + r.t.length) w1.2.1 w1.2.2.1
    (w1.1 ++ w2.1, w2.2.1, w2.2.2.1, w1.2.2.2 ++ w2.2.2.2)

/-- `para_to_inline(para, pfx, cite_ids, table_ids, fig_ids)` (lines 253–320).
The paragraph is the list of its formatted runs; empty-text runs are dropped
(line 263); `cite_ids` is accepted and, exactly as in the source, never
used.  Returns the markup, the new counter, and the allocated ids in
allocation order (span xrefs first, then chunk ids). -/
def paraToInline (md : Str → Str) (pfx : Str) (_citeIds : List Str)
    (tids fids : List (Str × Str)) (runsIn : List Run) (ctr : Nat) :
    Str × Nat × List Str :=
  let runs := runsIn.filter (fun r => r.t ≠ [])
  let full := (runs.map Run.t).flatten
  let bs := buildSpans md pfx full tids fids (findIter full 0) ctr
  let w := walkRuns md pfx bs.1 runs 0 0 bs.2.1
  (w.1, w.2.2.1, bs.2.2 ++ w.2.2.2)

-- ── Visible-text accounting toolkit ─────────────────────────────────────────

/-- `Emits s v`: in any right context, tag-stripping `s` contributes exactly
the visible text `v` and leaves the scanner outside a tag. -/
def Emits (s v : Str) : Prop :=
  ∀ r, stripTagsAux false (s ++ r) = v ++ stripTagsAux false r

theorem emits_nil : Emits [] [] := fun r => by simp

theorem Emits.append {s1 v1 s2 v2 : Str} (h1 : Emits s1 v1) (h2 : Emits s2 v2) :
    Emits (s1 ++ s2) (v1 ++ v2) := by
  intro r
  rw [List.append_assoc, h1, h2, List.append_assoc]

theorem emits_of_tagFree {x : Str} (h : TagFree x) : Emits x x := by
  intro r
  induction x with
  | nil => simp
  | cons c cs ih =>
    have hc := h c (by simp)
    have hcs : TagFree cs := fun d hd => h d (by simp [hd])
    simp only [List.cons_append, stripTagsAux, hc.1, hc.2, if_false,
      Bool.false_eq_true]
    rw [show cs.append r = cs ++ r from rfl, ih hcs]

theorem emits_xe (t : Str) : Emits (xe t) (xe t) := emits_of_tagFree (xe_tagFree t)

theorem emits_tag {inner : Str} (hi : TagFree inner) :
    Emits ('<' :: inner ++ ['>']) [] := by
  intro r
  have := strip_tag inner hi r
  simpa using this

theorem tagFree_append {a b : Str} (ha : TagFree a) (hb : TagFree b) :
    TagFree (a ++ b) := by
  intro c hc
  rcases List.mem_append.mp hc with h | h
  · exact ha c h
  · exact hb c h

theorem tagFree_take {a : Str} (n : Nat) (ha : TagFree a) : TagFree (a.take n) :=
  fun c hc => ha c (List.mem_of_mem_take hc)

theorem tagFree_natRepr (n : Nat) : TagFree (natRepr n) := by
  intro c hc
  have h := mem_natRepr_isDigit hc
  constructor <;> rintro rfl <;> simp [Char.isDigit] at h

/-- `mkNid` ids never contain `<` or `>` when the digest and the prefix do
not. -/
theorem tagFree_mkNid {md : Str → Str} {pfx label : Str} {k : Nat}
    (hmd : ∀ s, TagFree (md s)) (hpfx : TagFree pfx) (hl : TagFree label) :
    TagFree (mkNid md pfx label k) := by
  unfold mkNid
  refine tagFree_append (tagFree_append (tagFree_append (tagFree_append
    (tagFree_append (tagFree_append hl ?_) hpfx) ?_) (tagFree_natRepr k)) ?_) ?_
  · intro c hc; simp [S] at hc; subst hc; decide
  · intro c hc; simp [S] at hc; subst hc; decide
  · intro c hc; simp [S] at hc; subst hc; decide
  · exact tagFree_take 12 (hmd _)

theorem emits_close_tag (s inner : Str) (h : s = '<' :: inner ++ ['>'])
    (hi : TagFree inner) : Emits s [] := by
  rw [h]; exact emits_tag hi

theorem emits_spanXref {xid rid : Str} (b : Bool) (mt : Str)
    (hx : TagFree xid) (hr : TagFree rid) :
    Emits (spanXref xid rid b mt) (xe mt) := by
  have hi : TagFree ((S "xref id=\"" ++ xid) ++ (S "\" rid=\"" ++ (rid ++
      (S "\" ref-type=\"" ++ ((if b then S "table" else S "fig") ++ S "\""))))) := by
    refine tagFree_append (tagFree_append (by decide) hx)
      (tagFree_append (by decide) (tagFree_append hr
        (tagFree_append (by decide) (tagFree_append ?_ (by decide)))))
    cases b <;> decide
  have h1 : Emits ('<' :: ((S "xref id=\"" ++ xid) ++ (S "\" rid=\"" ++ (rid ++
      (S "\" ref-type=\"" ++ ((if b then S "table" else S "fig") ++ S "\""))))) ++ ['>']) [] :=
    emits_tag hi
  have h2 : Emits (S "</xref>") [] :=
    emits_close_tag _ (S "/xref") rfl (by decide)
  have h3 := h1.append ((emits_xe mt).append h2)
  have heq : spanXref xid rid b mt
      = ('<' :: ((S "xref id=\"" ++ xid) ++ (S "\" rid=\"" ++ (rid ++
          (S "\" ref-type=\"" ++ ((if b then S "table" else S "fig") ++ S "\""))))) ++ ['>'])
        ++ (xe mt ++ S "</xref>") := by
    unfold spanXref
    simp only [show S "<xref id=\"" = '<' :: S "xref id=\"" from rfl,
      List.append_assoc, List.cons_append]
    rw [show S "\">" = S "\"" ++ ['>'] from by decide]
    simp
  rw [heq]
  simpa using h3

theorem emits_citeXref {xid pfx num : Str} (hx : TagFree xid) (hp : TagFree pfx)
    (hn : TagFree num) :
    Emits (S "<xref id=\"" ++ xid ++ S "\" rid=\"" ++ citeRid pfx num ++
      S "\" ref-type=\"bibr\">" ++ xe num ++ S "</xref>") (xe num) := by
  have hrid : TagFree (citeRid pfx num) :=
    tagFree_append (tagFree_append hp (by decide)) hn
  have hi : TagFree ((S "xref id=\"" ++ xid) ++ (S "\" rid=\"" ++ (citeRid pfx num ++
      S "\" ref-type=\"bibr\""))) :=
    tagFree_append (tagFree_append (by decide) hx)
      (tagFree_append (by decide) (tagFree_append hrid (by decide)))
  have h1 : Emits ('<' :: ((S "xref id=\"" ++ xid) ++ (S "\" rid=\"" ++ (citeRid pfx num ++
      S "\" ref-type=\"bibr\""))) ++ ['>']) [] := emits_tag hi
  have h2 : Emits (S "</xref>") [] := emits_close_tag _ (S "/xref") rfl (by decide)
  have h3 := h1.append ((emits_xe num).append h2)
  have heq : S "<xref id=\"" ++ xid ++ S "\" rid=\"" ++ citeRid pfx num ++
        S "\" ref-type=\"bibr\">" ++ xe num ++ S "</xref>"
      = ('<' :: ((S "xref id=\"" ++ xid) ++ (S "\" rid=\"" ++ (citeRid pfx num ++
          S "\" ref-type=\"bibr\""))) ++ ['>']) ++ (xe num ++ S "</xref>") := by
    simp only [show S "<xref id=\"" = '<' :: S "xref id=\"" from rfl,
      List.append_assoc, List.cons_append]
    rw [show S "\" ref-type=\"bibr\">" = S "\" ref-type=\"bibr\"" ++ ['>'] from by decide]
    simp
  rw [heq]
  simpa using h3

theorem emits_sup (t : Str) : Emits (S "<sup>" ++ xe t ++ S "</sup>") (xe t) := by
  have h1 : Emits (S "<sup>") [] := emits_close_tag _ (S "sup") rfl (by decide)
  have h2 : Emits (S "</sup>") [] := emits_close_tag _ (S "/sup") rfl (by decide)
  have h3 := h1.append ((emits_xe t).append h2)
  simpa [List.append_assoc] using h3

theorem emits_italic (t : Str) :
    Emits (S "<italic>" ++ xe t ++ S "</italic>") (xe t) := by
  have h1 : Emits (S "<italic>") [] := emits_close_tag _ (S "italic") rfl (by decide)
  have h2 : Emits (S "</italic>") [] := emits_close_tag _ (S "/italic") rfl (by decide)
  have h3 := h1.append ((emits_xe t).append h2)
  simpa [List.append_assoc] using h3

theorem emits_boldItalic (t : Str) :
    Emits (S "<bold><italic>" ++ xe t ++ S "</italic></bold>") (xe t) := by
  have h1 : Emits (S "<bold><italic>") [] := by
    have e : S "<bold><italic>" = ('<' :: S "bold" ++ ['>']) ++ ('<' :: S "italic" ++ ['>']) := rfl
    rw [e]
    have := (@emits_tag (S "bold") (by decide)).append
      (@emits_tag (S "italic") (by decide))
    simpa using this
  have h2 : Emits (S "</italic></bold>") [] := by
    have e : S "</italic></bold>" = ('<' :: S "/italic" ++ ['>']) ++ ('<' :: S "/bold" ++ ['>']) := rfl
    rw [e]
    have := (@emits_tag (S "/italic") (by decide)).append
      (@emits_tag (S "/bold") (by decide))
    simpa using this
  have h3 := h1.append ((emits_xe t).append h2)
  simpa [List.append_assoc] using h3

theorem emits_bold {bid : Str} (t : Str) (hb : TagFree bid) :
    Emits (S "<bold id=\"" ++ bid ++ S "\">" ++ xe t ++ S "</bold>") (xe t) := by
  have hi : TagFree (S "bold id=\"" ++ (bid ++ S "\"")) :=
    tagFree_append (by decide) (tagFree_append hb (by decide))
  have h1 : Emits ('<' :: (S "bold id=\"" ++ (bid ++ S "\"")) ++ ['>']) [] := emits_tag hi
  have h2 : Emits (S "</bold>") [] := emits_close_tag _ (S "/bold") rfl (by decide)
  have h3 := h1.append ((emits_xe t).append h2)
  have heq : S "<bold id=\"" ++ bid ++ S "\">" ++ xe t ++ S "</bold>"
      = ('<' :: (S "bold id=\"" ++ (bid ++ S "\"")) ++ ['>']) ++ (xe t ++ S "</bold>") := by
    simp only [show S "<bold id=\"" = '<' :: S "bold id=\"" from rfl,
      show S "\">" = S "\"" ++ ['>'] from rfl, List.append_assoc, List.cons_append]
  rw [heq]
  simpa using h3

theorem pyStrip_subset {c : Char} {s : Str} (h : c ∈ pyStrip s) : c ∈ s := by
  unfold pyStrip at h
  rw [List.mem_reverse] at h
  have h2 : c ∈ (s.dropWhile Char.isWhitespace).reverse :=
    (List.dropWhile_sublist Char.isWhitespace).subset h
  rw [List.mem_reverse] at h2
  exact (List.dropWhile_sublist Char.isWhitespace).subset h2

theorem splitSepAux_mem (p : Char → Bool) :
    ∀ (s acc : Str) (inSep : Bool) (tok : Str), tok ∈ splitSepAux p s acc inSep →
      ∀ c ∈ tok, c ∈ acc ∨ c ∈ s := by
  intro s
  induction s with
  | nil =>
    intro acc inSep tok htok c hc
    simp [splitSepAux] at htok
    subst htok
    exact Or.inl (List.mem_reverse.mp hc)
  | cons c0 rest ih =>
    intro acc inSep tok htok c hc
    rw [splitSepAux] at htok
    by_cases hp : p c0
    · simp only [hp, if_true] at htok
      by_cases hin : inSep
      · simp only [hin, if_true] at htok
        rcases ih acc true tok htok c hc with h | h
        · exact Or.inl h
        · exact Or.inr (by simp [h])
      · simp only [hin, Bool.false_eq_true, if_false] at htok
        rcases List.mem_cons.mp htok with h | h
        · subst h
          exact Or.inl (List.mem_reverse.mp hc)
        · rcases ih [] true tok h c hc with h2 | h2
          · simp at h2
          · exact Or.inr (by simp [h2])
    · simp only [hp, Bool.false_eq_true, if_false] at htok
      rcases ih (c0 :: acc) false tok htok c hc with h | h
      · rcases List.mem_cons.mp h with h2 | h2
        · subst h2; exact Or.inr (by simp)
        · exact Or.inl h2
      · exact Or.inr (by simp [h])

theorem splitSepRun_mem {p : Char → Bool} {s tok : Str} (htok : tok ∈ splitSepRun p s)
    {c : Char} (hc : c ∈ tok) : c ∈ s := by
  rcases splitSepAux_mem p s [] false tok htok c hc with h | h
  · simp at h
  · exact h

theorem citeLoop_no_digits (md : Str → Str) (pfx : Str) :
    ∀ (toks : List Str) (ctr : Nat),
      (∀ tok ∈ toks, ∀ c ∈ tok, c.isDigit = false) →
      citeLoop md pfx toks ctr = ([], ctr, []) := by
  intro toks
  induction toks with
  | nil => intro ctr _; rfl
  | cons tok toks ih =>
    intro ctr h
    rw [citeLoop]
    have hcond : ¬ (pyStrip tok ≠ [] ∧ (pyStrip tok).all Char.isDigit) := by
      rintro ⟨hne, hall⟩
      rcases List.exists_mem_of_ne_nil _ hne with ⟨c, hc⟩
      have h1 := List.all_eq_true.mp hall c hc
      have h2 := h tok (by simp) c (pyStrip_subset hc)
      rw [h1] at h2
      exact absurd h2 (by simp)
    rw [if_neg hcond]
    exact ih ctr (fun tk hk => h tk (by simp [hk]))

/-- `_fmt_chunk` preserves the chunk text exactly, provided a superscript
chunk contains no digit (otherwise the citation branch drops separators —
see the C1 counterexample). -/
theorem fmtChunk_emits (md : Str → Str) (pfx : Str) (rd : Run) (t : Str) (ctr : Nat)
    (hmd : ∀ s, TagFree (md s)) (hpfx : TagFree pfx)
    (hsup : rd.sup = true → ∀ c ∈ t, c.isDigit = false) :
    Emits (fmtChunk md pfx rd t ctr).1 (xe t) := by
  unfold fmtChunk
  by_cases h0 : t = [] ∨ pyStrip t = []
  · rw [if_pos h0]
    exact emits_xe t
  · rw [if_neg h0]
    by_cases hs : rd.sup = true
    · rw [if_pos hs]
      by_cases hcls : (pyStrip t).all citeClass
      · simp only [hcls, if_true]
        have hnod : ∀ tok ∈ splitSepRun citeSep (pyStrip t), ∀ c ∈ tok,
            c.isDigit = false := by
          intro tok htok c hc
          exact hsup hs c (pyStrip_subset (splitSepRun_mem htok hc))
        rw [citeLoop_no_digits md pfx _ ctr hnod]
        simp only [ne_eq, not_true_eq_false, if_false, reduceCtorEq]
        exact emits_sup t
      · simp only [hcls, Bool.false_eq_true, if_false]
        exact emits_sup t
    · rw [if_neg hs]
      by_cases hib : rd.ital && rd.bold
      · rw [if_pos hib]
        exact emits_boldItalic t
      · rw [if_neg hib]
        by_cases hi : rd.ital = true
        · rw [if_pos hi]
          exact emits_italic t
        · rw [if_neg hi]
          by_cases hb : rd.bold = true
          · rw [if_pos hb]
            refine emits_bold t ?_
            exact tagFree_mkNid hmd hpfx (by decide)
          · rw [if_neg hb]
            exact emits_xe t

-- ── Span geometry: the regex matches are sorted, disjoint and in bounds ─────

/-- Sorted, disjoint, in-bounds matches starting at or after `lo`. -/
inductive MChain (N : Nat) : Nat → List (Nat × Nat × Str × Bool) → Prop
  | nil (lo : Nat) : MChain N lo []
  | cons {lo s e : Nat} {ds : Str} {b : Bool} {ms : List (Nat × Nat × Str × Bool)} :
      lo ≤ s → s < e → e ≤ N → MChain N e ms → MChain N lo ((s, e, ds, b) :: ms)

/-- Sorted, disjoint, in-bounds spans starting at or after `lo`. -/
inductive Chain (N : Nat) : Nat → List (Nat × Nat × Str) → Prop
  | nil (lo : Nat) : Chain N lo []
  | cons {lo s e : Nat} {xml : Str} {sp : List (Nat × Nat × Str)} :
      lo ≤ s → s < e → e ≤ N → Chain N e sp → Chain N lo ((s, e, xml) :: sp)

theorem findIterF_mono : ∀ (f1 : Nat) (cs : Str) (p f2 : Nat), cs.length ≤ f1 →
    cs.length ≤ f2 → findIterF f1 cs p = findIterF f2 cs p := by
  intro f1
  induction f1 with
  | zero =>
    intro cs p f2 h1 _
    have hcs : cs = [] := by cases cs with | nil => rfl | cons a b => simp at h1
    subst hcs
    cases f2 <;> rfl
  | succ f ih =>
    intro cs p f2 h1 h2
    cases cs with
    | nil => cases f2 <;> rfl
    | cons c rest =>
      cases f2 with
      | zero => simp at h2
      | succ g =>
        show findIterF (f + 1) (c :: rest) p = findIterF (g + 1) (c :: rest) p
        rw [findIterF, findIterF]
        rcases heq : altMatch (c :: rest) kwAlts with _ | ⟨len, ds, b⟩
        · simp only [heq]
          exact ih rest (p + 1) g (by simp at h1 ⊢; omega) (by simp at h2 ⊢; omega)
        · simp only [heq]
          have hlen := altMatch_len heq
          obtain ⟨hl1, hl2⟩ := hlen
          have hd : ((c :: rest).drop len).length ≤ f := by
            simp only [List.length_drop, List.length_cons] at hl2 h1 ⊢
            omega
          have hd2 : ((c :: rest).drop len).length ≤ g := by
            simp only [List.length_drop, List.length_cons] at hl2 h2 ⊢
            omega
          rw [ih ((c :: rest).drop len) (p + len) g hd hd2]

theorem findIter_cons (c : Char) (rest : Str) (p : Nat) :
    findIter (c :: rest) p =
      (match altMatch (c :: rest) kwAlts with
      | some (len, ds, b) =>
        (p, p + len, ds, b) :: findIter ((c :: rest).drop len) (p + len)
      | none => findIter rest (p + 1)) := by
  show findIterF (rest.length + 1) (c :: rest) p = _
  rw [findIterF]
  rcases heq : altMatch (c :: rest) kwAlts with _ | ⟨len, ds, b⟩
  · simp only [heq]
    rfl
  · simp only [heq]
    have hlen := altMatch_len heq
    congr 1
    apply findIterF_mono
    · simp only [List.length_drop]; simp at hlen ⊢; omega
    · rfl

theorem MChain.monoLoM {N lo lo' : Nat} {ms : List (Nat × Nat × Str × Bool)}
    (h : MChain N lo ms) (hle : lo' ≤ lo) : MChain N lo' ms := by
  cases h with
  | nil => exact MChain.nil lo'
  | cons h1 h2 h3 h4 => exact MChain.cons (by omega) h2 h3 h4

theorem findIter_mchain : ∀ (n : Nat) (cs : Str), cs.length ≤ n →
    ∀ p, MChain (p + cs.length) p (findIter cs p) := by
  intro n
  induction n with
  | zero =>
    intro cs h p
    have hcs : cs = [] := by cases cs with | nil => rfl | cons a b => simp at h
    subst hcs
    exact MChain.nil p
  | succ m ih =>
    intro cs h p
    cases cs with
    | nil => exact MChain.nil p
    | cons c rest =>
      rw [findIter_cons]
      rcases heq : altMatch (c :: rest) kwAlts with _ | ⟨len, ds, b⟩
      · simp only
        have := ih rest (by simp at h ⊢; omega) (p + 1)
        have harith : p + 1 + rest.length = p + (c :: rest).length := by simp; omega
        rw [harith] at this
        exact this.monoLoM (by omega)
      · simp only
        have hlen := altMatch_len heq
        have hdl : ((c :: rest).drop len).length = (c :: rest).length - len := by
          simp [List.length_drop]
        have := ih ((c :: rest).drop len)
          (by rw [hdl]; simp at h ⊢; omega) (p + len)
        rw [hdl] at this
        have harith : p + len + ((c :: rest).length - len) = p + (c :: rest).length := by
          have := hlen.2; omega
        rw [harith] at this
        exact MChain.cons (Nat.le_refl p) (by omega) (by have := hlen.2; omega) this

theorem Chain.monoLoC {N lo lo' : Nat} {sp : List (Nat × Nat × Str)}
    (h : Chain N lo sp) (hle : lo' ≤ lo) : Chain N lo' sp := by
  cases h with
  | nil => exact Chain.nil lo'
  | cons h1 h2 h3 h4 => exact Chain.cons (by omega) h2 h3 h4

theorem chain_mem {N lo : Nat} {sp : List (Nat × Nat × Str)} (h : Chain N lo sp) :
    ∀ x ∈ sp, lo ≤ x.1 ∧ x.1 < x.2.1 ∧ x.2.1 ≤ N := by
  induction sp generalizing lo with
  | nil => intro x hx; simp at hx
  | cons hd tl ih =>
    intro x hx
    cases h with
    | cons h1 h2 h3 h4 =>
      rcases List.mem_cons.mp hx with rfl | hx2
      · exact ⟨h1, h2, h3⟩
      · have := ih h4 x hx2
        exact ⟨by omega, this.2⟩

/-- The skip boundary `t` does not cut through any span. -/
def Align (t : Nat) (sp : List (Nat × Nat × Str)) : Prop :=
  ∀ x ∈ sp, x.2.1 ≤ t ∨ t ≤ x.1

theorem align_of_le {N lo : Nat} {sp : List (Nat × Nat × Str)} (h : Chain N lo sp)
    {t : Nat} (ht : t ≤ lo) : Align t sp := by
  intro x hx
  exact Or.inr (by have := (chain_mem h x hx).1; omega)

theorem chain_align_mem {N lo : Nat} {sp : List (Nat × Nat × Str)} (h : Chain N lo sp)
    {s e : Nat} {xml : Str} (hm : (s, e, xml) ∈ sp) : Align e sp := by
  induction sp generalizing lo with
  | nil => simp at hm
  | cons hd tl ih =>
    obtain ⟨s0, e0, x0⟩ := hd
    cases h with
    | cons h1 h2 h3 h4 =>
      rcases List.mem_cons.mp hm with heq | hm2
      · obtain ⟨rfl, rfl, rfl⟩ : s = s0 ∧ e = e0 ∧ xml = x0 := by
          simpa [Prod.ext_iff] using heq
        intro x hx
        rcases List.mem_cons.mp hx with rfl | hx2
        · exact Or.inl (Nat.le_refl _)
        · exact Or.inr (chain_mem h4 x hx2).1
      · intro x hx
        rcases List.mem_cons.mp hx with rfl | hx2
        · obtain ⟨ha, hb, hc⟩ := chain_mem h4 _ hm2
          have ha2 : e0 ≤ s := ha
          have hb2 : s < e := hb
          exact Or.inl (show e0 ≤ e by omega)
        · exact ih h4 hm2 x hx2

theorem lookupSpan_mem : ∀ {sp : List (Nat × Nat × Str)} {q e : Nat} {xml : Str},
    lookupSpan sp q = some (e, xml) → (q, e, xml) ∈ sp := by
  intro sp
  induction sp with
  | nil => intro q e xml h; simp [lookupSpan] at h
  | cons hd tl ih =>
    intro q e xml h
    obtain ⟨s0, e0, x0⟩ := hd
    rw [lookupSpan] at h
    by_cases hq : s0 = q
    · subst hq
      simp only [if_pos rfl, Option.some_inj, Prod.mk.injEq] at h
      rcases h with ⟨rfl, rfl⟩
      simp
    · rw [if_neg hq] at h
      exact List.mem_cons_of_mem _ (ih h)

theorem lookupA_tagFree : ∀ {l : List (Str × Str)} {q v : Str},
    (∀ kv ∈ l, TagFree kv.2) → lookupA l q = some v → TagFree v := by
  intro l
  induction l with
  | nil => intro q v _ h; simp [lookupA] at h
  | cons kv kvs ih =>
    intro q v hall h
    obtain ⟨k0, v0⟩ := kv
    rw [lookupA] at h
    by_cases hk : k0 = q
    · rw [if_pos hk, Option.some_inj] at h
      subst h
      exact hall (k0, v0) (by simp)
    · rw [if_neg hk] at h
      exact ih (fun kv hkv => hall kv (by simp [hkv])) h

-- ── Slice algebra ───────────────────────────────────────────────────────────

theorem sliceStr_self (full : Str) (a : Nat) : sliceStr full a a = [] := by
  simp [sliceStr]

theorem sliceStr_glue (full : Str) {a b c : Nat} (h1 : a ≤ b) (h2 : b ≤ c) :
    sliceStr full a b ++ sliceStr full b c = sliceStr full a c := by
  unfold sliceStr
  have hd : full.drop b = (full.drop a).drop (b - a) := by
    rw [List.drop_drop]
    congr 1
    omega
  rw [hd, ← List.take_add]
  congr 1
  omega

theorem isPrefix_tail {c : Char} {rest l : Str} {abs : Nat}
    (h : List.IsPrefix (c :: rest) (l.drop abs)) :
    List.IsPrefix rest (l.drop (abs + 1)) := by
  obtain ⟨t, ht⟩ := h
  refine ⟨t, ?_⟩
  have : l.drop (abs + 1) = (l.drop abs).drop 1 := by
    rw [List.drop_drop]
  rw [this, ← ht]
  rfl

theorem isPrefix_chunk {chunk rem l : Str} {abs : Nat}
    (h : List.IsPrefix (chunk ++ rem) (l.drop abs)) :
    List.IsPrefix rem (l.drop (abs + chunk.length)) ∧
      chunk = sliceStr l abs (abs + chunk.length) := by
  obtain ⟨t, ht⟩ := h
  constructor
  · refine ⟨t, ?_⟩
    have hdd : l.drop (abs + chunk.length) = (l.drop abs).drop chunk.length := by
      rw [List.drop_drop]
    rw [hdd, ← ht, List.append_assoc, List.drop_left]
  · unfold sliceStr
    rw [← ht, List.append_assoc]
    have : abs + chunk.length - abs = chunk.length := by omega
    rw [this, List.take_left]

theorem buildSpans_props (md : Str → Str) (pfx full : Str)
    (tids fids : List (Str × Str))
    (hmd : ∀ s, TagFree (md s)) (hpfx : TagFree pfx)
    (htids : ∀ kv ∈ tids, TagFree kv.2) (hfids : ∀ kv ∈ fids, TagFree kv.2)
    {N : Nat} :
    ∀ (ms : List (Nat × Nat × Str × Bool)) (ctr lo : Nat), MChain N lo ms →
      Chain N lo (buildSpans md pfx full tids fids ms ctr).1 ∧
      ∀ x ∈ (buildSpans md pfx full tids fids ms ctr).1,
        Emits x.2.2 (xe (sliceStr full x.1 x.2.1)) := by
  intro ms
  induction ms with
  | nil =>
    intro ctr lo _
    exact ⟨Chain.nil lo, by simp [buildSpans]⟩
  | cons m ms ih =>
    intro ctr lo h
    obtain ⟨s, e, ds, b⟩ := m
    cases h with
    | cons h1 h2 h3 h4 =>
      rw [buildSpans]
      rcases hrid : lookupA (if b then tids else fids) ds with _ | rid
      · simp only [hrid]
        have hr := ih ctr e h4
        exact ⟨hr.1.monoLoC (by omega), hr.2⟩
      · simp only [hrid, nid]
        have hridT : TagFree rid := by
          cases b
          · exact lookupA_tagFree hfids (by simpa using hrid)
          · exact lookupA_tagFree htids (by simpa using hrid)
        have hxid : TagFree (mkNid md pfx (S "xref") (ctr + 1)) :=
          tagFree_mkNid hmd hpfx (by decide)
        have hr := ih (ctr + 1) e h4
        constructor
        · exact Chain.cons h1 h2 h3 hr.1
        · intro x hx
          rcases List.mem_cons.mp hx with rfl | hx2
          · exact emits_spanXref b _ hxid hridT
          · exact hr.2 x hx2

/-- The core accounting invariant of the cursor walk (lines 283–318): starting
at absolute position `abs` with skip boundary `skipTo`, the emitted markup's
visible text is exactly the slice of the full text from
`max abs skipTo` to `max (abs + |cs|) skipTo'` — every character is consumed
exactly once, with spans emitting their whole slice when the cursor reaches
their start. -/
theorem walkRunF_visible (md : Str → Str) (pfx full : Str)
    (spans : List (Nat × Nat × Str)) (rd : Run)
    (hmd : ∀ s, TagFree (md s)) (hpfx : TagFree pfx)
    (hch : Chain full.length 0 spans)
    (hsp : ∀ x ∈ spans, Emits x.2.2 (xe (sliceStr full x.1 x.2.1))) :
    ∀ (fuel : Nat) (cs : Str), cs.length ≤ fuel →
      ∀ (abs skipTo ctr : Nat), List.IsPrefix cs (full.drop abs) →
        Align skipTo spans → skipTo ≤ full.length →
        (rd.sup = true → ∀ c ∈ cs, c.isDigit = false) →
        Emits (walkRunF md pfx spans rd fuel cs abs skipTo ctr).1
          (xe (sliceStr full (max abs skipTo)
            (max (abs + cs.length) (walkRunF md pfx spans rd fuel cs abs skipTo ctr).2.1))) ∧
        skipTo ≤ (walkRunF md pfx spans rd fuel cs abs skipTo ctr).2.1 ∧
        (walkRunF md pfx spans rd fuel cs abs skipTo ctr).2.1 ≤ full.length ∧
        Align (walkRunF md pfx spans rd fuel cs abs skipTo ctr).2.1 spans := by
  intro fuel
  induction fuel with
  | zero =>
    intro cs hf abs skipTo ctr _ hal hsk _
    have hcs : cs = [] := by cases cs with | nil => rfl | cons a b => simp at hf
    subst hcs
    refine ⟨?_, Nat.le_refl _, hsk, hal⟩
    show Emits [] (xe (sliceStr full (max abs skipTo) (max (abs + 0) skipTo)))
    have : max (abs + 0) skipTo = max abs skipTo := by omega
    rw [this, sliceStr_self]
    exact emits_nil
  | succ f ih =>
    intro cs hf abs skipTo ctr hpre hal hsk hdig
    cases cs with
    | nil =>
      refine ⟨?_, Nat.le_refl _, hsk, hal⟩
      show Emits [] (xe (sliceStr full (max abs skipTo) (max (abs + 0) skipTo)))
      have : max (abs + 0) skipTo = max abs skipTo := by omega
      rw [this, sliceStr_self]
      exact emits_nil
    | cons c rest =>
      rw [walkRunF]
      by_cases hskip : abs < skipTo
      · rw [if_pos hskip]
        have hih := ih rest (by simp at hf; omega) (abs + 1) skipTo ctr
          (isPrefix_tail hpre) hal hsk
          (fun hs d hd => hdig hs d (by simp [hd]))
        refine ⟨?_, hih.2.1, hih.2.2.1, hih.2.2.2⟩
        have e1 : max (abs + 1) skipTo = max abs skipTo := by omega
        have e2 : abs + 1 + rest.length = abs + (c :: rest).length := by simp; omega
        rw [e1, e2] at hih
        exact hih.1
      · rw [if_neg hskip]
        have hsk_abs : skipTo ≤ abs := by omega
        rcases hlk : lookupSpan spans abs with _ | ⟨e, xml⟩
        · -- chunk case: gather up to the next span start and format it
          simp only [hlk]
          have hsplit := takeUntilStart_append (isSpanStart spans) rest (abs + 1)
          have hcs_eq : (c :: (takeUntilStart (isSpanStart spans) rest (abs + 1)).1) ++
              (takeUntilStart (isSpanStart spans) rest (abs + 1)).2 = c :: rest := by
            simp [hsplit]
          have hpre2 : List.IsPrefix
              ((c :: (takeUntilStart (isSpanStart spans) rest (abs + 1)).1) ++
                (takeUntilStart (isSpanStart spans) rest (abs + 1)).2) (full.drop abs) := by
            rw [hcs_eq]; exact hpre
          obtain ⟨hpre3, hchunk⟩ := isPrefix_chunk hpre2
          have hdig2 : rd.sup = true →
              ∀ d ∈ (c :: (takeUntilStart (isSpanStart spans) rest (abs + 1)).1),
                d.isDigit = false := by
            intro hs d hd
            exact hdig hs d (by rw [← hcs_eq]; exact List.mem_append.mpr (Or.inl hd))
          have hfmt := fmtChunk_emits md pfx rd
            (c :: (takeUntilStart (isSpanStart spans) rest (abs + 1)).1) ctr hmd hpfx hdig2
          have hlen_sum : (c :: (takeUntilStart (isSpanStart spans) rest (abs + 1)).1).length +
              (takeUntilStart (isSpanStart spans) rest (abs + 1)).2.length
              = (c :: rest).length := by
            rw [← hcs_eq]; simp; omega
          have hih := ih (takeUntilStart (isSpanStart spans) rest (abs + 1)).2
            (by simp only [List.length_cons] at hlen_sum ⊢; simp at hf; omega)
            (abs + (c :: (takeUntilStart (isSpanStart spans) rest (abs + 1)).1).length)
            skipTo
            (fmtChunk md pfx rd (c :: (takeUntilStart (isSpanStart spans) rest (abs + 1)).1) ctr).2.1
            hpre3 hal hsk
            (fun hs d hd => hdig hs d (by rw [← hcs_eq]; exact List.mem_append.mpr (Or.inr hd)))
          refine ⟨?_, by have := hih.2.1; omega, hih.2.2.1, hih.2.2.2⟩
          have hih1 := hih.1
          have hst := hih.2.1
          have e1 : max (abs + (c :: (takeUntilStart (isSpanStart spans) rest (abs + 1)).1).length)
              skipTo = abs + (c :: (takeUntilStart (isSpanStart spans) rest (abs + 1)).1).length := by
            omega
          have e3 : abs + (c :: (takeUntilStart (isSpanStart spans) rest (abs + 1)).1).length +
              (takeUntilStart (isSpanStart spans) rest (abs + 1)).2.length
              = abs + (c :: rest).length := by omega
          rw [e1, e3] at hih1
          have e2 : max abs skipTo = abs := by omega
          rw [e2]
          have hA : abs ≤ abs + (c :: (takeUntilStart (isSpanStart spans) rest (abs + 1)).1).length := by
            omega
          have hB : abs + (c :: (takeUntilStart (isSpanStart spans) rest (abs + 1)).1).length ≤
              max (abs + (c :: rest).length)
                (walkRunF md pfx spans rd f
                  (takeUntilStart (isSpanStart spans) rest (abs + 1)).2
                  (abs + (c :: (takeUntilStart (isSpanStart spans) rest (abs + 1)).1).length)
                  skipTo
                  (fmtChunk md pfx rd
                    (c :: (takeUntilStart (isSpanStart spans) rest (abs + 1)).1) ctr).2.1).2.1 := by
            simp only [List.length_cons] at hlen_sum ⊢
            omega
          have hglue := sliceStr_glue full hA hB
          have hslice : sliceStr full abs
              (max (abs + (c :: rest).length)
                (walkRunF md pfx spans rd f
                  (takeUntilStart (isSpanStart spans) rest (abs + 1)).2
                  (abs + (c :: (takeUntilStart (isSpanStart spans) rest (abs + 1)).1).length)
                  skipTo
                  (fmtChunk md pfx rd
                    (c :: (takeUntilStart (isSpanStart spans) rest (abs + 1)).1) ctr).2.1).2.1)
              = (c :: (takeUntilStart (isSpanStart spans) rest (abs + 1)).1) ++
                sliceStr full
                  (abs + (c :: (takeUntilStart (isSpanStart spans) rest (abs + 1)).1).length)
                  (max (abs + (c :: rest).length)
                    (walkRunF md pfx spans rd f
                      (takeUntilStart (isSpanStart spans) rest (abs + 1)).2
                      (abs + (c :: (takeUntilStart (isSpanStart spans) rest (abs + 1)).1).length)
                      skipTo
                      (fmtChunk md pfx rd
                        (c :: (takeUntilStart (isSpanStart spans) rest (abs + 1)).1) ctr).2.1).2.1) := by
            rw [← hglue]
            congr 1
            exact hchunk.symm
          rw [hslice, xe_append]
          exact hfmt.append hih1
        · -- span case: emit the recorded xref, skip to the span end
          simp only [hlk]
          have hmem := lookupSpan_mem hlk
          have hb := chain_mem hch _ hmem
          have hb1 : abs < e := hb.2.1
          have hb2 : e ≤ full.length := hb.2.2
          have hxml : Emits xml (xe (sliceStr full abs e)) := hsp _ hmem
          have hal2 : Align e spans := chain_align_mem hch hmem
          have hih := ih rest (by simp at hf; omega) (abs + 1) e ctr
            (isPrefix_tail hpre) hal2 hb2
            (fun hs d hd => hdig hs d (by simp [hd]))
          refine ⟨?_, by have := hih.2.1; omega, hih.2.2.1, hih.2.2.2⟩
          have hih1 := hih.1
          have hst := hih.2.1
          have e1 : max (abs + 1) e = e := by omega
          have e2 : abs + 1 + rest.length = abs + (c :: rest).length := by simp; omega
          rw [e1, e2] at hih1
          have e4 : max abs skipTo = abs := by omega
          rw [e4]
          have hglue := sliceStr_glue full (show abs ≤ e by omega)
            (show e ≤ max (abs + (c :: rest).length)
              (walkRunF md pfx spans rd f rest (abs + 1) e ctr).2.1 by omega)
          rw [← hglue, xe_append]
          exact hxml.append hih1

theorem walkRuns_visible (md : Str → Str) (pfx full : Str)
    (spans : List (Nat × Nat × Str))
    (hmd : ∀ s, TagFree (md s)) (hpfx : TagFree pfx)
    (hch : Chain full.length 0 spans)
    (hsp : ∀ x ∈ spans, Emits x.2.2 (xe (sliceStr full x.1 x.2.1))) :
    ∀ (runs : List Run) (abs skipTo ctr : Nat),
      List.IsPrefix ((runs.map Run.t).flatten) (full.drop abs) →
      Align skipTo spans → skipTo ≤ full.length →
      (∀ r ∈ runs, r.sup = true → ∀ c ∈ r.t, c.isDigit = false) →
      Emits (walkRuns md pfx spans runs abs skipTo ctr).1
        (xe (sliceStr full (max abs skipTo)
          (max (abs + ((runs.map Run.t).flatten).length)
            (walkRuns md pfx spans runs abs skipTo ctr).2.1))) ∧
      skipTo ≤ (walkRuns md pfx spans runs abs skipTo ctr).2.1 ∧
      (walkRuns md pfx spans runs abs skipTo ctr).2.1 ≤ full.length ∧
      Align (walkRuns md pfx spans runs abs skipTo ctr).2.1 spans := by
  intro runs
  induction runs with
  | nil =>
    intro abs skipTo ctr _ hal hsk _
    refine ⟨?_, Nat.le_refl _, hsk, hal⟩
    show Emits [] (xe (sliceStr full (max abs skipTo) (max (abs + 0) skipTo)))
    have : max (abs + 0) skipTo = max abs skipTo := by omega
    rw [this, sliceStr_self]
    exact emits_nil
  | cons r rs ih =>
    intro abs skipTo ctr hpre hal hsk hdig
    have hflat : (((r :: rs).map Run.t).flatten) = r.t ++ ((rs.map Run.t).flatten) := by
      simp
    rw [hflat] at hpre
    have hpre1 : List.IsPrefix r.t (full.drop abs) :=
      List.IsPrefix.trans ⟨(rs.map Run.t).flatten, rfl⟩ hpre
    obtain ⟨hpre2, _⟩ := @isPrefix_chunk r.t ((rs.map Run.t).flatten) _ _ hpre
    have hw := walkRunF_visible md pfx full spans r hmd hpfx hch hsp r.t.length r.t
      (Nat.le_refl _) abs skipTo ctr hpre1 hal hsk (hdig r (by simp))
    have hih := ih (abs + r.t.length)
      (walkRunF md pfx spans r r.t.length r.t abs skipTo ctr).2.1
      (walkRunF md pfx spans r r.t.length r.t abs skipTo ctr).2.2.1
      hpre2 hw.2.2.2 hw.2.2.1
      (fun q hq => hdig q (by simp [hq]))
    rw [walkRuns]
    simp only [walkRun]
    refine ⟨?_, by have := hw.2.1; have := hih.2.1; omega, hih.2.2.1, hih.2.2.2⟩
    have hcomb := hw.1.append hih.1
    have hg1 : max abs skipTo ≤ max (abs + r.t.length)
        (walkRunF md pfx spans r r.t.length r.t abs skipTo ctr).2.1 := by
      have := hw.2.1
      omega
    have hg2 : max (abs + r.t.length)
        (walkRunF md pfx spans r r.t.length r.t abs skipTo ctr).2.1 ≤
        max (abs + r.t.length + ((rs.map Run.t).flatten).length)
          (walkRuns md pfx spans rs (abs + r.t.length)
            (walkRunF md pfx spans r r.t.length r.t abs skipTo ctr).2.1
            (walkRunF md pfx spans r r.t.length r.t abs skipTo ctr).2.2.1).2.1 := by
      have := hih.2.1
      omega
    have hglue := sliceStr_glue full hg1 hg2
    rw [← xe_append, hglue] at hcomb
    have hlen : abs + (((r :: rs).map Run.t).flatten).length
        = abs + r.t.length + ((rs.map Run.t).flatten).length := by
      rw [hflat]
      simp
      omega
    rw [hlen]
    exact hcomb

theorem hexStr_tagFree {s : Str} (h : HexStr s) : TagFree s := by
  intro c hc
  rcases h c hc with hd | ⟨h1, h2⟩
  · constructor <;> rintro rfl <;> simp [Char.isDigit] at hd
  · constructor <;> rintro rfl <;> revert h1 <;> decide

theorem makePfx_tagFree {md : Str → Str} (hmd : ∀ s, HexStr (md s)) (title : Str) :
    TagFree (makePfx md title) := by
  unfold makePfx
  refine tagFree_append (by decide) (tagFree_take 8 (hexStr_tagFree (hmd _)))

theorem flatten_filter_texts (runsIn : List Run) :
    (((runsIn.filter (fun r => r.t ≠ [])).map Run.t).flatten)
      = ((runsIn.map Run.t).flatten) := by
  induction runsIn with
  | nil => rfl
  | cons r rs ih =>
    by_cases hr : r.t = []
    · simp only [ne_eq, decide_not] at ih ⊢
      simp [List.filter_cons, hr, ih]
    · simp only [ne_eq, decide_not] at ih ⊢
      simp [List.filter_cons, hr, ih]

/-- `para_to_inline` accounts for every input character exactly once,
provided no superscript run contains a digit (so that the citation branch of
`_fmt_chunk` never fires): the visible text of the output equals the
concatenation of the run texts. -/
theorem paraToInline_visible (md : Str → Str) (pfx : Str) (citeIds : List Str)
    (tids fids : List (Str × Str)) (runsIn : List Run) (ctr : Nat)
    (hmd : ∀ s, HexStr (md s)) (hpfx : TagFree pfx)
    (htids : ∀ kv ∈ tids, TagFree kv.2) (hfids : ∀ kv ∈ fids, TagFree kv.2)
    (hdig : ∀ r ∈ runsIn, r.sup = true → ∀ c ∈ r.t, c.isDigit = false) :
    visible (paraToInline md pfx citeIds tids fids runsIn ctr).1
      = ((runsIn.map Run.t).flatten) := by
  have hmdT : ∀ s, TagFree (md s) := fun s => hexStr_tagFree (hmd s)
  unfold paraToInline
  simp only
  set runs := runsIn.filter (fun r => r.t ≠ []) with hruns
  set full := ((runs.map Run.t).flatten) with hfull
  have hmc : MChain full.length 0 (findIter full 0) := by
    have := findIter_mchain full.length full (Nat.le_refl _) 0
    simpa using this
  have hbs := buildSpans_props md pfx full tids fids hmdT hpfx htids hfids
    (findIter full 0) ctr 0 hmc
  have hwr := walkRuns_visible md pfx full
    (buildSpans md pfx full tids fids (findIter full 0) ctr).1 hmdT hpfx hbs.1 hbs.2
    runs 0 0 (buildSpans md pfx full tids fids (findIter full 0) ctr).2.1
    (by rw [List.drop_zero])
    (fun x hx => Or.inr (Nat.zero_le _))
    (Nat.zero_le _)
    (fun r hr => hdig r (List.mem_of_mem_filter hr))
  have hst := hwr.2.2.1
  have hstop : max (0 + full.length)
      (walkRuns md pfx (buildSpans md pfx full tids fids (findIter full 0) ctr).1
        runs 0 0 (buildSpans md pfx full tids fids (findIter full 0) ctr).2.1).2.1
      = full.length := by omega
  have hvis := hwr.1
  rw [hstop] at hvis
  have hmax0 : max 0 0 = 0 := rfl
  rw [hmax0] at hvis
  have hsl : sliceStr full 0 full.length = full := by
    unfold sliceStr
    simp
  rw [hsl] at hvis
  have := hvis []
  rw [List.append_nil] at this
  show visible _ = _
  unfold visible
  rw [this]
  rw [show stripTagsAux false ([] : Str) = [] from rfl, List.append_nil, unescape_xe]
  rw [hfull, hruns, flatten_filter_texts]

-- ── Claim C1 ────────────────────────────────────────────────────────────────

/-- A concrete stand-in for the md5 hex digest, used for concrete instances;
any function returning lowercase-hex strings satisfies the digest hypotheses. -/
def mdTest : Str → Str := fun _ => S "0123456789abcdef0123456789abcdef"

/-- C1 counterexample: the claim "the visible text recoverable from
`para_to_inline`'s output equals the concatenation of all input run texts"
is false as stated.  For the single superscript run `"1,2"` (with empty
lookup tables), `_fmt_chunk`'s citation branch emits one `bibr` xref per
digit token and drops the comma: the visible text is `"12"`, not `"1,2"`. -/
theorem claim_C1_counterexample :
    visible (paraToInline mdTest (S "idabc") [] [] []
        [⟨S "1,2", true, false, false⟩] 0).1
      ≠ ((([⟨S "1,2", true, false, false⟩] : List Run).map Run.t).flatten) ∧
    visible (paraToInline mdTest (S "idabc") [] [] []
        [⟨S "1,2", true, false, false⟩] 0).1 = S "12" := by
  constructor
  · decide
  · decide

/-- C1 (amended): for every paragraph (ordered list of runs, each a text with
superscript/italic/bold flags) in which no superscript run contains a digit
character, and any citation/table/figure lookup tables, the visible text
recoverable from `para_to_inline`'s output — stripping all markup tags and
undoing the XML escaping — equals the concatenation of all input run texts:
no character is lost or duplicated.  (Superscript runs containing digits are
excluded because the citation branch of `_fmt_chunk` drops separators and
non-digit tokens, per the counterexample.) -/
theorem claim_C1 (md : Str → Str) (pfx : Str) (citeIds : List Str)
    (tids fids : List (Str × Str)) (runsIn : List Run) (ctr : Nat)
    (hmd : ∀ s, HexStr (md s)) (hpfx : TagFree pfx)
    (htids : ∀ kv ∈ tids, TagFree kv.2) (hfids : ∀ kv ∈ fids, TagFree kv.2)
    (hdig : ∀ r ∈ runsIn, r.sup = true → ∀ c ∈ r.t, c.isDigit = false) :
    visible (paraToInline md pfx citeIds tids fids runsIn ctr).1
      = ((runsIn.map Run.t).flatten) :=
  paraToInline_visible md pfx citeIds tids fids runsIn ctr hmd hpfx htids hfids hdig

/-- Witness for C1: a concrete paragraph whose "Table 1" mention is split
across two runs, with a table lookup entry for it; the hypotheses hold by
computation and the visible text equals the concatenated run texts. -/
theorem claim_C1_witness :
    (∀ s, HexStr (mdTest s)) ∧ TagFree (S "idabc") ∧
    (∀ kv ∈ [(S "1", S "tw-1")], TagFree kv.2) ∧
    visible (paraToInline mdTest (S "idabc") [] [(S "1", S "tw-1")] []
        [⟨S "see Ta", false, false, false⟩, ⟨S "ble 1 ok", false, true, false⟩] 0).1
      = ((([⟨S "see Ta", false, false, false⟩,
            ⟨S "ble 1 ok", false, true, false⟩] : List Run).map Run.t).flatten) :=
  ⟨fun _ => show HexStr (S "0123456789abcdef0123456789abcdef") from by decide,
    by decide, by decide,
    claim_C1 mdTest (S "idabc") [] [(S "1", S "tw-1")] []
      [⟨S "see Ta", false, false, false⟩, ⟨S "ble 1 ok", false, true, false⟩] 0
      (fun _ => show HexStr (S "0123456789abcdef0123456789abcdef") from by decide)
      (by decide) (by decide) (by decide) (by decide)⟩

-- ── Claim C5 ────────────────────────────────────────────────────────────────

theorem xeChar_no_specials (c : Char) :
    ∀ d ∈ xeChar c, d ≠ '<' ∧ d ≠ '>' ∧ d ≠ '"' := by
  intro d hd
  by_cases h1 : c = '&'
  · subst h1; exact (by decide : ∀ x ∈ S "&amp;", x ≠ '<' ∧ x ≠ '>' ∧ x ≠ '"') d hd
  · by_cases h2 : c = '<'
    · subst h2; exact (by decide : ∀ x ∈ S "&lt;", x ≠ '<' ∧ x ≠ '>' ∧ x ≠ '"') d hd
    · by_cases h3 : c = '>'
      · subst h3; exact (by decide : ∀ x ∈ S "&gt;", x ≠ '<' ∧ x ≠ '>' ∧ x ≠ '"') d hd
      · by_cases h4 : c = '"'
        · subst h4
          exact (by decide : ∀ x ∈ S "&quot;", x ≠ '<' ∧ x ≠ '>' ∧ x ≠ '"') d hd
        · have hx : xeChar c = [c] := by simp [xeChar, h1, h2, h3, h4]
          rw [hx] at hd
          simp at hd
          subst hd
          exact ⟨h2, h3, h4⟩

theorem xe_no_specials (t : Str) : ∀ d ∈ xe t, d ≠ '<' ∧ d ≠ '>' ∧ d ≠ '"' := by
  induction t with
  | nil => intro d hd; simp [xe] at hd
  | cons c cs ih =>
    intro d hd
    rcases List.mem_append.mp hd with h | h
    · exact xeChar_no_specials c d h
    · exact ih d h

theorem xe_count_apos (t : Str) : (xe t).count '\'' = t.count '\'' := by
  induction t with
  | nil => rfl
  | cons c cs ih =>
    show (xeChar c ++ xe cs).count '\'' = (c :: cs).count '\''
    rw [List.count_append, ih]
    by_cases h1 : c = '&'
    · subst h1; simp [xeChar]; rfl
    · by_cases h2 : c = '<'
      · subst h2; simp [xeChar]; rfl
      · by_cases h3 : c = '>'
        · subst h3; simp [xeChar]; rfl
        · by_cases h4 : c = '"'
          · subst h4; simp [xeChar]; rfl
          · have hx : xeChar c = [c] := by simp [xeChar, h1, h2, h3, h4]
            rw [hx]
            simp [List.count_cons]
            omega

/-- C5 counterexample: the claim says the escaping function replaces all five
XML metacharacters, including the apostrophe, with their entity forms.  `xe`
(the chain of `.replace` calls on lines 23–25) handles only four: a plain
chunk containing an apostrophe is emitted with the apostrophe intact. -/
theorem claim_C5_counterexample :
    (fmtChunk mdTest (S "idabc") ⟨S "x", false, false, false⟩ (S "don't") 0).1
      = S "don't" ∧ '\'' ∈ (S "don't") := by
  constructor
  · decide
  · decide

/-- C5 (amended): for every plain text chunk (not superscript, bold or
italic), `_fmt_chunk` emits `xe t`, which escapes exactly the four
metacharacters ampersand, less-than, greater-than and double quote — no raw
`<`, `>` or `"` survives, the escaping is lossless (`unescape` recovers the
input), and apostrophes are passed through unchanged rather than being
replaced by an entity. -/
theorem claim_C5 (md : Str → Str) (pfx : Str) (rd : Run) (t : Str) (ctr : Nat)
    (hs : rd.sup = false) (hi : rd.ital = false) (hb : rd.bold = false) :
    (fmtChunk md pfx rd t ctr).1 = xe t ∧
    (∀ d ∈ xe t, d ≠ '<' ∧ d ≠ '>' ∧ d ≠ '"') ∧
    unescape (xe t) = t ∧
    (xe t).count '\'' = t.count '\'' := by
  refine ⟨?_, xe_no_specials t, unescape_xe t, xe_count_apos t⟩
  unfold fmtChunk
  by_cases h0 : t = [] ∨ pyStrip t = []
  · rw [if_pos h0]
  · rw [if_neg h0, hs]
    simp only [Bool.false_eq_true, if_false, hi, hb, Bool.false_and]

/-- Witness for C5: the plain chunk `a'b<c"` is emitted as its `xe` image. -/
theorem claim_C5_witness :
    (⟨S "x", false, false, false⟩ : Run).sup = false ∧
    (fmtChunk mdTest (S "idabc") ⟨S "x", false, false, false⟩ (S "a'b<c\"") 0).1
      = xe (S "a'b<c\"") :=
  ⟨by decide,
    (claim_C5 mdTest (S "idabc") ⟨S "x", false, false, false⟩ (S "a'b<c\"") 0
      (by decide) (by decide) (by decide)).1⟩

-- ── Author-name parser (`parse_author_name`, lines 45–55) and claim C6 ──────

/-- The name record returned by `parse_author_name` (and the shape of the
author/enrichment name dicts).  The source dict key `prefix` is rendered
here as `npfx` (`prefix` is reserved in Lean); `orcid` defaults to the empty
string for dicts without that key (`.get('orcid')` then yields a falsy
value, matching the default). -/
structure NameRec where
  surname : Str := []
  given : Str := []
  npfx : Str := []
  orcid : Str := []
deriving Repr, DecidableEq

/-- The regex `^[A-Z]{1,3}\.?$` of lines 51/53: one to three ASCII capitals
followed by an optional dot.  (Backtracking cannot rescue other shapes since
`[A-Z]` never matches `.`.) -/
def isInitialsTok (s : Str) : Bool :=
  let up := s.takeWhile (fun c => 'A' ≤ c && c ≤ 'Z')
  let rest := s.drop up.length
  decide (1 ≤ up.length) && decide (up.length ≤ 3) && (rest = [] || rest = ['.'])

/-- `parse_author_name(raw)` (lines 45–55).  Note: the source has NO special
handling for multi-word-surname connectors ("von", "van", "de", …) — the
final `return` simply takes the last token as surname. -/
def parse_author_name (raw : Str) : NameRec :=
  let name := pyRstrip ['.', ','] (pyStrip raw)
  if name = [] then {}
  else
    match splitWs name with
    | [] => {}
    | [p] => { surname := p }
    | p0 :: p1 :: rest =>
      if isInitialsTok ((p0 :: p1 :: rest).getLast (by simp)) then
        { surname := List.intercalate (S " ") (p0 :: p1 :: rest).dropLast,
          given := pyRstrip ['.'] ((p0 :: p1 :: rest).getLast (by simp)) }
      else if isInitialsTok p0 then
        { surname := List.intercalate (S " ") (p1 :: rest),
          given := pyRstrip ['.'] p0 }
      else
        { surname := (p0 :: p1 :: rest).getLast (by simp),
          given := List.intercalate (S " ") (p0 :: p1 :: rest).dropLast }

/-- C6 counterexample: the claim says that for "Ludwig van Beethoven" (three
tokens, last token not an initials token, connector "van" second-to-last)
the returned surname spans the connector and the final token
("van Beethoven").  The source has no connector list: it returns surname
"Beethoven", given "Ludwig van". -/
theorem claim_C6_counterexample :
    (parse_author_name (S "Ludwig van Beethoven")).surname = S "Beethoven" ∧
    (parse_author_name (S "Ludwig van Beethoven")).given = S "Ludwig van" ∧
    S "Beethoven" ≠ S "van Beethoven" := by
  refine ⟨?_, ?_, ?_⟩ <;> decide

/-- C6 (amended): for every raw string that cleans up to three or more
whitespace tokens whose last token is not a 1–3-capital (optionally dotted)
initials token AND whose first token is not one either, `parse_author_name`
returns the last token as surname and the space-join of all preceding tokens
as given-name — unconditionally, with no multi-word-surname connector
handling.  (The first-token condition is needed because the `AB Surname`
branch fires first; the connector exception of the original claim does not
exist in the code, per the counterexample.) -/
theorem claim_C6 (raw p0 p1 : Str) (rest : List Str)
    (hform : splitWs (pyRstrip ['.', ','] (pyStrip raw)) = p0 :: p1 :: rest)
    (_hlen : rest ≠ [])
    (hlast : isInitialsTok ((p0 :: p1 :: rest).getLast (by simp)) = false)
    (hfirst : isInitialsTok p0 = false) :
    parse_author_name raw =
      { surname := (p0 :: p1 :: rest).getLast (by simp),
        given := List.intercalate (S " ") (p0 :: p1 :: rest).dropLast } := by
  unfold parse_author_name
  have hne : pyRstrip ['.', ','] (pyStrip raw) ≠ [] := by
    intro h
    rw [h] at hform
    simp [splitWs, splitWsAux] at hform
  rw [if_neg hne, hform]
  simp only [hlast, hfirst, Bool.false_eq_true, if_false]

/-- Witness for C6: "Ludwig van Beethoven" itself satisfies the amended
claim's hypotheses. -/
theorem claim_C6_witness :
    splitWs (pyRstrip ['.', ','] (pyStrip (S "Ludwig van Beethoven")))
      = [S "Ludwig", S "van", S "Beethoven"] ∧
    parse_author_name (S "Ludwig van Beethoven") =
      { surname := ([S "Ludwig", S "van", S "Beethoven"]).getLast (by simp),
        given := List.intercalate (S " ") ([S "Ludwig", S "van", S "Beethoven"]).dropLast } :=
  ⟨by decide,
    claim_C6 (S "Ludwig van Beethoven") (S "Ludwig") (S "van") [S "Beethoven"]
      (by decide) (by decide) (by decide) (by decide)⟩

-- ── `parse_ref` record and `_fix_lpage` (lines 157–164), claim C7 ───────────

/-- The parsed-reference record built by `parse_ref` (lines 100–102). -/
structure RefParsed where
  authors : List NameRec := []
  title : Str := []
  journal : Str := []
  year : Str := []
  volume : Str := []
  issue : Str := []
  fpage : Str := []
  lpage : Str := []
  doi : Str := []
  hasEtAl : Bool := false
  pubType : Str := S "journal"
deriving Repr, DecidableEq

/-- `_fix_lpage(r)` (lines 157–164): when both pages parse as integers and
the last page is smaller, prefix it with the leading digits of the first
page; `int()` failure (`except: pass`) leaves the record unchanged. -/
def fixLpage (r : RefParsed) : RefParsed :=
  if r.fpage ≠ [] ∧ r.lpage ≠ [] then
    match natOfDigits r.fpage, natOfDigits r.lpage with
    | some fp, some lp =>
      if lp < fp then
        { r with lpage :=
            (natRepr fp).take ((natRepr fp).length - (natRepr lp).length) ++ natRepr lp }
      else r
    | _, _ => r
  else r

/-- C7: when `parse_ref` extracts numeric first/last pages with the last
page smaller than the first, `_fix_lpage` repairs the last page by prefixing
it with the leading digits of the first page — the digits of `fpage` beyond
the length of the `lpage` token.  (Stated for canonical digit tokens, i.e.
tokens without leading zeros, which is what the `\d+` captures of well-formed
page ranges are.) -/
theorem claim_C7 (r : RefParsed) (fp lp : Nat)
    (hf : r.fpage = natRepr fp) (hl : r.lpage = natRepr lp) (hlt : lp < fp) :
    (fixLpage r).lpage =
      (natRepr fp).take ((natRepr fp).length - (natRepr lp).length) ++ natRepr lp := by
  unfold fixLpage
  rw [hf, hl]
  rw [if_pos ⟨natRepr_ne_nil fp, natRepr_ne_nil lp⟩]
  rw [natOfDigits_natRepr, natOfDigits_natRepr]
  simp only [hlt, if_true]

/-- Witness for C7, the scenario from the spec: fpage 473 and raw lpage
token "8" yield the corrected lpage "478". -/
theorem claim_C7_witness :
    ({ fpage := S "473", lpage := S "8" } : RefParsed).fpage = natRepr 473 ∧
    (fixLpage { fpage := S "473", lpage := S "8" }).lpage = S "478" := by
  refine ⟨by decide, ?_⟩
  rw [claim_C7 { fpage := S "473", lpage := S "8" } 473 8 (by decide) (by decide)
    (by decide)]
  decide

-- ── A small backtracking regex engine for the `re` patterns of parse_ref ────

/-- Regex AST: enough for the patterns used in `converter.py`.  Alternation
order and the `greedy` flags encode Python's backtracking preferences
(`X*` loop-first, `X*?` exit-first). -/
inductive RE where
  | eps
  | chr (c : Char)
  | cls (p : Char → Bool)
  | cat (a b : RE)
  | alt (a b : RE)
  | star (greedy : Bool) (r : RE)
  | grp (n : Nat) (r : RE)
  | bow
  | eos

/-- Captured spans, most recent first: (group index, start, end). -/
abbrev Caps := List (Nat × Nat × Nat)

/-- Python `\w`. -/
def isWordChar (c : Char) : Bool := c.isAlphanum || c = '_'

/-- Python `\b`: positions where word-ness changes. -/
def isWordBoundary (s : Str) (pos : Nat) : Bool :=
  let before :=
    match pos with
    | 0 => false
    | p + 1 => match s.get? p with
      | some c => isWordChar c
      | none => false
  let after :=
    match s.get? pos with
    | some c => isWordChar c
    | none => false
  before != after

/-- Backtracking matcher in continuation-passing style.  The fuel bounds the
recursion depth (it is a structural-termination device; the caller passes
enough for the patterns and subject strings in question).  The empty-match
guard `p2 = pos` in the star case mirrors the engine's refusal to loop on
zero-width iterations. -/
def reRun (s : Str) : Nat → RE → Nat → Caps → (Nat → Caps → Option (Nat × Caps)) →
    Option (Nat × Caps)
  | 0, _, _, _, _ => none
  | fuel + 1, re, pos, caps, k =>
    match re with
    | .eps => k pos caps
    | .chr c =>
      match s.get? pos with
      | some d => if d = c then k (pos + 1) caps else none
      | none => none
    | .cls p =>
      match s.get? pos with
      | some d => if p d then k (pos + 1) caps else none
      | none => none
    | .cat a b => reRun s fuel a pos caps (fun p2 c2 => reRun s fuel b p2 c2 k)
    | .alt a b =>
      match reRun s fuel a pos caps k with
      | some res => some res
      | none => reRun s fuel b pos caps k
    | .star greedy r =>
      if greedy then
        match reRun s fuel r pos caps
            (fun p2 c2 => if p2 = pos then none
              else reRun s fuel (.star greedy r) p2 c2 k) with
        | some res => some res
        | none => k pos caps
      else
        match k pos caps with
        | some res => some res
        | none =>
          reRun s fuel r pos caps
            (fun p2 c2 => if p2 = pos then none
              else reRun s fuel (.star greedy r) p2 c2 k)
    | .grp n r => reRun s fuel r pos caps (fun p2 c2 => k p2 ((n, pos, p2) :: c2))
    | .bow => if isWordBoundary s pos then k pos caps else none
    | .eos => if pos = s.length then k pos caps else none

/-- Structural size of a pattern, used to budget the matcher fuel. -/
def reSize : RE → Nat
  | .eps | .chr _ | .cls _ | .bow | .eos => 1
  | .cat a b | .alt a b => reSize a + reSize b + 1
  | .star _ r => reSize r + 1
  | .grp _ r => reSize r + 1

/-- Fuel that is always sufficient for the patterns in this file. -/
def reFuel (re : RE) (s : Str) : Nat := (s.length + 1) * (reSize re + 2) + 8

/-- Python `re.match`: anchored attempt at position 0; returns (end, caps). -/
def reMatch (re : RE) (s : Str) : Option (Nat × Caps) :=
  reRun s (reFuel re s) re 0 [] (fun p c => some (p, c))

/-- Helper for `reSearch`: try successive start positions. -/
def reSearchFrom (re : RE) (s : Str) : Nat → Nat → Option (Nat × Nat × Caps)
  | 0, _ => none
  | fuel + 1, pos =>
    match reRun s (reFuel re s) re pos [] (fun p c => some (p, c)) with
    | some (e, caps) => some (pos, e, caps)
    | none => if s.length ≤ pos then none else reSearchFrom re s fuel (pos + 1)

/-- Python `re.search`: leftmost match; returns (start, end, caps). -/
def reSearch (re : RE) (s : Str) : Option (Nat × Nat × Caps) :=
  reSearchFrom re s (s.length + 1) 0

/-- `m.group(n)` (empty when the group did not participate). -/
def capStr (s : Str) (n : Nat) (caps : Caps) : Str :=
  match caps.find? (fun t => t.1 = n) with
  | some (_, st, en) => sliceStr s st en
  | none => []

/-- Helper for `reSubEmpty`: scan positions, dropping matched spans. -/
def reSubEmptyFrom (re : RE) (s : Str) : Nat → Nat → Str
  | 0, _ => []
  | fuel + 1, pos =>
    match s.get? pos with
    | none => []
    | some c =>
      match reRun s (reFuel re s) re pos [] (fun p cc => some (p, cc)) with
      | some (e, _) =>
        if pos < e then reSubEmptyFrom re s fuel e
        else c :: reSubEmptyFrom re s fuel (pos + 1)
      | none => c :: reSubEmptyFrom re s fuel (pos + 1)

/-- Python `re.sub(pattern, '', s)`: delete every match. -/
def reSubEmpty (re : RE) (s : Str) : Str := reSubEmptyFrom re s (s.length + 1) 0

-- regex combinators mirroring the concrete pattern syntax
def reLit (t : Str) : RE := t.foldr (fun c acc => .cat (.chr c) acc) .eps

/-- Case-insensitive literal (`re.I`). -/
def reLitCI (t : Str) : RE :=
  t.foldr (fun c acc => .cat (.cls (fun d => d.toLower = c.toLower)) acc) .eps

def rePlus (greedy : Bool) (r : RE) : RE := .cat r (.star greedy r)
def reOpt (greedy : Bool) (r : RE) : RE := if greedy then .alt r .eps else .alt .eps r
def reD : RE := .cls Char.isDigit
def reW : RE := .cls Char.isWhitespace
def reUpper : RE := .cls (fun c => 'A' ≤ c && c ≤ 'Z')
def reDot : RE := .cls (fun c => c ≠ '\n')

/-- A case-insensitive single character. -/
def ciChr (c : Char) : RE := .cls (fun d => d.toLower = c.toLower)

/-- `[^\s,;\]]`. -/
def clsNoStop : RE := .cls (fun c => !(c.isWhitespace || c = ',' || c = ';' || c = ']'))

/-- `https?://doi\.org/(10\.[^\s,;\]]+)` with `re.I`. -/
def pDoi1 : RE :=
  .cat (reLitCI (S "http")) (.cat (reOpt true (ciChr 's'))
    (.cat (reLitCI (S "://doi.org/"))
      (.grp 1 (.cat (reLitCI (S "10.")) (rePlus true clsNoStop)))))

/-- `\bDOI:?\s*(10\.[^\s,;\]]+)` with `re.I`. -/
def pDoi2 : RE :=
  .cat .bow (.cat (reLitCI (S "DOI")) (.cat (reOpt true (ciChr ':'))
    (.cat (.star true reW)
      (.grp 1 (.cat (reLitCI (S "10.")) (rePlus true clsNoStop))))))

/-- `\b(10\.\d{4,}/[^\s,;\]]+)` with `re.I`. -/
def pDoi3 : RE :=
  .cat .bow (.grp 1 (.cat (reLitCI (S "10."))
    (.cat reD (.cat reD (.cat reD (.cat reD (.cat (.star true reD)
      (.cat (.chr '/') (rePlus true clsNoStop)))))))))

/-- `https?://\S+` (case-sensitive, used by `re.sub`). -/
def pUrl : RE :=
  .cat (reLit (S "http")) (.cat (reOpt true (.chr 's'))
    (.cat (reLit (S "://")) (rePlus true (.cls (fun c => !c.isWhitespace)))))

/-- `\[dissertation\]|\[thesis\]` with `re.I`. -/
def pThesis : RE := .alt (reLitCI (S "[dissertation]")) (reLitCI (S "[thesis]"))

/-- `\bbook\b|\bmonograph\b|\bpublisher\b` with `re.I`. -/
def pBook : RE :=
  .alt (.cat .bow (.cat (reLitCI (S "book")) .bow))
    (.alt (.cat .bow (.cat (reLitCI (S "monograph")) .bow))
      (.cat .bow (.cat (reLitCI (S "publisher")) .bow)))

/-- `\b((?:19|20)\d{2})\b`. -/
def pYear : RE :=
  .cat .bow (.cat (.grp 1 (.cat (.alt (reLit (S "19")) (reLit (S "20"))) (.cat reD reD))) .bow)

/-- `(\d+)\s*\((\d+)\)\s*:\s*(\d+)\s*[-–]\s*(\d+)`. -/
def pPages1 : RE :=
  .cat (.grp 1 (rePlus true reD)) (.cat (.star true reW)
    (.cat (.chr '(') (.cat (.grp 2 (rePlus true reD)) (.cat (.chr ')')
      (.cat (.star true reW) (.cat (.chr ':') (.cat (.star true reW)
        (.cat (.grp 3 (rePlus true reD)) (.cat (.star true reW)
          (.cat (.cls (fun c => c = '-' || c = '–')) (.cat (.star true reW)
            (.grp 4 (rePlus true reD)))))))))))))

/-- `(\d+)\s*:\s*(\d+)\s*[-–]\s*(\d+)`. -/
def pPages2 : RE :=
  .cat (.grp 1 (rePlus true reD)) (.cat (.star true reW)
    (.cat (.chr ':') (.cat (.star true reW)
      (.cat (.grp 2 (rePlus true reD)) (.cat (.star true reW)
        (.cat (.cls (fun c => c = '-' || c = '–')) (.cat (.star true reW)
          (.grp 3 (rePlus true reD)))))))))

/-- `[A-Z]{1,3}` (greedy). -/
def caps13 : RE := .cat reUpper (reOpt true (.cat reUpper (reOpt true reUpper)))

/-- One author unit `[A-Z][a-zA-Z\-\']+\s+[A-Z]{1,3}(?:\s+[A-Z]{1,3})?(?:,\s*)?`. -/
def authUnit : RE :=
  .cat reUpper (.cat (rePlus true (.cls (fun c => c.isAlpha || c = '-' || c = '\'')))
    (.cat (rePlus true reW) (.cat caps13
      (.cat (reOpt true (.cat (rePlus true reW) caps13))
        (reOpt true (.cat (.chr ',') (.star true reW)))))))

/-- `(?:,?\s*(?:et al\.?|and\s+[A-Z]\w+\s+[A-Z]{1,3}))?`. -/
def etalOpt : RE :=
  reOpt true (.cat (reOpt true (.chr ',')) (.cat (.star true reW)
    (.alt (.cat (reLit (S "et al")) (reOpt true (.chr '.')))
      (.cat (reLit (S "and")) (.cat (rePlus true reW) (.cat reUpper
        (.cat (rePlus true (.cls isWordChar)) (.cat (rePlus true reW) caps13))))))))

/-- The author-list/title split regex of line 134 (anchored `re.match`):
`^((?:unit)+?(?:et-al-or-and)?)[\.,]\s+([A-Z].+)`. -/
def pAuthor : RE :=
  .cat (.grp 1 (.cat (.cat authUnit (.star false authUnit)) etalOpt))
    (.cat (.cls (fun c => c = '.' || c = ','))
      (.cat (rePlus true reW) (.grp 2 (.cat reUpper (rePlus true reDot)))))

/-- The journal-abbreviation alternation of line 145, in source order. -/
def jAlt : RE :=
  .alt (.cat (.chr 'J') .bow) (.alt (reLit (S "Journal")) (.alt (reLit (S "Ann"))
    (.alt (reLit (S "Rev")) (.alt (reLit (S "Int")) (.alt (reLit (S "Eur"))
      (.alt (reLit (S "Am")) (.alt (reLit (S "Br")) (.alt (reLit (S "Clin"))
        (.alt (reLit (S "Med")) (.alt (reLit (S "Sci")) (.alt (reLit (S "Res"))
          (.alt (reLit (S "Arch")) (.alt (reLit (S "Bull"))
            (.alt (reLit (S "Acad")) (reLit (S "Proc"))))))))))))))))

/-- The title/journal regex of line 145 (anchored `re.match`):
`^(.+?)\.\s+([A-Z][^\d]{3,}(?:J\b|Journal|…|Proc))`. -/
def pTitle : RE :=
  .cat (.grp 1 (.cat reDot (.star false reDot)))
    (.cat (.chr '.') (.cat (rePlus true reW)
      (.grp 2 (.cat reUpper (.cat (.cls (fun c => !c.isDigit))
        (.cat (.cls (fun c => !c.isDigit)) (.cat (.cls (fun c => !c.isDigit))
          (.cat (.star true (.cls (fun c => !c.isDigit))) jAlt))))))))

/-- `et al\.?$` with `re.I`. -/
def pEtalEnd : RE := .cat (reLitCI (S "et al")) (.cat (reOpt true (ciChr '.')) .eos)

/-- Python `s.split('.')[0]`. -/
def takeUntilDot (s : Str) : Str := s.takeWhile (fun c => c ≠ '.')

/-- Lines 105–112: set the DOI from group 1 if it contains a slash. -/
def doiApply (raw : Str) (r : RefParsed) (caps : Caps) : RefParsed :=
  let v := pyRstrip ['.', ',', ']'] (capStr raw 1 caps)
  if '/' ∈ v then { r with doi := v } else r

/-- The author loop of lines 139–143: strip each comma-separated piece, stop
with the `hasEtAl` flag on an `et al` piece, keep parsed names whose surname
is longer than one character. -/
def authLoop : List Str → List NameRec × Bool
  | [] => ([], false)
  | ap :: aps =>
    let ap2 := pyRstrip ['.'] (pyStrip ap)
    if (reSearch pEtalEnd ap2).isSome then ([], true)
    else
      let pn := parse_author_name ap2
      let rest := authLoop aps
      if pn.surname ≠ [] ∧ 1 < pn.surname.length then (pn :: rest.1, rest.2) else rest

/-- `parse_ref(raw)` (lines 99–155): best-effort field extraction; every
branch returns a record, no failure path exists. -/
def parse_ref (raw : Str) : RefParsed :=
  let r0 : RefParsed := {}
  let r1 :=
    match reSearch pDoi1 raw with
    | some (_, _, caps) => doiApply raw r0 caps
    | none =>
      match reSearch pDoi2 raw with
      | some (_, _, caps) => doiApply raw r0 caps
      | none =>
        match reSearch pDoi3 raw with
        | some (_, _, caps) => doiApply raw r0 caps
        | none => r0
  let clean := pyStrip (reSubEmpty pUrl raw)
  let r2 := if (reSearch pThesis clean).isSome then { r1 with pubType := S "thesis" } else r1
  let r3 := if (reSearch pBook clean).isSome then { r2 with pubType := S "book" } else r2
  let r4 :=
    match reSearch pYear clean with
    | some (_, _, caps) => { r3 with year := capStr clean 1 caps }
    | none => r3
  let r5 :=
    match reSearch pPages1 clean with
    | some (_, _, caps) =>
      { r4 with volume := capStr clean 1 caps, issue := capStr clean 2 caps,
                fpage := capStr clean 3 caps, lpage := capStr clean 4 caps }
    | none =>
      match reSearch pPages2 clean with
      | some (_, _, caps) =>
        { r4 with volume := capStr clean 1 caps,
                  fpage := capStr clean 2 caps, lpage := capStr clean 3 caps }
      | none => r4
  let r6 := fixLpage r5
  match reMatch pAuthor clean with
  | some (_, caps) =>
    let authorStr := capStr clean 1 caps
    let restStr := capStr clean 2 caps
    let al := authLoop (splitCommaWs authorStr)
    let r7 := { r6 with authors := al.1, hasEtAl := al.2 }
    match reMatch pTitle restStr with
    | some (_, caps2) =>
      { r7 with title := pyStrip (capStr restStr 1 caps2),
                journal := pyStrip (takeUntilDot (capStr restStr 2 caps2)) }
    | none => { r7 with title := pyStrip (takeUntilDot restStr) }
  | none => { r6 with title := pyStrip (takeUntilDot clean) }

-- ── DOCX parser (`parse_docx` and its helpers, lines 29–97/344–527) ─────────

/-- Python `str.lstrip()` (ASCII whitespace model). -/
def pyLstrip (s : Str) : Str := s.dropWhile Char.isWhitespace

/-- Python `str.strip(chars)`: drop the given characters from both ends. -/
def pyStripC (cs : List Char) (s : Str) : Str :=
  pyRstrip cs (s.dropWhile (fun c => c ∈ cs))

/-- Python `str.split(sep)` for a one-character separator: split at every
occurrence, keeping empty pieces. -/
def splitCharAux (sep : Char) : Str → Str → List Str
  | [], acc => [acc.reverse]
  | c :: rest, acc =>
    if c = sep then acc.reverse :: splitCharAux sep rest []
    else splitCharAux sep rest (c :: acc)

def splitChar (sep : Char) (s : Str) : List Str := splitCharAux sep s []

/-- Python `sep.join(pieces)`. -/
def joinSep (sep : Str) : List Str → Str
  | [] => []
  | [x] => x
  | x :: y :: r => x ++ sep ++ joinSep sep (y :: r)

/-- Python `s.split(pat, 1)[1]`: the suffix after the first occurrence of
`pat` (empty when `pat` does not occur, a case the source guards against). -/
def afterSub (pat : Str) : Str → Str
  | [] => []
  | c :: rest =>
    if hasPfx pat (c :: rest) then (c :: rest).drop pat.length
    else afterSub pat rest

/-- Python `str.isdigit()` (ASCII model): nonempty and all digits. -/
def isDigits (s : Str) : Bool := s ≠ [] && s.all Char.isDigit

/-- An author entry of the parsed model (`_flush`, line 82): the name fields
plus the collected affiliation numbers and the corresponding-author flag. -/
structure Auth where
  surname : Str := []
  given : Str := []
  orcid : Str := []
  affiliationNums : List Str := []
  isCorresponding : Bool := false
deriving Repr, DecidableEq

/-- `_flush(name, affs, corr, out)` (lines 78–82): returns the entry to
append, if any. -/
def flushAuthor (name : Str) (affs : List Str) (corr : Bool) : Option Auth :=
  let name := pyStrip (pyStripC [','] (pyStrip name))
  if name = [] then none
  else
    let pn := parse_author_name name
    if pn.surname ≠ [] then
      some { surname := pn.surname, given := pn.given,
             affiliationNums := affs, isCorresponding := corr }
    else none

/-- The separator class of `re.split(r'[,،\s]+', t)` (line 63). -/
def affSep (c : Char) : Bool := c = ',' || c = '،' || c.isWhitespace

/-- The run loop of `parse_authors_para` (lines 59–74), with the loop state
`(authors, cur_name, cur_affs, is_corr)` explicit. -/
def authorsParaLoop : List Run → List Auth → Str → List Str → Bool → List Auth × Str × List Str × Bool
  | [], authors, curName, curAffs, isCorr => (authors, curName, curAffs, isCorr)
  | run :: rest, authors, curName, curAffs, isCorr =>
    let t := run.t
    if t = [] then authorsParaLoop rest authors curName curAffs isCorr
    else if run.sup then
      let nums := ((splitSepRun affSep t).filter (fun n => isDigits (pyStrip n))).map pyStrip
      authorsParaLoop rest authors curName (curAffs ++ nums) isCorr
    else if pyStrip t = ['*'] then
      authorsParaLoop rest authors curName curAffs true
    else if ',' ∈ t then
      let parts := splitChar ',' t
      let nm := curName ++ parts.headD []
      let authors' := match flushAuthor nm curAffs isCorr with
        | some a => authors ++ [a]
        | none => authors
      authorsParaLoop rest authors' (pyStrip (joinSep (S ",") parts.tail)) [] false
    else authorsParaLoop rest authors (curName ++ t) curAffs isCorr

/-- `parse_authors_para(para)` (lines 57–76). -/
def parse_authors_para (runs : List Run) : List Auth :=
  let st := authorsParaLoop runs [] [] [] false
  if pyStrip st.2.1 ≠ [] then
    match flushAuthor st.2.1 st.2.2.1 st.2.2.2 with
    | some a => st.1 ++ [a]
    | none => st.1
  else st.1

/-- The regex `^(\d+)\s*(.+)` of line 93. -/
def pAffNum : RE :=
  .cat (.grp 1 (rePlus true reD))
    (.cat (.star true reW) (.grp 2 (.cat reDot (.star true reDot))))

/-- A paragraph of the docx as consumed by the converter: its style name, its
formatted runs, and whether its XML carries an inline image (the
`drawing`/`pic:`/`blipFill` test of line 444). -/
structure DPara where
  style : Str
  runs : List Run
  hasImage : Bool := false
deriving Repr, DecidableEq

/-- Python `para.text`: the concatenation of the run texts. -/
def DPara.text (p : DPara) : Str := (p.runs.map Run.t).flatten

/-- `parse_affiliation(para)` (lines 84–96): returns `(num, full)`. -/
def parse_affiliation (p : DPara) : Str × Str :=
  let step := p.runs.foldl
    (fun (st : Str × List Str) run =>
      if run.sup && isDigits (pyStrip run.t) then (pyStrip run.t, st.2)
      else (st.1, st.2 ++ [run.t])) ([], [])
  let num := step.1
  let full := pyStrip step.2.flatten
  if num = [] then
    match reMatch pAffNum (pyStrip p.text) with
    | some (_, caps) =>
      (capStr (pyStrip p.text) 1 caps, pyStrip (capStr (pyStrip p.text) 2 caps))
    | none => (num, pyStrip p.text)
  else (num, full)

/-- `SEC_MAP` (lines 30–37), in insertion order. -/
def SEC_MAP : List (Str × Str) :=
  [(S "introduction", S "intro"), (S "material and methods", S "methods"),
   (S "materials and methods", S "methods"), (S "methods", S "methods"),
   (S "methodology", S "methods"), (S "results", S "results"),
   (S "discussion", S "discussion"), (S "conclusion", S "conclusions"),
   (S "conclusions", S "conclusions"), (S "acknowledgement", S "acknowledgments"),
   (S "acknowledgements", S "acknowledgments"), (S "acknowledgment", S "acknowledgments"),
   (S "acknowledgments", S "acknowledgments")]

/-- `get_sec_type(title)` (lines 38–42): first map key contained in the
lowercased stripped title. -/
def get_sec_type (title : Str) : Option Str :=
  let lc := pyStrip (lowerStr title)
  (SEC_MAP.find? (fun kv => containsSub lc kv.1)).map (fun kv => kv.2)

/-- Update the first list element satisfying `p` (the `for …: if …: …; break`
idiom); the flag reports whether one was found. -/
def updFirst {α : Type} (p : α → Bool) (f : α → α) : List α → List α × Bool
  | [] => ([], false)
  | x :: xs =>
    if p x then (f x :: xs, true)
    else
      let r := updFirst p f xs
      (x :: r.1, r.2)

/-- Python dict assignment `d[k] = v` on an association list (overwrite the
existing key, else append). -/
def setA (l : List (Str × Str)) (k v : Str) : List (Str × Str) :=
  let u := updFirst (fun kv => kv.1 = k) (fun kv => (kv.1, v)) l
  if u.2 then u.1 else l ++ [(k, v)]

/-- Lines 374–377: append `txt` to the value of the last abstract key, or
start a `text` entry when the abstract is still empty. -/
def updLastVal (l : List (Str × Str)) (txt : Str) : List (Str × Str) :=
  match l.getLast? with
  | none => [(S "text", txt)]
  | some kv => l.dropLast ++ [(kv.1, kv.2 ++ S " " ++ txt)]

/-- A table cell of the parsed model (line 482). -/
structure Cell where
  text : Str
  colspan : Nat := 1
deriving Repr, DecidableEq

/-- A parsed-model table entry (lines 428/489). -/
structure Tbl where
  num : Nat
  caption : Str := []
  rows : List (List Cell) := []
  colwidths : List Str := []
  placed : Bool := false
deriving Repr, DecidableEq

/-- A parsed-model figure entry (lines 438/459). -/
structure Fig where
  num : Nat
  caption : Str := []
  placed : Bool := false
  hasImage : Bool := false
deriving Repr, DecidableEq

/-- An enrichment record as returned by the CrossRef/PubMed fetchers
(lines 190–199/242–249); a missing field is the empty (falsy) value. -/
structure EnRec where
  authors : List NameRec := []
  title : Str := []
  journal : Str := []
  year : Str := []
  volume : Str := []
  issue : Str := []
  fpage : Str := []
  lpage : Str := []
  doi : Str := []
  pmid : Str := []
deriving Repr, DecidableEq

/-- A reference entry of the parsed model (lines 409–413). -/
structure RefRec where
  num : Nat
  raw : Str
  doi : Str := []
  parsed : RefParsed := {}
  crossref : Option EnRec := none
  pubmed : Option EnRec := none
deriving Repr, DecidableEq

/-- A subsection of the parsed model (line 398). -/
structure SubSec where
  title : Str
  paragraphs : List DPara := []
  secType : Option Str := none
deriving Repr, DecidableEq

/-- A section of the parsed model (line 393). -/
structure Sec where
  title : Str
  paragraphs : List DPara := []
  subsections : List SubSec := []
  secType : Option Str := none
deriving Repr, DecidableEq

/-- The parsed document model (lines 346–349). -/
structure Parsed where
  title : Str := []
  authors : List Auth := []
  affiliations : List (Str × Str) := []
  abstract : List (Str × Str) := []
  keywords : List Str := []
  figures : List Fig := []
  receivedDate : Str := []
  acceptedDate : Str := []
  sections : List Sec := []
  references : List RefRec := []
  tables : List Tbl := []
deriving Repr, DecidableEq

/-- Where body paragraphs are currently routed: no open section (`cur_sec is
None`), an open section, or an open subsection. -/
inductive CM where
  | outside
  | inSec
  | inSub
deriving Repr, DecidableEq

/-- The loop state of the paragraph pass of `parse_docx` (line 350). -/
structure PSt where
  parsed : Parsed := {}
  cm : CM := .outside
  refNum : Nat := 1
  tblCapNum : Nat := 0
deriving Repr

/-- Apply `f` to the last section (the object `cur_sec` aliases). -/
def mapLastSec (f : Sec → Sec) (secs : List Sec) : List Sec :=
  match secs.getLast? with
  | none => secs
  | some s => secs.dropLast ++ [f s]

/-- Apply `f` to the last subsection of the last section (`cur_sub`). -/
def mapLastSub (f : SubSec → SubSec) (secs : List Sec) : List Sec :=
  mapLastSec (fun s =>
    match s.subsections.getLast? with
    | none => s
    | some sb => { s with subsections := s.subsections.dropLast ++ [f sb] }) secs

/-- `^(Background|Methods?|Results?|Conclusion|Objective|Aim|Discussion|Summary|Purpose):\s*`
with `re.I` (line 371). -/
def absAltRe : RE :=
  .alt (reLitCI (S "Background")) (.alt (.cat (reLitCI (S "Method")) (reOpt true (ciChr 's')))
    (.alt (.cat (reLitCI (S "Result")) (reOpt true (ciChr 's')))
      (.alt (reLitCI (S "Conclusion")) (.alt (reLitCI (S "Objective"))
        (.alt (reLitCI (S "Aim")) (.alt (reLitCI (S "Discussion"))
          (.alt (reLitCI (S "Summary")) (reLitCI (S "Purpose")))))))))

def pAbsLabel : RE := .cat (.grp 1 absAltRe) (.cat (.chr ':') (.star true reW))

/-- `Received:` then optional whitespace then a captured run of digits, dashes and slashes (line 383). -/
def pRecvD : RE :=
  .cat (reLit (S "Received:")) (.cat (.star true reW)
    (.grp 1 (rePlus true (.cls (fun c => c.isDigit || c = '-' || c = '/')))))

/-- `Accepted:` then optional whitespace then a captured run of digits, dashes and slashes (line 384). -/
def pAccepD : RE :=
  .cat (reLit (S "Accepted:")) (.cat (.star true reW)
    (.grp 1 (rePlus true (.cls (fun c => c.isDigit || c = '-' || c = '/')))))

/-- `Table\s+(\d+)` with `re.I` (line 421). -/
def pTblCap : RE :=
  .cat (reLitCI (S "Table")) (.cat (rePlus true reW) (.grp 1 (rePlus true reD)))

/-- The group `(Fig\.?\s*|Figure\s*)`, first alternative first (lines 432/452). -/
def figAltRe : RE :=
  .alt (.cat (reLitCI (S "Fig")) (.cat (reOpt true (ciChr '.')) (.star true reW)))
    (.cat (reLitCI (S "Figure")) (.star true reW))

/-- `(Fig\.?\s*|Figure\s*)(\d+)` with `re.I` (line 432). -/
def pFigCap : RE := .cat (.grp 1 figAltRe) (.grp 2 (rePlus true reD))

/-- `(Fig\.?\s*|Figure\s*)\d+` with `re.I` (line 452). -/
def pFigMention : RE := .cat (.grp 1 figAltRe) (rePlus true reD)

/-- `10\.\S+` (line 416). -/
def p10S : RE := .cat (reLit (S "10.")) (rePlus true (.cls (fun c => !c.isWhitespace)))

/-- One step of the paragraph dispatch of `parse_docx` (lines 352–438). -/
def paraStep (p : DPara) (st : PSt) : PSt :=
  let sty := p.style
  let txt := pyStrip p.text
  if sty = S "Title" then
    { st with parsed := { st.parsed with title := txt } }
  else if sty = S "Author Name" then
    { st with parsed := { st.parsed with authors := parse_authors_para p.runs } }
  else if sty = S "Authors affiliation" ∨ sty = S "Last Authors affiliation" then
    if txt ≠ [] then
      let na := parse_affiliation p
      if na.1 ≠ [] then
        { st with parsed := { st.parsed with
            affiliations := setA st.parsed.affiliations na.1 na.2 } }
      else
        let n := natRepr (st.parsed.affiliations.length + 1)
        { st with parsed := { st.parsed with
            affiliations := setA st.parsed.affiliations n txt } }
    else st
  else if sty = S "Abstract" then
    if txt = [] ∨ containsSub txt (S "Open Access") ∨ hasPfx (S "for reprint") (lowerStr txt) then st
    else
      match reMatch pAbsLabel txt with
      | some (e, caps) =>
        { st with parsed := { st.parsed with
            abstract := setA st.parsed.abstract (capStr txt 1 caps) (txt.drop e) } }
      | none =>
        { st with parsed := { st.parsed with
            abstract := updLastVal st.parsed.abstract txt } }
  else if sty = S "Keywords" then
    if containsSub txt (S "Keywords:") then
      let ks := ((splitChar ',' (afterSub (S "Keywords:") txt)).filter
          (fun k => pyStrip k ≠ [])).map (fun k => pyRstrip ['.'] (pyStrip k))
      { st with parsed := { st.parsed with keywords := ks } }
    else if containsSub txt (S "Received:") then
      let st1 :=
        match reSearch pRecvD txt with
        | some (_, _, caps) =>
          { st with parsed := { st.parsed with receivedDate := capStr txt 1 caps } }
        | none => st
      match reSearch pAccepD txt with
      | some (_, _, caps) =>
        { st1 with parsed := { st1.parsed with acceptedDate := capStr txt 1 caps } }
      | none => st1
    else st
  else if sty = S "Heading 1" then
    let lc := lowerStr txt
    if [S "reference", S "source of fund", S "conflict", S "ethical",
        S "patient consent"].any (fun kw => containsSub lc kw) then
      { st with cm := .outside }
    else
      { st with
        cm := .inSec,
        parsed := { st.parsed with sections := st.parsed.sections ++
          [{ title := txt, secType := get_sec_type txt }] } }
  else if sty = S "Heading 2" then
    if st.cm ≠ .outside then
      { st with
        cm := .inSub,
        parsed := { st.parsed with sections := mapLastSec (fun s =>
          { s with subsections := s.subsections ++
            [{ title := txt, secType := get_sec_type txt }] }) st.parsed.sections } }
    else st
  else if sty = S "Paragraph 1" ∨ sty = S "2nd Para" ∨ sty = S "List Paragraph" ∨
      sty = S "Normal" then
    if txt = [] then st
    else if st.cm = .inSub then
      { st with parsed := { st.parsed with sections := mapLastSub (fun sb =>
          { sb with paragraphs := sb.paragraphs ++ [p] }) st.parsed.sections } }
    else if st.cm = .inSec then
      { st with parsed := { st.parsed with sections := mapLastSec (fun s =>
          { s with paragraphs := s.paragraphs ++ [p] }) st.parsed.sections } }
    else st
  else if sty = S "Reference" then
    if txt ≠ [] ∧ ¬ (hasPfx (S "http") txt) then
      let rp := parse_ref txt
      { st with
        refNum := st.refNum + 1,
        parsed := { st.parsed with references := st.parsed.references ++
          [{ num := st.refNum, raw := txt, doi := rp.doi, parsed := rp }] } }
    else if hasPfx (S "http") txt ∧ st.parsed.references ≠ [] then
      match reSearch p10S txt with
      | some (s, e, _) =>
        { st with parsed := { st.parsed with references :=
            st.parsed.references.dropLast ++
              (match st.parsed.references.getLast? with
               | some r => [{ r with doi := pyRstrip ['.'] (sliceStr txt s e) }]
               | none => []) } }
      | none => st
    else st
  else if sty = S "Table caption" then
    if txt ≠ [] then
      let tnum :=
        match reSearch pTblCap txt with
        | some (_, _, caps) => (natOfDigits (capStr txt 1 caps)).getD 0
        | none => st.tblCapNum + 1
      let u := updFirst (fun t => t.num = tnum) (fun t => { t with caption := txt })
        st.parsed.tables
      { st with
        tblCapNum := tnum,
        parsed := { st.parsed with tables :=
          if u.2 then u.1 else st.parsed.tables ++ [{ num := tnum, caption := txt }] } }
    else st
  else if sty = S "Caption" ∨ sty = S "Figure Caption" ∨ sty = S "Image Caption" then
    if txt ≠ [] then
      let fnum :=
        match reSearch pFigCap txt with
        | some (_, _, caps) => (natOfDigits (capStr txt 2 caps)).getD 0
        | none => st.parsed.figures.length + 1
      let u := updFirst (fun f => f.num = fnum) (fun f => { f with caption := txt })
        st.parsed.figures
      { st with parsed := { st.parsed with figures :=
          if u.2 then u.1 else st.parsed.figures ++ [{ num := fnum, caption := txt }] } }
    else st
  else st

/-- The paragraph pass (line 352). -/
def paraLoop : List DPara → PSt → PSt
  | [], st => st
  | p :: ps, st => paraLoop ps (paraStep p st)

/-- The offset probe of the image pass (lines 447–463): try the adjacent
paragraphs in offset order `[1, 2, -1]`, associating the first fig-captioned
one with the image and stopping there. -/
def tryOffsets (all : List DPara) (figs : List Fig) (fc : Nat) :
    List Nat → List Fig × Nat
  | [] => (figs, fc)
  | idx :: rest =>
    match all.get? idx with
    | none => tryOffsets all figs fc rest
    | some adj =>
      let adjTxt := pyStrip adj.text
      if (reSearch pFigMention adjTxt).isSome then
        let fnum :=
          match reSearch pFigCap adjTxt with
          | some (_, _, caps) => (natOfDigits (capStr adjTxt 2 caps)).getD 0
          | none => fc + 1
        if figs.any (fun f => f.num = fnum) then
          (figs.map (fun f => if f.num = fnum then { f with hasImage := true } else f),
            fc + 1)
        else (figs ++ [{ num := fnum, caption := adjTxt, hasImage := true }], fc + 1)
      else tryOffsets all figs fc rest

/-- The image-detection pass (lines 440–463). -/
def figImageScanF (all : List DPara) : List DPara → Nat → List Fig → Nat → List Fig × Nat
  | [], _, figs, fc => (figs, fc)
  | p :: rest, i, figs, fc =>
    let st :=
      if p.hasImage then
        tryOffsets all figs fc ([i + 1, i + 2] ++ if i = 0 then [] else [i - 1])
      else (figs, fc)
    figImageScanF all rest (i + 1) st.1 st.2

/-- A docx table as seen by the converter: its cell grid and the column-width
strings it renders (the floating-point width arithmetic of lines 470–474 is
out of the embedding's integer scope; the rendered width strings are taken as
given). -/
structure DTbl where
  rows : List (List Cell) := []
  colwidths : List Str := []
deriving Repr, DecidableEq

/-- The `doc.tables` pass (lines 465–489). -/
def tablesScanF : List DTbl → Nat → List Tbl → List Tbl
  | [], _, tbls => tbls
  | dt :: rest, n, tbls =>
    let tn := n + 1
    let rows := dt.rows.map (fun r => r.map (fun c => { c with text := pyStrip c.text }))
    let u := updFirst (fun t => t.num = tn && decide (t.rows = []))
      (fun t => { t with rows := rows, colwidths := dt.colwidths }) tbls
    let tbls' := if u.2 then u.1 else
      tbls ++ [{ num := tn, rows := rows, colwidths := dt.colwidths }]
    tablesScanF rest tn tbls'

/-- The per-reference enrichment step (lines 494–522), with the two network
fetchers abstracted as oracles (`none` models every failure path of the
`try/except`-wrapped fetch functions). -/
def enrichRef (fCrD fCrQ fPmD fPmQ : Str → Option EnRec) (ref : RefRec) : RefRec :=
  let p := ref.parsed
  let cr0 : Option EnRec := if ref.doi ≠ [] then fCrD ref.doi else none
  let cr :=
    match cr0 with
    | some c => some c
    | none =>
      let parts := (if p.authors ≠ [] then [(p.authors.headD {}).surname] else []) ++
        (if p.title ≠ [] then (splitWs p.title).take 6 else []) ++
        (if p.year ≠ [] then [p.year] else [])
      let q := joinSep (S " ") (parts.filter (fun s => s ≠ []))
      if pyStrip q ≠ [] then fCrQ q else none
  let doi1 := if cr.isSome && decide (ref.doi = []) then (cr.getD {}).doi else ref.doi
  let pm0 := if doi1 ≠ [] then fPmD doi1 else none
  let pm :=
    match pm0 with
    | some x => some x
    | none =>
      if p.authors ≠ [] ∧ p.title ≠ [] then
        fPmQ ((p.authors.headD {}).surname ++ S " " ++ p.title.take 40 ++ S " " ++ p.year)
      else none
  let doi2 :=
    match pm with
    | some x => if doi1 = [] ∧ x.doi ≠ [] then x.doi else doi1
    | none => doi1
  { ref with doi := doi2, crossref := cr, pubmed := pm }

/-- `parse_docx(path, use_crossref)` (lines 344–527) over the in-memory
document (its paragraphs and tables) and the fetch oracles. -/
def parse_docx (ps : List DPara) (dtables : List DTbl) (useCrossref : Bool)
    (fCrD fCrQ fPmD fPmQ : Str → Option EnRec) : Parsed :=
  let st := paraLoop ps {}
  let figs := figImageScanF ps ps 0 st.parsed.figures 0
  let tbls := tablesScanF dtables 0 st.parsed.tables
  let parsed := { st.parsed with figures := figs.1, tables := tbls }
  if useCrossref && !parsed.references.isEmpty then
    { parsed with references := parsed.references.map (enrichRef fCrD fCrQ fPmD fPmQ) }
  else parsed

-- ── XML builder (`build_xml` and its emitters, lines 530–847) ───────────────

/-- The journal metadata dict `jm` (CLI lines 877–882); `none` models an
absent key, so Python `jm.get(k, d)` is `getD`. -/
structure JM where
  articleType : Option Str := none
  publisher : Option Str := none
  name : Option Str := none
  issnPrint : Option Str := none
  issnElec : Option Str := none
  journalUrl : Option Str := none
  doi : Option Str := none
  articleTypeLabel : Option Str := none
  volume : Option Str := none
  issue : Option Str := none
  year : Option Str := none
  month : Option Str := none
  day : Option Str := none
  fpage : Option Str := none
  lpage : Option Str := none
  licenseUrl : Option Str := none
deriving Repr, DecidableEq

/-- Python `jm.get(k, d)`. -/
def jget (o : Option Str) (d : Str) : Str := o.getD d

/-- Python truthiness of `jm.get(k)`. -/
def jhas (o : Option Str) : Bool := !(o.getD []).isEmpty

/-- The serialization events the claims reason about: one per processed body
paragraph, one per emitted table-wrap, one per emitted fig. -/
inductive Ev where
  | para : Ev
  | table : Nat → Ev
  | fig : Nat → Ev
deriving Repr, DecidableEq

/-- The emission state of `build_xml`: the id counter `_ctr`, the line list
`L`, plus the instrumentation ledgers — every `id="…"` value in emission
order, and the event trace. -/
structure BSt where
  ctr : Nat := 0
  lines : List Str := []
  ids : List Str := []
  evs : List Ev := []
deriving Repr

/-- Append plain lines. -/
def emitL (ls : List Str) (st : BSt) : BSt := { st with lines := st.lines ++ ls }

/-- Append one line and record the id values it carries. -/
def emitIdL (l : Str) (idvs : List Str) (st : BSt) : BSt :=
  { st with lines := st.lines ++ [l], ids := st.ids ++ idvs }

/-- Record a serialization event. -/
def pushEv (e : Ev) (st : BSt) : BSt := { st with evs := st.evs ++ [e] }

/-- `nid(pfx, label)` acting on the emission state. -/
def bnid (md : Str → Str) (pfx label : Str) (st : BSt) : Str × BSt :=
  let r := nid md pfx label st.ctr
  (r.1, { st with ctr := r.2 })

/-- `str(round(100/n, 2))` (line 803): the two-decimal rounding of `100/n`,
ties to even, rendered with the trailing-zero convention of Python floats
(at least one digit after the point). -/
def roundHalfEven (num den : Nat) : Nat :=
  let q := num / den
  let r := num % den
  if 2 * r < den then q
  else if 2 * r > den then q + 1
  else if q % 2 = 0 then q else q + 1

def colWidthStr (n : Nat) : Str :=
  let r := roundHalfEven 10000 n
  let ip := r / 100
  let d1 := (r / 10) % 10
  let d2 := r % 10
  natRepr ip ++ S "." ++
    (if d2 = 0 then [digitChar d1] else [digitChar d1, digitChar d2])

/-- `^Table\s+\d+\s*[:\-]\s*` with `re.I` (line 791). -/
def pTblCapStrip : RE :=
  .cat (reLitCI (S "Table")) (.cat (rePlus true reW) (.cat (rePlus true reD)
    (.cat (.star true reW) (.cat (.cls (fun c => c = ':' || c = '-')) (.star true reW)))))

/-- The class `[:\-\.\s]` of line 838. -/
def figCapTailC (c : Char) : Bool := c = ':' || c = '-' || c = '.' || c.isWhitespace

/-- The anchored strip pattern of line 838. -/
def pFigCapStrip : RE :=
  .cat (.grp 1 figAltRe) (.cat (rePlus true reD) (.star true (.cls figCapTailC)))

/-- `re.sub` of an anchored (`^`) pattern: remove the single possible match
at the start of the string. -/
def subAnchored (re : RE) (s : Str) : Str :=
  match reMatch re s with
  | some (e, _) => s.drop e
  | none => s

/-- The `<th>` cell loop of `build_table_xml` (lines 809–815). -/
def thCells (md : Str → Str) (pfx : Str) : List Cell → BSt → BSt
  | [], st => st
  | cell :: cs, st =>
    let r1 := bnid md pfx (S "th") st
    let csAttr := if cell.colspan > 1 then
        S " colspan=\"" ++ natRepr cell.colspan ++ S "\"" else []
    let ch := xe cell.text
    let st1 := emitIdL (S "              <th id=\"" ++ r1.1 ++ S "\"" ++ csAttr ++
      S " align=\"left\">") [r1.1] r1.2
    let st2 :=
      if pyStrip ch ≠ [] then
        let rp := bnid md pfx (S "p") st1
        let rb := bnid md pfx (S "b") rp.2
        emitIdL (S "                <p id=\"" ++ rp.1 ++ S "\"><bold id=\"" ++ rb.1 ++
          S "\">" ++ ch ++ S "</bold></p>") [rp.1, rb.1] rb.2
      else st1
    thCells md pfx cs (emitL [S "              </th>"] st2)

/-- The `<td>` cell loop of `build_table_xml` (lines 821–826). -/
def tdCells (md : Str → Str) (pfx : Str) : List Cell → BSt → BSt
  | [], st => st
  | cell :: cs, st =>
    let r1 := bnid md pfx (S "td") st
    let csAttr := if cell.colspan > 1 then
        S " colspan=\"" ++ natRepr cell.colspan ++ S "\"" else []
    let ct := xe cell.text
    let st1 := emitIdL (S "              <td id=\"" ++ r1.1 ++ S "\"" ++ csAttr ++
      S " align=\"left\">") [r1.1] r1.2
    let st2 :=
      if pyStrip ct ≠ [] then
        let rp := bnid md pfx (S "p") st1
        emitIdL (S "                <p id=\"" ++ rp.1 ++ S "\">" ++ ct ++ S "</p>")
          [rp.1] rp.2
      else st1
    tdCells md pfx cs (emitL [S "              </td>"] st2)

/-- The body-row loop of `build_table_xml` (lines 819–827). -/
def trRows (md : Str → Str) (pfx : Str) : List (List Cell) → BSt → BSt
  | [], st => st
  | row :: rs, st =>
    let rt := bnid md pfx (S "tr") st
    let st1 := emitIdL (S "            <tr id=\"" ++ rt.1 ++ S "\">") [rt.1] rt.2
    let st2 := tdCells md pfx row st1
    trRows md pfx rs (emitL [S "            </tr>"] st2)

/-- `build_table_xml(tbl, pfx)` (lines 786–830), recording one
`Ev.table` event. -/
def build_table_xml (md : Str → Str) (pfx : Str) (tbl : Tbl) (st : BSt) : BSt :=
  let st := pushEv (.table tbl.num) st
  let twId := S "tw-" ++ natRepr tbl.num
  let st := emitIdL (S "      <table-wrap id=\"" ++ twId ++
    S "\" position=\"anchor\" orientation=\"portrait\">") [twId] st
  let st := emitL [S "        <label>Table " ++ natRepr tbl.num ++ S "</label>"] st
  let cap := subAnchored pTblCapStrip tbl.caption
  let st :=
    if cap ≠ [] then
      let rc := bnid md pfx (S "cap") st
      let rct := bnid md pfx (S "ctitle") rc.2
      let st := emitIdL (S "        <caption id=\"" ++ rc.1 ++ S "\">") [rc.1] rct.2
      let st := emitIdL (S "          <title id=\"" ++ rct.1 ++ S "\">" ++ xe cap ++
        S "</title>") [rct.1] st
      emitL [S "        </caption>"] st
    else st
  let rt := bnid md pfx (S "tbl") st
  let st := emitIdL (S "        <table id=\"" ++ rt.1 ++
    S "\" rules=\"all\" frame=\"box\">") [rt.1] rt.2
  let rows := tbl.rows
  let cws := tbl.colwidths
  let st :=
    if cws ≠ [] then
      let st := emitL [S "          <colgroup>"] st
      let st := emitL (cws.map (fun w => S "            <col width=\"" ++ w ++ S "\"/>")) st
      emitL [S "          </colgroup>"] st
    else if rows ≠ [] ∧ rows.headD [] ≠ [] then
      let w := colWidthStr (rows.headD []).length
      let st := emitL [S "          <colgroup>"] st
      let st := emitL ((rows.headD []).map (fun _ => S "            <col width=\"" ++ w ++
        S "\"/>")) st
      emitL [S "          </colgroup>"] st
    else st
  let st :=
    if rows ≠ [] then
      let rh := bnid md pfx (S "thead") st
      let rtr := bnid md pfx (S "tr") rh.2
      let st := emitIdL (S "          <thead id=\"" ++ rh.1 ++ S "\">") [rh.1] rtr.2
      let st := emitIdL (S "            <tr id=\"" ++ rtr.1 ++ S "\">") [rtr.1] st
      let st := thCells md pfx (rows.headD []) st
      let st := emitL [S "            </tr>", S "          </thead>"] st
      if rows.length > 1 then
        let rb := bnid md pfx (S "tbody") st
        let st := emitIdL (S "          <tbody id=\"" ++ rb.1 ++ S "\">") [rb.1] rb.2
        let st := trRows md pfx rows.tail st
        emitL [S "          </tbody>"] st
      else st
    else st
  emitL [S "        </table>", S "      </table-wrap>"] st

/-- `build_fig_xml(fig, pfx)` (lines 832–847), recording one `Ev.fig`
event. -/
def build_fig_xml (md : Str → Str) (pfx : Str) (fig : Fig) (st : BSt) : BSt :=
  let st := pushEv (.fig fig.num) st
  let figId := S "fig-" ++ natRepr fig.num
  let st := emitIdL (S "      <fig id=\"" ++ figId ++
    S "\" position=\"anchor\" orientation=\"portrait\">") [figId] st
  let st := emitL [S "        <label>Figure " ++ natRepr fig.num ++ S "</label>"] st
  let cap := pyStrip (subAnchored pFigCapStrip fig.caption)
  let st :=
    if cap ≠ [] then
      let rc := bnid md pfx (S "cap") st
      let rct := bnid md pfx (S "ctitle") rc.2
      let st := emitIdL (S "        <caption id=\"" ++ rc.1 ++ S "\">") [rc.1] rct.2
      let st := emitIdL (S "          <title id=\"" ++ rct.1 ++ S "\">" ++ xe cap ++
        S "</title>") [rct.1] st
      emitL [S "        </caption>"] st
    else st
  let st := emitL [S "        <graphic xlink:href=\"fig" ++ natRepr fig.num ++
    S "\" mimetype=\"image\" mime-subtype=\"jpeg\"/>"] st
  emitL [S "      </fig>"] st

/-- The inline-mention regex of lines 701/718:
`(Fig\.?\s*|Figure\s*){num}\b` with `re.I`. -/
def figMentionRe (n : Nat) : RE :=
  .cat (.grp 1 figAltRe) (.cat (reLit (natRepr n)) .bow)

/-- The table-placement loop of lines 694–696/713–715: emit every still
unplaced table whose `Table {num}` string occurs in the paragraph text, and
mark it placed. -/
def placeTbls (md : Str → Str) (pfx : Str) (ptxt : Str) :
    List Tbl → BSt → List Tbl × BSt
  | [], st => ([], st)
  | t :: ts, st =>
    if !t.placed && containsSub ptxt (S "Table " ++ natRepr t.num) then
      let st1 := build_table_xml md pfx t st
      let r := placeTbls md pfx ptxt ts st1
      ({ t with placed := true } :: r.1, r.2)
    else
      let r := placeTbls md pfx ptxt ts st
      (t :: r.1, r.2)

/-- The figure-placement loop of lines 698–702/716–719. -/
def placeFigs (md : Str → Str) (pfx : Str) (ptxt : Str) :
    List Fig → BSt → List Fig × BSt
  | [], st => ([], st)
  | f :: fs, st =>
    if !f.placed && (reSearch (figMentionRe f.num) ptxt).isSome then
      let st1 := build_fig_xml md pfx f st
      let r := placeFigs md pfx ptxt fs st1
      ({ f with placed := true } :: r.1, r.2)
    else
      let r := placeFigs md pfx ptxt fs st
      (f :: r.1, r.2)

/-- One body paragraph (lines 689–702 and 709–719): run the inline formatter,
emit the `<p>` when its markup is non-blank, then try table and figure
placement against the raw paragraph text.  `ind` is the indentation of the
`<p>` line (6 spaces at section level, 8 at subsection level). -/
def bodyPara (md : Str → Str) (pfx : Str) (cites : List Str)
    (tids fids : List (Str × Str)) (ind : Str) (p : DPara)
    (tbls : List Tbl) (figs : List Fig) (st : BSt) : List Tbl × List Fig × BSt :=
  let st := pushEv .para st
  let r := paraToInline md pfx cites tids fids p.runs st.ctr
  let st := { st with ctr := r.2.1 }
  let st :=
    if pyStrip r.1 ≠ [] then
      let rp := bnid md pfx (S "p") st
      emitIdL (ind ++ S "<p id=\"" ++ rp.1 ++ S "\">" ++ r.1 ++ S "</p>")
        (rp.1 :: r.2.2) rp.2
    else st
  let t2 := placeTbls md pfx p.text tbls st
  let f2 := placeFigs md pfx p.text figs t2.2
  (t2.1, f2.1, f2.2)

/-- The paragraph loop of a section or subsection. -/
def bodyParas (md : Str → Str) (pfx : Str) (cites : List Str)
    (tids fids : List (Str × Str)) (ind : Str) :
    List DPara → List Tbl → List Fig → BSt → List Tbl × List Fig × BSt
  | [], tbls, figs, st => (tbls, figs, st)
  | p :: ps, tbls, figs, st =>
    let r := bodyPara md pfx cites tids fids ind p tbls figs st
    bodyParas md pfx cites tids fids ind ps r.1 r.2.1 r.2.2

/-- The `sec-type` attribute text (lines 684–685/705–706). -/
def secAttr (st : Option Str) : Str :=
  match st with
  | some v => S " sec-type=\"" ++ v ++ S "\""
  | none => []

/-- The subsection loop (lines 704–720). -/
def bodySubs (md : Str → Str) (pfx : Str) (cites : List Str)
    (tids fids : List (Str × Str)) :
    List SubSec → List Tbl → List Fig → BSt → List Tbl × List Fig × BSt
  | [], tbls, figs, st => (tbls, figs, st)
  | sub :: subs, tbls, figs, st =>
    let st := emitL [S "      <sec" ++ secAttr sub.secType ++ S ">"] st
    let rt := bnid md pfx (S "title") st
    let st := emitIdL (S "        <title id=\"" ++ rt.1 ++ S "\">" ++ xe sub.title ++
      S "</title>") [rt.1] rt.2
    let r := bodyParas md pfx cites tids fids (S "        ") sub.paragraphs tbls figs st
    let st := emitL [S "      </sec>"] r.2.2
    bodySubs md pfx cites tids fids subs r.1 r.2.1 st

/-- The section loop (lines 683–722). -/
def bodySecs (md : Str → Str) (pfx : Str) (cites : List Str)
    (tids fids : List (Str × Str)) :
    List Sec → List Tbl → List Fig → BSt → List Tbl × List Fig × BSt
  | [], tbls, figs, st => (tbls, figs, st)
  | sec :: secs, tbls, figs, st =>
    let st := emitL [S "    <sec" ++ secAttr sec.secType ++ S ">"] st
    let rt := bnid md pfx (S "title") st
    let st := emitIdL (S "      <title id=\"" ++ rt.1 ++ S "\">" ++ xe sec.title ++
      S "</title>") [rt.1] rt.2
    let r1 := bodyParas md pfx cites tids fids (S "      ") sec.paragraphs tbls figs st
    let r2 := bodySubs md pfx cites tids fids sec.subsections r1.1 r1.2.1 r1.2.2
    let st := emitL [S "    </sec>", []] r2.2.2
    bodySecs md pfx cites tids fids secs r2.1 r2.2.1 st

/-- The end-of-body table sweep (lines 725–727): emits and MARKS PLACED. -/
def sweepTbls (md : Str → Str) (pfx : Str) : List Tbl → BSt → List Tbl × BSt
  | [], st => ([], st)
  | t :: ts, st =>
    if !t.placed then
      let st1 := build_table_xml md pfx t st
      let r := sweepTbls md pfx ts st1
      ({ t with placed := true } :: r.1, r.2)
    else
      let r := sweepTbls md pfx ts st
      (t :: r.1, r.2)

/-- The end-of-body figure sweep (lines 729–731): emits every unplaced figure
but — unlike the table sweep — never sets its placed flag. -/
def sweepFigs (md : Str → Str) (pfx : Str) : List Fig → BSt → List Fig × BSt
  | [], st => ([], st)
  | f :: fs, st =>
    if !f.placed then
      let st1 := build_fig_xml md pfx f st
      let r := sweepFigs md pfx fs st1
      (f :: r.1, r.2)
    else
      let r := sweepFigs md pfx fs st
      (f :: r.1, r.2)

/-- The per-reference back-matter entry (lines 740–781): the `<ref>` element
lines, with the field-by-field CrossRef-then-PubMed-then-local fallback of
lines 743–752. -/
def refEntry (pfx : Str) (ref : RefRec) : List Str :=
  let p := ref.parsed
  let cr := ref.crossref.getD {}
  let pm := ref.pubmed.getD {}
  let authors := if cr.authors ≠ [] then cr.authors
    else if pm.authors ≠ [] then pm.authors else p.authors
  let titleR := if cr.title ≠ [] then cr.title
    else if pm.title ≠ [] then pm.title else p.title
  let journalR := if cr.journal ≠ [] then cr.journal
    else if pm.journal ≠ [] then pm.journal else p.journal
  let yearR := if cr.year ≠ [] then cr.year
    else if pm.year ≠ [] then pm.year else p.year
  let volR := if cr.volume ≠ [] then cr.volume
    else if pm.volume ≠ [] then pm.volume else p.volume
  let issR := if cr.issue ≠ [] then cr.issue
    else if pm.issue ≠ [] then pm.issue else p.issue
  let fpR := if cr.fpage ≠ [] then cr.fpage
    else if pm.fpage ≠ [] then pm.fpage else p.fpage
  let lpR := if cr.lpage ≠ [] then cr.lpage
    else if pm.lpage ≠ [] then pm.lpage else p.lpage
  let doiRaw := if ref.doi ≠ [] then ref.doi
    else if cr.doi ≠ [] then cr.doi else pm.doi
  let doi := if doiRaw ≠ [] ∧ '/' ∈ doiRaw then doiRaw else []
  let pmid := pm.pmid
  let pubT := p.pubType
  [S "      <ref id=\"" ++ pfx ++ S "-B" ++ natRepr ref.num ++ S "\">",
   S "        <label>" ++ natRepr ref.num ++ S ".</label>",
   S "        <element-citation publication-type=\"" ++ pubT ++ S "\">"] ++
  (if authors ≠ [] then
    [S "          <person-group person-group-type=\"author\">"] ++
    (authors.map (fun a =>
      [S "            <name name-style=\"western\">",
       S "              <surname>" ++ xe a.surname ++ S "</surname>"] ++
      (if a.given ≠ [] then
        [S "              <given-names>" ++ xe a.given ++ S "</given-names>"] else []) ++
      [S "            </name>"])).flatten ++
    (if p.hasEtAl then [S "            <etal/>"] else []) ++
    [S "          </person-group>"]
  else []) ++
  (if titleR ≠ [] then
    [S "          <article-title>" ++ xe titleR ++ S "</article-title>"] else []) ++
  (if journalR ≠ [] then [S "          <source>" ++ xe journalR ++ S "</source>"] else []) ++
  (if yearR ≠ [] then
    [S "          <year iso-8601-date=\"" ++ yearR ++ S "\">" ++ xe yearR ++ S "</year>"]
  else []) ++
  (if volR ≠ [] then [S "          <volume>" ++ xe volR ++ S "</volume>"] else []) ++
  (if issR ≠ [] then [S "          <issue>" ++ xe issR ++ S "</issue>"] else []) ++
  (if fpR ≠ [] then [S "          <fpage>" ++ xe (pyStrip fpR) ++ S "</fpage>"] else []) ++
  (if lpR ≠ [] then [S "          <lpage>" ++ xe (pyStrip lpR) ++ S "</lpage>"] else []) ++
  (if doi ≠ [] ∧ '/' ∈ doi then
    [S "          <pub-id pub-id-type=\"doi\">" ++ xe doi ++ S "</pub-id>"] else []) ++
  (if pmid ≠ [] then
    [S "          <pub-id pub-id-type=\"pmid\">" ++ xe pmid ++ S "</pub-id>"] else []) ++
  (if authors = [] ∧ titleR = [] then
    [S "          <!-- RAW: " ++ xe (ref.raw.take 200) ++ S " -->"] else []) ++
  [S "        </element-citation>", S "      </ref>"]

/-- The reference loop of the back matter (line 740). -/
def backRefs (pfx : Str) : List RefRec → BSt → BSt
  | [], st => st
  | r :: rs, st =>
    let st := { st with lines := st.lines ++ refEntry pfx r,
                        ids := st.ids ++ [pfx ++ S "-B" ++ natRepr r.num] }
    backRefs pfx rs st

/-- One `<date>` block of the history section (lines 628–635). -/
def histDate (dtype dstr : Str) : List Str :=
  if dstr = [] then []
  else
    let d := splitChar '-' (dstr.map (fun c => if c = '/' then '-' else c))
    let d0 := d.headD []
    let d1 := (d.get? 1).getD []
    let d2 := (d.get? 2).getD []
    let yr := if d0.length = 4 then d0 else d2
    let mo := d1
    let dy := if d0.length = 4 then d2 else d0
    [S "        <date date-type=\"" ++ dtype ++ S "\">",
     S "          <day>" ++ dy ++ S "</day>",
     S "          <month>" ++ mo ++ S "</month>",
     S "          <year>" ++ yr ++ S "</year>",
     S "        </date>"]

/-- The contributor loop of lines 571–585. -/
def contribLoop (md : Str → Str) (pfx : Str) : List Auth → BSt → BSt
  | [], st => st
  | auth :: rest, st =>
    let corr := if auth.isCorresponding then S " corresp=\"yes\"" else []
    let st := emitL [S "        <contrib contrib-type=\"author\"" ++ corr ++ S ">"] st
    let st := if auth.orcid ≠ [] then
        emitL [S "          <contrib-id contrib-id-type=\"orcid\">" ++ xe auth.orcid ++
          S "</contrib-id>"] st
      else st
    let st := emitL [S "          <name name-style=\"western\">",
      S "            <surname>" ++ xe auth.surname ++ S "</surname>"] st
    let st := if auth.given ≠ [] then
        emitL [S "            <given-names>" ++ xe auth.given ++ S "</given-names>"] st
      else st
    let st := emitL [S "          </name>"] st
    let st := auth.affiliationNums.foldl (fun st an =>
      let rx := bnid md pfx (S "x") st
      emitIdL (S "          <xref id=\"" ++ rx.1 ++ S "\" rid=\"aff" ++ an ++
        S "\" ref-type=\"aff\"><sup>" ++ xe an ++ S "</sup></xref>") [rx.1] rx.2) st
    let st := if auth.isCorresponding then
        let rx := bnid md pfx (S "x") st
        emitIdL (S "          <xref id=\"" ++ rx.1 ++
          S "\" rid=\"cor1\" ref-type=\"corresp\">*</xref>") [rx.1] rx.2
      else st
    contribLoop md pfx rest (emitL [S "        </contrib>"] st)

/-- The affiliation loop of lines 587–598. -/
def affLoop : List (Str × Str) → BSt → BSt
  | [], st => st
  | (num, txt) :: rest, st =>
    let parts := (splitChar ',' txt).map pyStrip
    let st := emitIdL (S "        <aff id=\"aff" ++ num ++ S "\">") [S "aff" ++ num] st
    let st := emitL [S "          <label>" ++ xe num ++ S "</label>"] st
    let st :=
      if parts.length ≥ 2 then
        let st := emitL [S "          <institution content-type=\"dept\">" ++
          xe (parts.headD []) ++ S "</institution>"] st
        let mid := if parts.length > 3 then
            joinSep (S ", ") (parts.drop 1).dropLast.dropLast
          else if parts.length > 1 then (parts.get? 1).getD [] else []
        let st := if mid ≠ [] then
            emitL [S "          <institution>" ++ xe mid ++ S "</institution>"] st
          else st
        let st := if parts.length ≥ 3 then
            emitL [S "          <addr-line>" ++ xe (parts.dropLast.getLastD []) ++
              S "</addr-line>"] st
          else st
        emitL [S "          <country country=\"IN\">" ++ xe (parts.getLastD []) ++
          S "</country>"] st
      else
        emitL [S "          <institution>" ++ xe txt ++ S "</institution>"] st
    affLoop rest (emitL [S "        </aff>"] st)

/-- The abstract item loop of lines 661–667. -/
def absItems (md : Str → Str) (pfx : Str) : List (Str × Str) → BSt → BSt
  | [], st => st
  | (label, text) :: rest, st =>
    if label = S "text" then
      let rp := bnid md pfx (S "p") st
      absItems md pfx rest (emitIdL (S "        <p id=\"" ++ rp.1 ++ S "\">" ++
        xe (pyStrip text) ++ S "</p>") [rp.1] rp.2)
    else
      let rs := bnid md pfx (S "sec") st
      let rt := bnid md pfx (S "title") rs.2
      let rp := bnid md pfx (S "p") rt.2
      let st := emitIdL (S "        <sec id=\"" ++ rs.1 ++ S "\">") [rs.1] rp.2
      let st := emitIdL (S "          <title id=\"" ++ rt.1 ++ S "\">" ++ xe label ++
        S "</title>") [rt.1] st
      let st := emitIdL (S "          <p id=\"" ++ rp.1 ++ S "\">" ++ xe (pyStrip text) ++
        S "</p>") [rp.1] st
      absItems md pfx rest (emitL [S "        </sec>"] st)

/-- The front matter of `build_xml` (lines 531–682), ending with the
`<body>` line: everything before the body loops. -/
def frontMatter (md : Str → Str) (parsed : Parsed) (jm : JM) : BSt :=
  let pfx := makePfx md parsed.title
  let st : BSt := {}
  let st := emitL [S "<?xml version=\"1.0\" encoding=\"UTF-8\"?>",
    S "<!DOCTYPE article PUBLIC \"-//NLM//DTD JATS (Z39.96) Journal Publishing DTD v1.2 20190208//EN\"",
    S "  \"JATS-journalpublishing1-2.dtd\">",
    S "<article xmlns:xlink=\"http://www.w3.org/1999/xlink\"",
    S "         xmlns:ali=\"http://www.niso.org/schemas/ali/1.0/\"",
    S "         article-type=\"" ++ jget jm.articleType (S "research-article") ++ S "\"",
    S "         xml:lang=\"en\">", [], S "  <front>"] st
  let rjm := bnid md pfx (S "jm") st
  let st := emitIdL (S "    <journal-meta id=\"" ++ rjm.1 ++ S "\">") [rjm.1] rjm.2
  let pubDefault := jget jm.publisher (S "IP Innovative Publication")
  let st := emitL [
    S "      <journal-id journal-id-type=\"nlm-ta\">" ++ xe pubDefault ++ S "</journal-id>",
    S "      <journal-id journal-id-type=\"publisher-id\">" ++ xe pubDefault ++ S "</journal-id>",
    S "      <journal-title-group>",
    S "        <journal-title>" ++ xe (jget jm.name []) ++ S "</journal-title>",
    S "      </journal-title-group>"] st
  let st := if jhas jm.issnPrint then
      emitL [S "      <issn publication-format=\"print\">" ++
        xe (pyStrip (jget jm.issnPrint [])) ++ S "</issn>"] st
    else st
  let st := if jhas jm.issnElec then
      emitL [S "      <issn publication-format=\"electronic\">" ++
        xe (pyStrip (jget jm.issnElec [])) ++ S "</issn>"] st
    else st
  let st := if jhas jm.journalUrl then
      emitL [S "      <self-uri xlink:href=\"" ++ xe (jget jm.journalUrl []) ++
        S "\" xlink:title=\"" ++ xe (jget jm.name (S "Journal")) ++ S "\"/>"] st
    else st
  let st := emitL [S "    </journal-meta>", []] st
  let ram := bnid md pfx (S "am") st
  let st := emitIdL (S "    <article-meta id=\"" ++ ram.1 ++ S "\">") [ram.1] ram.2
  let st := if jhas jm.doi then
      emitL [S "      <article-id pub-id-type=\"doi\">" ++ xe (jget jm.doi []) ++
        S "</article-id>"] st
    else st
  let st := emitL [S "      <article-categories>",
    S "        <subj-group subj-group-type=\"heading\">",
    S "          <subject>" ++ xe (jget jm.articleTypeLabel
      (S "Original Research Article")) ++ S "</subject>",
    S "        </subj-group>", S "      </article-categories>", [],
    S "      <title-group>",
    S "        <article-title>" ++ xe parsed.title ++ S "</article-title>",
    S "      </title-group>", [], S "      <contrib-group>"] st
  let st := contribLoop md pfx parsed.authors st
  let st := affLoop parsed.affiliations st
  let st := emitL [S "      </contrib-group>", []] st
  let corrAuthors := parsed.authors.filter (fun a => a.isCorresponding)
  let st := emitL [S "      <author-notes>"] st
  let st :=
    if corrAuthors ≠ [] then
      let ca := corrAuthors.headD {}
      let st := emitIdL (S "        <corresp id=\"cor1\">") [S "cor1"] st
      emitL [S "          <bold>Corresponding Author:</bold> " ++ xe ca.given ++
        S " " ++ xe ca.surname, S "        </corresp>"] st
    else st
  let st := emitL [S "        <fn fn-type=\"coi-statement\">",
    S "          <p>None declared.</p>", S "        </fn>",
    S "        <fn fn-type=\"financial-disclosure\">", S "          <p>None.</p>",
    S "        </fn>", S "      </author-notes>", []] st
  let st := emitL [S "      <pub-date date-type=\"pub\" publication-format=\"print\">",
    S "        <day>" ++ xe (jget jm.day []) ++ S "</day>",
    S "        <month>" ++ xe (jget jm.month []) ++ S "</month>",
    S "        <year>" ++ xe (jget jm.year (S "2025")) ++ S "</year>",
    S "      </pub-date>"] st
  let st := if jhas jm.volume then
      emitL [S "      <volume>" ++ xe (jget jm.volume []) ++ S "</volume>"] st else st
  let st := if jhas jm.issue then
      emitL [S "      <issue>" ++ xe (jget jm.issue []) ++ S "</issue>"] st else st
  let st := if jhas jm.fpage then
      emitL [S "      <fpage>" ++ xe (jget jm.fpage []) ++ S "</fpage>"] st else st
  let st := if jhas jm.lpage then
      emitL [S "      <lpage>" ++ xe (jget jm.lpage []) ++ S "</lpage>"] st else st
  let st :=
    if parsed.receivedDate ≠ [] ∨ parsed.acceptedDate ≠ [] then
      let st := emitL [S "      <history>"] st
      let st := emitL (histDate (S "received") parsed.receivedDate) st
      let st := emitL (histDate (S "accepted") parsed.acceptedDate) st
      emitL [S "      </history>"] st
    else st
  let yrP := jget jm.year (S "2025")
  let licUrl := jget jm.licenseUrl (S "https://creativecommons.org/licenses/by-nc/4.0/")
  let st := emitL [S "      <permissions>",
    S "        <copyright-statement>© " ++ yrP ++ S " " ++ xe pubDefault ++
      S "</copyright-statement>",
    S "        <copyright-year>" ++ yrP ++ S "</copyright-year>",
    S "        <copyright-holder>" ++ xe pubDefault ++ S "</copyright-holder>",
    S "        <license license-type=\"open-access\" xlink:href=\"" ++ licUrl ++ S "\">",
    S "          <ali:license_ref>" ++ licUrl ++ S "</ali:license_ref>",
    S "          <license-p>This is an Open Access article distributed under the terms of the",
    S "          <ext-link ext-link-type=\"uri\" xlink:href=\"" ++ licUrl ++
      S "\" xlink:title=\"Creative Commons License\">Creative Commons Attribution-NonCommercial 4.0 International License</ext-link>",
    S "          which permits unrestricted non-commercial use, distribution, and reproduction",
    S "          in any medium, provided the original work is properly cited.</license-p>",
    S "        </license>", S "      </permissions>", []] st
  let st :=
    if parsed.abstract ≠ [] then
      let rab := bnid md pfx (S "abstract") st
      let st := emitIdL (S "      <abstract id=\"" ++ rab.1 ++ S "\">") [rab.1] rab.2
      let st := emitL [S "        <title>Abstract</title>"] st
      let st :=
        if parsed.abstract.length = 1 ∧ (lookupA parsed.abstract (S "text")).isSome then
          let rp := bnid md pfx (S "p") st
          emitIdL (S "        <p id=\"" ++ rp.1 ++ S "\">" ++
            xe (pyStrip ((lookupA parsed.abstract (S "text")).getD [])) ++ S "</p>")
            [rp.1] rp.2
        else absItems md pfx parsed.abstract st
      emitL [S "      </abstract>"] st
    else st
  let st :=
    if parsed.keywords ≠ [] then
      let rkg := bnid md pfx (S "kwd-group") st
      let st := emitIdL (S "      <kwd-group id=\"" ++ rkg.1 ++
        S "\" kwd-group-type=\"author-generated\">") [rkg.1] rkg.2
      let st := emitL [S "        <title>Keywords</title>"] st
      let st := emitL (parsed.keywords.map (fun kw => S "        <kwd>" ++ xe kw ++
        S "</kwd>")) st
      emitL [S "      </kwd-group>"] st
    else st
  let st := emitL [[], S "    </article-meta>", S "  </front>", []] st
  let st := emitL [S "  <body>"] st
  st

/-- `build_xml(parsed, jm)` (lines 530–784): the front matter, the body with
table/figure placement, the end sweeps and the back matter; returns the final
emission state (lines, ids, events, counter) together with the parsed model
as mutated by the placement flags. -/
def build_xml (md : Str → Str) (parsed : Parsed) (jm : JM) : BSt × Parsed :=
  let pfx := makePfx md parsed.title
  let cites := parsed.references.map (fun r => natRepr r.num)
  let tids := parsed.tables.map (fun t => (natRepr t.num, S "tw-" ++ natRepr t.num))
  let fids := parsed.figures.map (fun f => (natRepr f.num, S "fig-" ++ natRepr f.num))
  let st := frontMatter md parsed jm
  let rb := bodySecs md pfx cites tids fids parsed.sections parsed.tables parsed.figures st
  let rT := sweepTbls md pfx rb.1 rb.2.2
  let rF := sweepFigs md pfx rb.2.1 rT.2
  let st := emitL [S "  </body>", []] rF.2
  let st := emitL [S "  <back>"] st
  let st :=
    if parsed.references ≠ [] then
      let st := emitL [S "    <ref-list>", S "      <title>References</title>"] st
      let st := backRefs pfx parsed.references st
      emitL [S "    </ref-list>"] st
    else st
  let st := emitL [S "  </back>", [], S "</article>"] st
  (st, { parsed with tables := rT.1, figures := rF.1 })

-- ── Claim C8: enrichment precedence in the back matter ──────────────────────

/-- The spec's uniform fallback rule: CrossRef first, then PubMed, then the
locally parsed value, a missing field being the empty (falsy) one. -/
def specPick (a b c : Str) : Str :=
  if a ≠ [] then a else if b ≠ [] then b else c

/-- The same rule for the author lists. -/
def specPickA (a b c : List NameRec) : List NameRec :=
  if a ≠ [] then a else if b ≠ [] then b else c

/-- `cr = ref.get('crossref') or {}` (line 741). -/
def crOf (ref : RefRec) : EnRec := ref.crossref.getD {}

/-- `pm = ref.get('pubmed') or {}` (line 741). -/
def pmOf (ref : RefRec) : EnRec := ref.pubmed.getD {}

/-- The DOI the code emits (lines 751–752): the reference-local DOI first,
then CrossRef, then PubMed — not the uniform rule. -/
def srcDoi (ref : RefRec) : Str :=
  if ref.doi ≠ [] then ref.doi
  else if (crOf ref).doi ≠ [] then (crOf ref).doi else (pmOf ref).doi

/-- C8 (corrected): during back-matter serialization the eight bibliographic
fields authors, title, journal, year, volume, issue, fpage and lpage do
follow the uniform CrossRef-then-PubMed-then-local fallback, each emitted
inside its element when the chosen value is non-empty; the DOI does NOT
follow that rule — the emitted `<pub-id>` carries the reference-local DOI
first (lines 751–752), falling back to CrossRef and PubMed only when the
local one is empty. -/
theorem claim_C8 (pfx : Str) (ref : RefRec) :
    (specPickA (crOf ref).authors (pmOf ref).authors ref.parsed.authors ≠ [] →
      S "          <person-group person-group-type=\"author\">" ∈ refEntry pfx ref) ∧
    (specPick (crOf ref).title (pmOf ref).title ref.parsed.title ≠ [] →
      S "          <article-title>" ++
        xe (specPick (crOf ref).title (pmOf ref).title ref.parsed.title) ++
        S "</article-title>" ∈ refEntry pfx ref) ∧
    (specPick (crOf ref).journal (pmOf ref).journal ref.parsed.journal ≠ [] →
      S "          <source>" ++
        xe (specPick (crOf ref).journal (pmOf ref).journal ref.parsed.journal) ++
        S "</source>" ∈ refEntry pfx ref) ∧
    (specPick (crOf ref).year (pmOf ref).year ref.parsed.year ≠ [] →
      S "          <year iso-8601-date=\"" ++
        specPick (crOf ref).year (pmOf ref).year ref.parsed.year ++ S "\">" ++
        xe (specPick (crOf ref).year (pmOf ref).year ref.parsed.year) ++
        S "</year>" ∈ refEntry pfx ref) ∧
    (specPick (crOf ref).volume (pmOf ref).volume ref.parsed.volume ≠ [] →
      S "          <volume>" ++
        xe (specPick (crOf ref).volume (pmOf ref).volume ref.parsed.volume) ++
        S "</volume>" ∈ refEntry pfx ref) ∧
    (specPick (crOf ref).issue (pmOf ref).issue ref.parsed.issue ≠ [] →
      S "          <issue>" ++
        xe (specPick (crOf ref).issue (pmOf ref).issue ref.parsed.issue) ++
        S "</issue>" ∈ refEntry pfx ref) ∧
    (specPick (crOf ref).fpage (pmOf ref).fpage ref.parsed.fpage ≠ [] →
      S "          <fpage>" ++
        xe (pyStrip (specPick (crOf ref).fpage (pmOf ref).fpage ref.parsed.fpage)) ++
        S "</fpage>" ∈ refEntry pfx ref) ∧
    (specPick (crOf ref).lpage (pmOf ref).lpage ref.parsed.lpage ≠ [] →
      S "          <lpage>" ++
        xe (pyStrip (specPick (crOf ref).lpage (pmOf ref).lpage ref.parsed.lpage)) ++
        S "</lpage>" ∈ refEntry pfx ref) ∧
    (srcDoi ref ≠ [] ∧ '/' ∈ srcDoi ref →
      S "          <pub-id pub-id-type=\"doi\">" ++ xe (srcDoi ref) ++
        S "</pub-id>" ∈ refEntry pfx ref) := by
  refine ⟨?_, ?_, ?_, ?_, ?_, ?_, ?_, ?_, ?_⟩
  · intro h
    simp only [specPickA, crOf, pmOf] at h
    by_cases h1 : (ref.crossref.getD {}).authors = []
    · by_cases h2 : (ref.pubmed.getD {}).authors = []
      · have h3 : ref.parsed.authors ≠ [] := by simpa [h1, h2] using h
        simp [refEntry, h1, h2, h3]
      · simp [refEntry, h1, h2]
    · simp [refEntry, h1]
  · intro h
    simp only [specPick, crOf, pmOf] at h ⊢
    by_cases h1 : (ref.crossref.getD {}).title = []
    · by_cases h2 : (ref.pubmed.getD {}).title = []
      · have h3 : ref.parsed.title ≠ [] := by simpa [h1, h2] using h
        simp [refEntry, h1, h2, h3]
      · simp [refEntry, h1, h2]
    · simp [refEntry, h1]
  · intro h
    simp only [specPick, crOf, pmOf] at h ⊢
    by_cases h1 : (ref.crossref.getD {}).journal = []
    · by_cases h2 : (ref.pubmed.getD {}).journal = []
      · have h3 : ref.parsed.journal ≠ [] := by simpa [h1, h2] using h
        simp [refEntry, h1, h2, h3]
      · simp [refEntry, h1, h2]
    · simp [refEntry, h1]
  · intro h
    simp only [specPick, crOf, pmOf] at h ⊢
    by_cases h1 : (ref.crossref.getD {}).year = []
    · by_cases h2 : (ref.pubmed.getD {}).year = []
      · have h3 : ref.parsed.year ≠ [] := by simpa [h1, h2] using h
        simp [refEntry, h1, h2, h3]
      · simp [refEntry, h1, h2]
    · simp [refEntry, h1]
  · intro h
    simp only [specPick, crOf, pmOf] at h ⊢
    by_cases h1 : (ref.crossref.getD {}).volume = []
    · by_cases h2 : (ref.pubmed.getD {}).volume = []
      · have h3 : ref.parsed.volume ≠ [] := by simpa [h1, h2] using h
        simp [refEntry, h1, h2, h3]
      · simp [refEntry, h1, h2]
    · simp [refEntry, h1]
  · intro h
    simp only [specPick, crOf, pmOf] at h ⊢
    by_cases h1 : (ref.crossref.getD {}).issue = []
    · by_cases h2 : (ref.pubmed.getD {}).issue = []
      · have h3 : ref.parsed.issue ≠ [] := by simpa [h1, h2] using h
        simp [refEntry, h1, h2, h3]
      · simp [refEntry, h1, h2]
    · simp [refEntry, h1]
  · intro h
    simp only [specPick, crOf, pmOf] at h ⊢
    by_cases h1 : (ref.crossref.getD {}).fpage = []
    · by_cases h2 : (ref.pubmed.getD {}).fpage = []
      · have h3 : ref.parsed.fpage ≠ [] := by simpa [h1, h2] using h
        simp [refEntry, h1, h2, h3]
      · simp [refEntry, h1, h2]
    · simp [refEntry, h1]
  · intro h
    simp only [specPick, crOf, pmOf] at h ⊢
    by_cases h1 : (ref.crossref.getD {}).lpage = []
    · by_cases h2 : (ref.pubmed.getD {}).lpage = []
      · have h3 : ref.parsed.lpage ≠ [] := by simpa [h1, h2] using h
        simp [refEntry, h1, h2, h3]
      · simp [refEntry, h1, h2]
    · simp [refEntry, h1]
  · intro h
    simp only [srcDoi, crOf, pmOf] at h ⊢
    by_cases h1 : ref.doi = []
    · by_cases h2 : (ref.crossref.getD {}).doi = []
      · have h3 : (ref.pubmed.getD {}).doi ≠ [] ∧ '/' ∈ (ref.pubmed.getD {}).doi := by
          simpa [h1, h2] using h
        simp [refEntry, h1, h2, h3.1, h3.2]
      · have h3 : '/' ∈ (ref.crossref.getD {}).doi := by simpa [h1, h2] using h.2
        simp [refEntry, h1, h2, h3]
    · have h3 : '/' ∈ ref.doi := by simpa [h1] using h.2
      simp [refEntry, h1, h3]

/-- The concrete reference of the C8 counterexample: local DOI and CrossRef
DOI both present and different. -/
def refC8a : RefRec :=
  { num := 1
    raw := S "x"
    doi := S "10.1/local"
    crossref := some { doi := S "10.2/cr" } }

/-- The concrete enriched reference of the C8 witness. -/
def refC8w : RefRec :=
  { num := 2
    raw := S "w"
    parsed := { title := S "Local T", year := S "1999" }
    crossref := some { title := S "CR Title", doi := S "10.9/cr" }
    pubmed := some { title := S "PM Title", journal := S "PM J" } }

/-- C8 counterexample: the claim's uniform CrossRef-first rule fails for the
DOI.  With a local DOI `10.1/local` and a CrossRef DOI `10.2/cr`, the rule
would emit the CrossRef value, but the code emits the local one. -/
theorem claim_C8_counterexample :
    (S "          <pub-id pub-id-type=\"doi\">" ++
      xe (specPick (crOf refC8a).doi (pmOf refC8a).doi refC8a.parsed.doi) ++
      S "</pub-id>" ∉ refEntry (S "p") refC8a) ∧
    (S "          <pub-id pub-id-type=\"doi\">" ++ xe (S "10.1/local") ++ S "</pub-id>"
      ∈ refEntry (S "p") refC8a) := by
  constructor
  · decide
  · decide

/-- C8 witness: a concrete enriched reference exercising the theorem — the
CrossRef title wins, the journal falls back to PubMed. -/
theorem claim_C8_witness :
    (S "          <article-title>" ++
      xe (specPick (S "CR Title") (S "PM Title") (S "Local T")) ++
      S "</article-title>" ∈ refEntry (S "p") refC8w) ∧
    (S "          <source>" ++ xe (specPick [] (S "PM J") []) ++ S "</source>"
      ∈ refEntry (S "p") refC8w) := by
  constructor
  · exact (claim_C8 (S "p") refC8w).2.1 (by decide)
  · exact (claim_C8 (S "p") refC8w).2.2.1 (by decide)

-- ── Claim C9: malformed references round-trip ───────────────────────────────

/-- The reference record `parse_docx` builds from a recognized reference
line (lines 409–413), before enrichment. -/
def refOfRaw (raw : Str) (n : Nat) : RefRec :=
  { num := n
    raw := raw
    doi := (parse_ref raw).doi
    parsed := parse_ref raw }

/-- C9 (confirmed): `parse_ref` is a total function — every raw reference
line yields a record (each Python operation it performs is non-raising, and
the one `int()` conversion is `try/except`-guarded, modeled by the `Option`
result of `natOfDigits` inside `fixLpage`).  Serializing an unenriched
reference built from that record always produces an entry that opens with
its `<ref>` line and closes with `</ref>`, and when the record has no
authors and no title the entry contains the raw-text fallback comment of
lines 779–780. -/
theorem claim_C9 (pfx raw : Str) (n : Nat) :
    (refEntry pfx (refOfRaw raw n)).headD []
      = S "      <ref id=\"" ++ pfx ++ S "-B" ++ natRepr n ++ S "\">" ∧
    (refEntry pfx (refOfRaw raw n)).getLast? = some (S "      </ref>") ∧
    ((parse_ref raw).authors = [] ∧ (parse_ref raw).title = [] →
      S "          <!-- RAW: " ++ xe (raw.take 200) ++ S " -->"
        ∈ refEntry pfx (refOfRaw raw n)) := by
  refine ⟨rfl, ?_, ?_⟩
  · rw [refEntry, List.getLast?_append]
    rfl
  · intro h
    simp [refEntry, refOfRaw, crOf, pmOf, h.1, h.2]

/-- C9 witness: the reference line `"."` parses to a record with no authors
and no title, and its serialized entry opens with `<ref>`, closes with
`</ref>`, and contains the raw-text fallback comment. -/
theorem claim_C9_witness :
    (refEntry (S "idw") (refOfRaw (S ".") 3)).headD []
      = S "      <ref id=\"" ++ S "idw" ++ S "-B" ++ natRepr 3 ++ S "\">" ∧
    (refEntry (S "idw") (refOfRaw (S ".") 3)).getLast? = some (S "      </ref>") ∧
    S "          <!-- RAW: " ++ xe ((S ".").take 200) ++ S " -->"
      ∈ refEntry (S "idw") (refOfRaw (S ".") 3) := by
  have h := claim_C9 (S "idw") (S ".") 3
  exact ⟨h.1, h.2.1, h.2.2 (by decide)⟩
/-- A paragraph recognized as a reference line (the guard of line 407). -/
def isRefLine (p : DPara) : Bool :=
  p.style = S "Reference" && pyStrip p.text ≠ [] && !hasPfx (S "http") (pyStrip p.text)

theorem map_num_dropLast_doi (l : List RefRec) (r : RefRec) (hx : l.getLast? = some r) (d : Str) :
    (l.dropLast ++ [{ r with doi := d }]).map RefRec.num = l.map RefRec.num := by
  have hne : l ≠ [] := by intro h; rw [h] at hx; simp at hx
  have hl : l.dropLast ++ [l.getLast hne] = l := List.dropLast_append_getLast hne
  have hrx : l.getLast hne = r := by
    have := List.getLast?_eq_getLast l hne
    rw [hx] at this; exact (Option.some_injective _ this.symm)
  conv_rhs => rw [← hl]
  simp [hrx]

set_option maxHeartbeats 2000000 in
theorem paraStep_refs (p : DPara) (st : PSt) :
    ((paraStep p st).refNum = (if isRefLine p then st.refNum + 1 else st.refNum)) ∧
    ((paraStep p st).parsed.references.map RefRec.num
      = st.parsed.references.map RefRec.num ++ (if isRefLine p then [st.refNum] else [])) := by
  unfold paraStep
  by_cases h1 : p.style = S "Title"
  · have hRL : isRefLine p = false := by simp +decide [isRefLine, h1]
    simp +decide [h1, hRL]
  by_cases h2 : p.style = S "Author Name"
  · have hRL : isRefLine p = false := by simp +decide [isRefLine, h2]
    simp +decide [h2, hRL]
  by_cases h3 : p.style = S "Authors affiliation" ∨ p.style = S "Last Authors affiliation"
  · have hRL : isRefLine p = false := by
      rcases h3 with h | h <;> simp +decide [isRefLine, h]
    rcases h3 with h | h <;> (simp +decide [h, hRL]; try split_ifs <;> simp)
  by_cases h4 : p.style = S "Abstract"
  · have hRL : isRefLine p = false := by simp +decide [isRefLine, h4]
    simp +decide [h4, hRL]
    split
    · simp
    · cases reMatch pAbsLabel (pyStrip p.text) <;> simp
  by_cases h5 : p.style = S "Keywords"
  · have hRL : isRefLine p = false := by simp +decide [isRefLine, h5]
    simp +decide [h5, hRL]
    split
    · simp
    · split
      · cases reSearch pRecvD (pyStrip p.text) <;>
          cases reSearch pAccepD (pyStrip p.text) <;> simp
      · simp
  by_cases h6 : p.style = S "Heading 1"
  · have hRL : isRefLine p = false := by simp +decide [isRefLine, h6]
    simp +decide [h6, hRL]
    split <;> simp
  by_cases h7 : p.style = S "Heading 2"
  · have hRL : isRefLine p = false := by simp +decide [isRefLine, h7]
    simp +decide [h7, hRL]
    split <;> simp
  by_cases h8 : p.style = S "Paragraph 1" ∨ p.style = S "2nd Para" ∨
      p.style = S "List Paragraph" ∨ p.style = S "Normal"
  · have hRL : isRefLine p = false := by
      rcases h8 with h | h | h | h <;> simp +decide [isRefLine, h]
    rcases h8 with h | h | h | h <;>
      (simp +decide [h, hRL]
       split
       · simp
       · split
         · simp
         · split <;> simp)
  by_cases h9 : p.style = S "Reference"
  · simp only [h1, h2, h3, h4, h5, h6, h7, h8, h9, if_false, if_true]
    simp +decide only []
    by_cases hc : pyStrip p.text ≠ [] ∧ ¬ (hasPfx (S "http") (pyStrip p.text) = true)
    · have hRL : isRefLine p = true := by
        simp [isRefLine, h9, hc.1, hc.2]
      simp [hc, hRL]
    · have hRL : isRefLine p = false := by
        rcases not_and_or.mp hc with h | h
        · have hst : pyStrip p.text = [] := not_not.mp h
          simp [isRefLine, hst]
        · have hpf : hasPfx (S "http") (pyStrip p.text) = true := by
            by_contra hn
            exact h (by simpa using hn)
          simp [isRefLine, hpf]
      simp only [hc, if_false, hRL, List.append_nil]
      split
      · rename_i hcond
        cases hL : st.parsed.references.getLast? with
        | none =>
          rcases hrefs : st.parsed.references with _ | ⟨a, l⟩
          · exact absurd hrefs hcond.2
          · rw [hrefs] at hL; simp at hL
        | some r =>
          cases hS : reSearch p10S (pyStrip p.text) with
          | none => simp
          | some v =>
            obtain ⟨s0, e0, caps0⟩ := v
            simp only [hS, hL, Bool.false_eq_true, if_false, List.append_nil]
            exact ⟨trivial, map_num_dropLast_doi _ _ hL _⟩
      · simp
  · have hRL : isRefLine p = false := by simp [isRefLine, h9]
    simp only [h1, h2, h3, h4, h5, h6, h7, h8, h9, if_false, if_true, hRL]
    by_cases h10 : p.style = S "Table caption"
    · simp +decide [h10]
      split
      · cases reSearch pTblCap (pyStrip p.text) <;> simp
      · simp
    · by_cases h11 : p.style = S "Caption" ∨ p.style = S "Figure Caption" ∨
          p.style = S "Image Caption"
      · rcases h11 with h | h | h <;>
          (simp +decide [h]
           split
           · cases reSearch pFigCap (pyStrip p.text) <;> simp
           · simp)
      · simp [h10, h11]

/-- The reference numbering invariant over the whole paragraph pass: the
collected numbers extend by `range'` and `ref_num` advances by the count of
recognized reference lines. -/
theorem paraLoop_refs (ps : List DPara) : ∀ st : PSt,
    (paraLoop ps st).parsed.references.map RefRec.num
      = st.parsed.references.map RefRec.num ++
        List.range' st.refNum ((ps.filter isRefLine).length) ∧
    (paraLoop ps st).refNum = st.refNum + ((ps.filter isRefLine).length) := by
  induction ps with
  | nil => intro st; simp [paraLoop]
  | cons p ps ih =>
    intro st
    rw [paraLoop]
    have hs := paraStep_refs p st
    have hi := ih (paraStep p st)
    by_cases h : isRefLine p = true
    · rw [h] at hs
      simp only [if_true] at hs
      constructor
      · rw [hi.1, hs.2, hs.1]
        have hflen : ((p :: ps).filter isRefLine).length
            = ((ps.filter isRefLine).length) + 1 := by simp [h]
        rw [hflen, List.append_assoc]
        rfl
      · rw [hi.2, hs.1]
        have hflen : ((p :: ps).filter isRefLine).length
            = ((ps.filter isRefLine).length) + 1 := by simp [h]
        rw [hflen]
        omega
    · rw [Bool.not_eq_true] at h
      rw [h] at hs
      simp only [Bool.false_eq_true, if_false, List.append_nil] at hs
      constructor
      · rw [hi.1, hs.2, hs.1]
        simp [h]
      · rw [hi.2, hs.1]
        simp [h]

/-- Enrichment never changes a reference's sequence number. -/
theorem enrichRef_num (f1 f2 f3 f4 : Str → Option EnRec) (r : RefRec) :
    (enrichRef f1 f2 f3 f4 r).num = r.num := rfl

/-- The reference numbers produced by `parse_docx` are exactly `1..N` in
appearance order, `N` being the number of recognized reference lines. -/
theorem parse_docx_refs (ps : List DPara) (dts : List DTbl) (use : Bool)
    (f1 f2 f3 f4 : Str → Option EnRec) :
    (parse_docx ps dts use f1 f2 f3 f4).references.map RefRec.num
      = List.range' 1 ((ps.filter isRefLine).length) := by
  unfold parse_docx
  have h := (paraLoop_refs ps {}).1
  simp only [List.map_nil, List.nil_append] at h
  dsimp only
  split
  · rw [List.map_map]
    have : RefRec.num ∘ enrichRef f1 f2 f3 f4 = RefRec.num := by
      funext r; exact enrichRef_num f1 f2 f3 f4 r
    rw [this]
    exact h
  · exact h

theorem filter_eq_len_of_nodup {α : Type} [DecidableEq α] :
    ∀ (l : List α), l.Nodup → ∀ k, k ∈ l → (l.filter (fun x => x = k)).length = 1 := by
  intro l
  induction l with
  | nil => intro _ k hk; simp at hk
  | cons a l ih =>
    intro hnd k hk
    rcases List.mem_cons.mp hk with h | h
    · subst h
      have hnotin : k ∉ l := (List.nodup_cons.mp hnd).1
      have hnil : l.filter (fun x => x = k) = [] := by
        rw [List.filter_eq_nil_iff]
        intro b hb
        simp only [decide_eq_true_eq]
        intro hbk; exact hnotin (hbk ▸ hb)
      simp [List.filter_cons, hnil]
    · have hne : a ≠ k := by
        intro he; exact (List.nodup_cons.mp hnd).1 (he ▸ h)
      have := ih (List.nodup_cons.mp hnd).2 k h
      simp [List.filter_cons, hne, this]

theorem filter_map_inj_len {α β : Type} [DecidableEq α] [DecidableEq β]
    (f : α → β) (hf : Function.Injective f) (k : α) :
    ∀ l : List α, ((l.map f).filter (fun x => x = f k)).length
      = (l.filter (fun n => n = k)).length := by
  intro l
  induction l with
  | nil => simp
  | cons a l ih =>
    by_cases h : a = k
    · subst h
      simp [List.filter_cons, ih]
    · have hfne : ¬ (f a = f k) := fun he => h (hf he)
      simp [List.filter_cons, h, hfne, ih]

/-- C2 (corrected): `parse_docx` numbers the recognized reference lines
exactly `1..N` in appearance order, and an in-text citation rid
`{pfx}-B{k}` written with the canonical decimal numeral of `k` matches the
id of exactly one `<ref>` element when `1 ≤ k ≤ N`.  (The qualification to
canonical numerals is the correction: the sup branch of `_fmt_chunk` embeds
the raw digit token into the rid, so a token with a leading zero such as
`"01"` yields a rid matching no reference id at all — see the
counterexample.) -/
theorem claim_C2 (ps : List DPara) (dts : List DTbl) (use : Bool)
    (f1 f2 f3 f4 : Str → Option EnRec) (pfx : Str) :
    (parse_docx ps dts use f1 f2 f3 f4).references.map RefRec.num
      = List.range' 1 ((ps.filter isRefLine).length) ∧
    (∀ k, 1 ≤ k → k ≤ (ps.filter isRefLine).length →
      (((parse_docx ps dts use f1 f2 f3 f4).references.map
          (fun r => citeRid pfx (natRepr r.num))).filter
        (fun x => x = citeRid pfx (natRepr k))).length = 1) := by
  refine ⟨parse_docx_refs ps dts use f1 f2 f3 f4, ?_⟩
  intro k h1 h2
  have hinj : Function.Injective (fun n => citeRid pfx (natRepr n)) := by
    intro a b hab
    simp only [citeRid] at hab
    exact natRepr_injective (List.append_cancel_left hab)
  have hmap : (parse_docx ps dts use f1 f2 f3 f4).references.map
      (fun r => citeRid pfx (natRepr r.num))
      = (List.range' 1 ((ps.filter isRefLine).length)).map
          (fun n => citeRid pfx (natRepr n)) := by
    rw [← parse_docx_refs ps dts use f1 f2 f3 f4, List.map_map]
    rfl
  rw [hmap]
  have hmem : k ∈ List.range' 1 ((ps.filter isRefLine).length) := by
    rw [List.mem_range'_1]
    omega
  rw [filter_map_inj_len (fun n => citeRid pfx (natRepr n)) hinj k]
  exact filter_eq_len_of_nodup _ (List.nodup_range' 1 _) k hmem
/-- The single-reference document of the C2 counterexample and witness. -/
def docC2 : List DPara :=
  [{ style := S "Reference", runs := [{ t := S "Ref one.", sup := false, ital := false, bold := false }] }]

/-- C2 counterexample: with one reference (`N = 1`), the superscript token
`"01"` denotes the in-range number 1, and `_fmt_chunk` emits it with rid
`idx-B01`; no reference id equals that rid, so the citation resolves to zero
reference elements, not one. -/
theorem claim_C2_counterexample :
    containsSub (fmtChunk mdTest (S "idx") { t := S "01", sup := true, ital := false, bold := false } (S "01") 0).1
      (S "rid=\"" ++ citeRid (S "idx") (S "01") ++ S "\"") = true ∧
    natOfDigits (S "01") = some 1 ∧
    (parse_docx docC2 [] false (fun _ => none) (fun _ => none) (fun _ => none)
        (fun _ => none)).references.map RefRec.num = [1] ∧
    (((parse_docx docC2 [] false (fun _ => none) (fun _ => none) (fun _ => none)
        (fun _ => none)).references.map
          (fun r => citeRid (S "idx") (natRepr r.num))).filter
        (fun x => x = citeRid (S "idx") (S "01"))).length = 0 := by
  refine ⟨by decide, by decide, by decide, by decide⟩

/-- C2 witness: the theorem applied to the same one-reference document at
`k = 1`. -/
theorem claim_C2_witness :
    (parse_docx docC2 [] false (fun _ => none) (fun _ => none) (fun _ => none)
        (fun _ => none)).references.map RefRec.num
      = List.range' 1 ((docC2.filter isRefLine).length) ∧
    (((parse_docx docC2 [] false (fun _ => none) (fun _ => none) (fun _ => none)
        (fun _ => none)).references.map
          (fun r => citeRid (S "idx") (natRepr r.num))).filter
        (fun x => x = citeRid (S "idx") (natRepr 1))).length = 1 := by
  have h := claim_C2 docC2 [] false (fun _ => none) (fun _ => none) (fun _ => none)
    (fun _ => none) (S "idx")
  exact ⟨h.1, h.2 1 (by decide) (by decide)⟩

-- ── Event-trace model of the body serialization (claims C4 and C10) ─────────

@[simp] theorem emitL_evs (ls : List Str) (st : BSt) : (emitL ls st).evs = st.evs := rfl
@[simp] theorem emitIdL_evs (l : Str) (i : List Str) (st : BSt) :
    (emitIdL l i st).evs = st.evs := rfl
@[simp] theorem pushEv_evs (e : Ev) (st : BSt) : (pushEv e st).evs = st.evs ++ [e] := rfl
@[simp] theorem bnid_evs (md : Str → Str) (pfx label : Str) (st : BSt) :
    (bnid md pfx label st).2.evs = st.evs := rfl

theorem thCells_evs (md : Str → Str) (pfx : Str) :
    ∀ (cs : List Cell) (st : BSt), (thCells md pfx cs st).evs = st.evs := by
  intro cs
  induction cs with
  | nil => intro st; rfl
  | cons c cs ih =>
    intro st
    rw [thCells]
    split <;> simp [ih]

theorem tdCells_evs (md : Str → Str) (pfx : Str) :
    ∀ (cs : List Cell) (st : BSt), (tdCells md pfx cs st).evs = st.evs := by
  intro cs
  induction cs with
  | nil => intro st; rfl
  | cons c cs ih =>
    intro st
    rw [tdCells]
    split <;> simp [ih]

theorem trRows_evs (md : Str → Str) (pfx : Str) :
    ∀ (rs : List (List Cell)) (st : BSt), (trRows md pfx rs st).evs = st.evs := by
  intro rs
  induction rs with
  | nil => intro st; rfl
  | cons r rs ih =>
    intro st
    rw [trRows]
    simp [ih, tdCells_evs]

theorem build_table_xml_evs (md : Str → Str) (pfx : Str) (tbl : Tbl) (st : BSt) :
    (build_table_xml md pfx tbl st).evs = st.evs ++ [Ev.table tbl.num] := by
  rw [build_table_xml]
  split_ifs <;> simp [thCells_evs, trRows_evs]

theorem build_fig_xml_evs (md : Str → Str) (pfx : Str) (fig : Fig) (st : BSt) :
    (build_fig_xml md pfx fig st).evs = st.evs ++ [Ev.fig fig.num] := by
  rw [build_fig_xml]
  split <;> simp

/-- The table-mention test of lines 695/714: `f"Table {num}" in para.text`. -/
def tblMention (ptxt : Str) (n : Nat) : Bool := containsSub ptxt (S "Table " ++ natRepr n)

/-- The figure-mention test of lines 701/718. -/
def figMention (ptxt : Str) (n : Nat) : Bool := (reSearch (figMentionRe n) ptxt).isSome

/-- Pure model of one paragraph's table placement: the flags after it. -/
def tblMark (ptxt : Str) (tbls : List Tbl) : List Tbl :=
  tbls.map (fun t => if !t.placed && tblMention ptxt t.num then { t with placed := true } else t)

/-- Pure model of one paragraph's table events. -/
def tblEvsP (ptxt : Str) (tbls : List Tbl) : List Ev :=
  (tbls.filter (fun t => !t.placed && tblMention ptxt t.num)).map (fun t => Ev.table t.num)

def figMark (ptxt : Str) (figs : List Fig) : List Fig :=
  figs.map (fun f => if !f.placed && figMention ptxt f.num then { f with placed := true } else f)

def figEvsP (ptxt : Str) (figs : List Fig) : List Ev :=
  (figs.filter (fun f => !f.placed && figMention ptxt f.num)).map (fun f => Ev.fig f.num)

/-- The events one body paragraph contributes. -/
def paraTrace (p : DPara) (tbls : List Tbl) (figs : List Fig) : List Ev :=
  Ev.para :: (tblEvsP p.text tbls ++ figEvsP p.text figs)

/-- The pure event/flag model of the body paragraph walk. -/
def bodyTrace : List DPara → List Tbl → List Fig → List Ev × List Tbl × List Fig
  | [], tbls, figs => ([], tbls, figs)
  | p :: ps, tbls, figs =>
    let r := bodyTrace ps (tblMark p.text tbls) (figMark p.text figs)
    (paraTrace p tbls figs ++ r.1, r.2)

/-- All body paragraphs in serialization order: the section's own paragraphs
first, then those of its subsections, section by section. -/
def docParas (secs : List Sec) : List DPara :=
  (secs.map (fun s => s.paragraphs ++ (s.subsections.map (fun sb => sb.paragraphs)).flatten)).flatten

theorem placeTbls_spec (md : Str → Str) (pfx : Str) (ptxt : Str) :
    ∀ (ts : List Tbl) (st : BSt),
      (placeTbls md pfx ptxt ts st).1 = tblMark ptxt ts ∧
      (placeTbls md pfx ptxt ts st).2.evs = st.evs ++ tblEvsP ptxt ts := by
  intro ts
  induction ts with
  | nil => intro st; simp [placeTbls, tblMark, tblEvsP]
  | cons t ts ih =>
    intro st
    rw [placeTbls]
    by_cases h : (!t.placed && tblMention ptxt t.num) = true
    · have hcond := h
      simp only [tblMention] at h
      simp only [h, if_true]
      constructor
      · conv_rhs => rw [tblMark, List.map_cons, if_pos hcond]
        have h2 := (ih (build_table_xml md pfx t st)).1
        rw [tblMark] at h2
        simp [h2, tblMark]
      · rw [(ih _).2, build_table_xml_evs]
        conv_rhs => rw [tblEvsP, List.filter_cons]
        simp [hcond, tblEvsP]
    · have hcond : (!t.placed && tblMention ptxt t.num) = false := by
        rwa [Bool.not_eq_true] at h
      simp only [tblMention] at h
      simp only [h, if_false, Bool.false_eq_true]
      constructor
      · conv_rhs => rw [tblMark, List.map_cons, if_neg (by simp [hcond])]
        have h2 := (ih st).1
        rw [tblMark] at h2
        simp [h2, tblMark]
      · rw [(ih _).2]
        conv_rhs => rw [tblEvsP, List.filter_cons]
        simp [hcond, tblEvsP]

theorem placeFigs_spec (md : Str → Str) (pfx : Str) (ptxt : Str) :
    ∀ (fs : List Fig) (st : BSt),
      (placeFigs md pfx ptxt fs st).1 = figMark ptxt fs ∧
      (placeFigs md pfx ptxt fs st).2.evs = st.evs ++ figEvsP ptxt fs := by
  intro fs
  induction fs with
  | nil => intro st; simp [placeFigs, figMark, figEvsP]
  | cons f fs ih =>
    intro st
    rw [placeFigs]
    by_cases h : (!f.placed && figMention ptxt f.num) = true
    · have hcond := h
      simp only [figMention] at h
      simp only [h, if_true]
      constructor
      · conv_rhs => rw [figMark, List.map_cons, if_pos hcond]
        have h2 := (ih (build_fig_xml md pfx f st)).1
        rw [figMark] at h2
        simp [h2, figMark]
      · rw [(ih _).2, build_fig_xml_evs]
        conv_rhs => rw [figEvsP, List.filter_cons]
        simp [hcond, figEvsP]
    · have hcond : (!f.placed && figMention ptxt f.num) = false := by
        rwa [Bool.not_eq_true] at h
      simp only [figMention] at h
      simp only [h, if_false, Bool.false_eq_true]
      constructor
      · conv_rhs => rw [figMark, List.map_cons, if_neg (by simp [hcond])]
        have h2 := (ih st).1
        rw [figMark] at h2
        simp [h2, figMark]
      · rw [(ih _).2]
        conv_rhs => rw [figEvsP, List.filter_cons]
        simp [hcond, figEvsP]

theorem bodyPara_spec (md : Str → Str) (pfx : Str) (cites : List Str)
    (tids fids : List (Str × Str)) (ind : Str) (p : DPara)
    (tbls : List Tbl) (figs : List Fig) (st : BSt) :
    (bodyPara md pfx cites tids fids ind p tbls figs st).1 = tblMark p.text tbls ∧
    (bodyPara md pfx cites tids fids ind p tbls figs st).2.1 = figMark p.text figs ∧
    (bodyPara md pfx cites tids fids ind p tbls figs st).2.2.evs
      = st.evs ++ paraTrace p tbls figs := by
  rw [bodyPara]
  have hp := placeTbls_spec md pfx p.text tbls
  have hf := placeFigs_spec md pfx p.text figs
  split
  · refine ⟨(hp _).1, (hf _).1, ?_⟩
    rw [(hf _).2, (hp _).2]
    simp [paraTrace]
  · refine ⟨(hp _).1, (hf _).1, ?_⟩
    rw [(hf _).2, (hp _).2]
    simp [paraTrace]

theorem bodyTrace_append : ∀ (ps qs : List DPara) (tbls : List Tbl) (figs : List Fig),
    bodyTrace (ps ++ qs) tbls figs
      = ((bodyTrace ps tbls figs).1 ++
          (bodyTrace qs (bodyTrace ps tbls figs).2.1 (bodyTrace ps tbls figs).2.2).1,
         (bodyTrace qs (bodyTrace ps tbls figs).2.1 (bodyTrace ps tbls figs).2.2).2) := by
  intro ps
  induction ps with
  | nil => intro qs tbls figs; simp [bodyTrace]
  | cons p ps ih =>
    intro qs tbls figs
    rw [List.cons_append, bodyTrace, bodyTrace, ih]
    simp

theorem bodyParas_spec (md : Str → Str) (pfx : Str) (cites : List Str)
    (tids fids : List (Str × Str)) (ind : Str) :
    ∀ (ps : List DPara) (tbls : List Tbl) (figs : List Fig) (st : BSt),
      (bodyParas md pfx cites tids fids ind ps tbls figs st).1
        = (bodyTrace ps tbls figs).2.1 ∧
      (bodyParas md pfx cites tids fids ind ps tbls figs st).2.1
        = (bodyTrace ps tbls figs).2.2 ∧
      (bodyParas md pfx cites tids fids ind ps tbls figs st).2.2.evs
        = st.evs ++ (bodyTrace ps tbls figs).1 := by
  intro ps
  induction ps with
  | nil => intro tbls figs st; simp [bodyParas, bodyTrace]
  | cons p ps ih =>
    intro tbls figs st
    rw [bodyParas, bodyTrace]
    have hb := bodyPara_spec md pfx cites tids fids ind p tbls figs st
    rw [hb.1, hb.2.1]
    have hi := ih (tblMark p.text tbls) (figMark p.text figs)
      (bodyPara md pfx cites tids fids ind p tbls figs st).2.2
    refine ⟨hi.1, hi.2.1, ?_⟩
    rw [hi.2.2, hb.2.2]
    simp

theorem bodySubs_spec (md : Str → Str) (pfx : Str) (cites : List Str)
    (tids fids : List (Str × Str)) :
    ∀ (subs : List SubSec) (tbls : List Tbl) (figs : List Fig) (st : BSt),
      (bodySubs md pfx cites tids fids subs tbls figs st).1
        = (bodyTrace ((subs.map (fun sb => sb.paragraphs)).flatten) tbls figs).2.1 ∧
      (bodySubs md pfx cites tids fids subs tbls figs st).2.1
        = (bodyTrace ((subs.map (fun sb => sb.paragraphs)).flatten) tbls figs).2.2 ∧
      (bodySubs md pfx cites tids fids subs tbls figs st).2.2.evs
        = st.evs ++ (bodyTrace ((subs.map (fun sb => sb.paragraphs)).flatten) tbls figs).1 := by
  intro subs
  induction subs with
  | nil => intro tbls figs st; simp [bodySubs, bodyTrace]
  | cons sub subs ih =>
    intro tbls figs st
    rw [bodySubs]
    simp only [List.map_cons, List.flatten_cons]
    rw [bodyTrace_append]
    have hp := bodyParas_spec md pfx cites tids fids (S "        ") sub.paragraphs tbls figs
    rw [(hp _).1, (hp _).2.1]
    have hi := ih (bodyTrace sub.paragraphs tbls figs).2.1 (bodyTrace sub.paragraphs tbls figs).2.2
    refine ⟨(hi _).1, (hi _).2.1, ?_⟩
    rw [(hi _).2.2]
    simp only [emitL_evs]
    rw [(hp _).2.2]
    simp

theorem bodySecs_spec (md : Str → Str) (pfx : Str) (cites : List Str)
    (tids fids : List (Str × Str)) :
    ∀ (secs : List Sec) (tbls : List Tbl) (figs : List Fig) (st : BSt),
      (bodySecs md pfx cites tids fids secs tbls figs st).1
        = (bodyTrace (docParas secs) tbls figs).2.1 ∧
      (bodySecs md pfx cites tids fids secs tbls figs st).2.1
        = (bodyTrace (docParas secs) tbls figs).2.2 ∧
      (bodySecs md pfx cites tids fids secs tbls figs st).2.2.evs
        = st.evs ++ (bodyTrace (docParas secs) tbls figs).1 := by
  intro secs
  induction secs with
  | nil => intro tbls figs st; simp [bodySecs, bodyTrace, docParas]
  | cons sec secs ih =>
    intro tbls figs st
    rw [bodySecs]
    simp only [docParas, List.map_cons, List.flatten_cons]
    rw [bodyTrace_append, bodyTrace_append]
    have hp := bodyParas_spec md pfx cites tids fids (S "      ") sec.paragraphs tbls figs
    rw [(hp _).1, (hp _).2.1]
    have hs := bodySubs_spec md pfx cites tids fids sec.subsections
      (bodyTrace sec.paragraphs tbls figs).2.1 (bodyTrace sec.paragraphs tbls figs).2.2
    rw [(hs _).1, (hs _).2.1]
    have hi := ih (bodyTrace ((sec.subsections.map (fun sb => sb.paragraphs)).flatten)
        (bodyTrace sec.paragraphs tbls figs).2.1 (bodyTrace sec.paragraphs tbls figs).2.2).2.1
      (bodyTrace ((sec.subsections.map (fun sb => sb.paragraphs)).flatten)
        (bodyTrace sec.paragraphs tbls figs).2.1 (bodyTrace sec.paragraphs tbls figs).2.2).2.2
    refine ⟨?_, ?_, ?_⟩
    · rw [(hi _).1]
      rfl
    · rw [(hi _).2.1]
      rfl
    · rw [(hi _).2.2]
      try simp only [emitL_evs]
      rw [(hs _).2.2]
      try simp only [emitL_evs, emitIdL_evs, bnid_evs]
      rw [(hp _).2.2]
      try simp only [emitL_evs, emitIdL_evs, bnid_evs]
      simp [docParas]

/-- The table end sweep (lines 725–727): every unplaced table is emitted and
marked placed. -/
def sweepTblEvs (ts : List Tbl) : List Ev :=
  (ts.filter (fun t => !t.placed)).map (fun t => Ev.table t.num)

def sweepFigEvs (fs : List Fig) : List Ev :=
  (fs.filter (fun f => !f.placed)).map (fun f => Ev.fig f.num)

theorem sweepTbls_spec (md : Str → Str) (pfx : Str) :
    ∀ (ts : List Tbl) (st : BSt),
      (sweepTbls md pfx ts st).1 = ts.map (fun t => { t with placed := true }) ∧
      (sweepTbls md pfx ts st).2.evs = st.evs ++ sweepTblEvs ts := by
  intro ts
  induction ts with
  | nil => intro st; simp [sweepTbls, sweepTblEvs]
  | cons t ts ih =>
    intro st
    rw [sweepTbls]
    by_cases h : t.placed = true
    · simp only [h, Bool.not_true, Bool.false_eq_true, if_false]
      constructor
      · rw [(ih _).1, List.map_cons]
        have ht : t = { t with placed := true } := by
          cases t; simp_all
        rw [← ht]
      · rw [(ih _).2]
        conv_rhs => rw [sweepTblEvs, List.filter_cons]
        simp [h, sweepTblEvs]
    · have hf : t.placed = false := by
        cases hp : t.placed
        · rfl
        · exact absurd hp h
      simp only [hf, Bool.not_false, if_true]
      constructor
      · rw [(ih _).1, List.map_cons]
      · rw [(ih _).2, build_table_xml_evs]
        conv_rhs => rw [sweepTblEvs, List.filter_cons]
        simp [hf, sweepTblEvs]

theorem sweepFigs_spec (md : Str → Str) (pfx : Str) :
    ∀ (fs : List Fig) (st : BSt),
      (sweepFigs md pfx fs st).1 = fs ∧
      (sweepFigs md pfx fs st).2.evs = st.evs ++ sweepFigEvs fs := by
  intro fs
  induction fs with
  | nil => intro st; simp [sweepFigs, sweepFigEvs]
  | cons f fs ih =>
    intro st
    rw [sweepFigs]
    by_cases h : f.placed = true
    · simp only [h, Bool.not_true, Bool.false_eq_true, if_false]
      constructor
      · rw [(ih _).1]
      · rw [(ih _).2]
        conv_rhs => rw [sweepFigEvs, List.filter_cons]
        simp [h, sweepFigEvs]
    · have hf : f.placed = false := by
        cases hp : f.placed
        · rfl
        · exact absurd hp h
      simp only [hf, Bool.not_false, if_true]
      constructor
      · rw [(ih _).1]
      · rw [(ih _).2, build_fig_xml_evs]
        conv_rhs => rw [sweepFigEvs, List.filter_cons]
        simp [hf, sweepFigEvs]

theorem foldl_evs_inv {α : Type} (f : BSt → α → BSt)
    (hf : ∀ st a, (f st a).evs = st.evs) :
    ∀ (l : List α) (st : BSt), (l.foldl f st).evs = st.evs := by
  intro l
  induction l with
  | nil => intro st; rfl
  | cons a l ih => intro st; rw [List.foldl_cons, ih, hf]

theorem contribLoop_evs (md : Str → Str) (pfx : Str) :
    ∀ (as_ : List Auth) (st : BSt), (contribLoop md pfx as_ st).evs = st.evs := by
  intro as_
  induction as_ with
  | nil => intro st; rfl
  | cons a as_ ih =>
    intro st
    rw [contribLoop, ih]
    have hx : ∀ (st : BSt) (an : Str), ((fun (st : BSt) (an : Str) =>
        let rx := bnid md pfx (S "x") st
        emitIdL (S "          <xref id=\"" ++ rx.1 ++ S "\" rid=\"aff" ++ an ++
          S "\" ref-type=\"aff\"><sup>" ++ xe an ++ S "</sup></xref>") [rx.1] rx.2) st an).evs
        = st.evs := fun st an => rfl
    split_ifs <;> simp only [emitL_evs, emitIdL_evs, bnid_evs, foldl_evs_inv _ hx]

theorem affLoop_evs : ∀ (affs : List (Str × Str)) (st : BSt),
    (affLoop affs st).evs = st.evs := by
  intro affs
  induction affs with
  | nil => intro st; rfl
  | cons kv affs ih =>
    intro st
    obtain ⟨num, txt⟩ := kv
    rw [affLoop, ih]
    simp only [apply_ite BSt.evs, emitL_evs, emitIdL_evs, bnid_evs, ite_self]

theorem absItems_evs (md : Str → Str) (pfx : Str) :
    ∀ (items : List (Str × Str)) (st : BSt), (absItems md pfx items st).evs = st.evs := by
  intro items
  induction items with
  | nil => intro st; rfl
  | cons kv items ih =>
    intro st
    obtain ⟨label, text⟩ := kv
    rw [absItems]
    split <;> (rw [ih]; rfl)

theorem backRefs_evs (pfx : Str) : ∀ (rs : List RefRec) (st : BSt),
    (backRefs pfx rs st).evs = st.evs := by
  intro rs
  induction rs with
  | nil => intro st; rfl
  | cons r rs ih =>
    intro st
    rw [backRefs, ih]

theorem frontMatter_evs (md : Str → Str) (parsed : Parsed) (jm : JM) :
    (frontMatter md parsed jm).evs = [] := by
  rw [frontMatter]
  dsimp only
  simp only [apply_ite BSt.evs, emitL_evs, emitIdL_evs, bnid_evs, contribLoop_evs,
    affLoop_evs, absItems_evs, ite_self]

/-- The full event trace of one `build_xml` call: the front matter emits no
events; the body contributes `bodyTrace`; the end sweeps contribute one event
per unplaced table and figure; and the resulting model carries every table
marked placed but the figures exactly as the body left them. -/
theorem build_xml_spec (md : Str → Str) (parsed : Parsed) (jm : JM) :
    (build_xml md parsed jm).1.evs
      = (bodyTrace (docParas parsed.sections) parsed.tables parsed.figures).1 ++
        sweepTblEvs (bodyTrace (docParas parsed.sections) parsed.tables parsed.figures).2.1 ++
        sweepFigEvs (bodyTrace (docParas parsed.sections) parsed.tables parsed.figures).2.2 ∧
    (build_xml md parsed jm).2.tables
      = (bodyTrace (docParas parsed.sections) parsed.tables parsed.figures).2.1.map
          (fun t => { t with placed := true }) ∧
    (build_xml md parsed jm).2.figures
      = (bodyTrace (docParas parsed.sections) parsed.tables parsed.figures).2.2 ∧
    (build_xml md parsed jm).2.sections = parsed.sections := by
  rw [build_xml]
  dsimp only
  have hsecs := bodySecs_spec md (makePfx md parsed.title)
    (parsed.references.map (fun r => natRepr r.num))
    (parsed.tables.map (fun t => (natRepr t.num, S "tw-" ++ natRepr t.num)))
    (parsed.figures.map (fun f => (natRepr f.num, S "fig-" ++ natRepr f.num)))
    parsed.sections parsed.tables parsed.figures
  have hswT := sweepTbls_spec md (makePfx md parsed.title)
  have hswF := sweepFigs_spec md (makePfx md parsed.title)
  refine ⟨?_, ?_, ?_, rfl⟩
  · simp only [apply_ite BSt.evs, emitL_evs, emitIdL_evs, bnid_evs, backRefs_evs, ite_self]
    rw [(hswF _ _).2, (hswT _ _).2, (hsecs _).1, (hsecs _).2.1, (hsecs _).2.2,
      frontMatter_evs]
    simp
  · rw [(hswT _ _).1, (hsecs _).1]
  · rw [(hswF _ _).1, (hsecs _).2.1]

theorem tblMark_of_placed (ptxt : Str) (ts : List Tbl)
    (h : ∀ t ∈ ts, t.placed = true) : tblMark ptxt ts = ts := by
  rw [tblMark]
  induction ts with
  | nil => rfl
  | cons t ts ih =>
    rw [List.map_cons]
    rw [if_neg (by simp [h t (by simp)])]
    rw [ih (fun x hx => h x (by simp [hx]))]

theorem tblEvsP_of_placed (ptxt : Str) (ts : List Tbl)
    (h : ∀ t ∈ ts, t.placed = true) : tblEvsP ptxt ts = [] := by
  rw [tblEvsP]
  rw [List.filter_eq_nil_iff.mpr]
  · rfl
  · intro t ht
    simp [h t ht]

theorem sweepTblEvs_of_placed (ts : List Tbl)
    (h : ∀ t ∈ ts, t.placed = true) : sweepTblEvs ts = [] := by
  rw [sweepTblEvs]
  rw [List.filter_eq_nil_iff.mpr]
  · rfl
  · intro t ht
    simp [h t ht]

theorem table_ev_not_mem_figEvsP (n : Nat) (ptxt : Str) (figs : List Fig) :
    Ev.table n ∉ figEvsP ptxt figs := by
  rw [figEvsP]
  intro h
  rcases List.mem_map.mp h with ⟨f, _, hf⟩
  exact Ev.noConfusion hf

theorem table_ev_not_mem_sweepFigEvs (n : Nat) (figs : List Fig) :
    Ev.table n ∉ sweepFigEvs figs := by
  rw [sweepFigEvs]
  intro h
  rcases List.mem_map.mp h with ⟨f, _, hf⟩
  exact Ev.noConfusion hf

theorem bodyTrace_no_table (n : Nat) :
    ∀ (ps : List DPara) (tbls : List Tbl) (figs : List Fig),
      (∀ t ∈ tbls, t.placed = true) →
      Ev.table n ∉ (bodyTrace ps tbls figs).1 ∧ (bodyTrace ps tbls figs).2.1 = tbls := by
  intro ps
  induction ps with
  | nil => intro tbls figs h; exact ⟨by simp [bodyTrace], rfl⟩
  | cons p ps ih =>
    intro tbls figs h
    rw [bodyTrace]
    have hmark : tblMark p.text tbls = tbls := tblMark_of_placed _ _ h
    have hi := ih (tblMark p.text tbls) (figMark p.text figs) (by rw [hmark]; exact h)
    constructor
    · intro hmem
      rcases List.mem_append.mp hmem with hmem | hmem
      · rw [paraTrace] at hmem
        rcases List.mem_cons.mp hmem with hmem | hmem
        · exact Ev.noConfusion hmem
        · rcases List.mem_append.mp hmem with hmem | hmem
          · rw [tblEvsP_of_placed _ _ h] at hmem
            simp at hmem
          · exact table_ev_not_mem_figEvsP n _ _ hmem
      · exact hi.1 hmem
    · rw [hi.2, hmark]

theorem bodyTrace_fig_ev :
    ∀ (ps : List DPara) (tbls : List Tbl) (figs : List Fig) (f : Fig),
      f ∈ figs → f.placed = false →
      Ev.fig f.num ∈ (bodyTrace ps tbls figs).1 ∨
      (∃ f' ∈ (bodyTrace ps tbls figs).2.2, f'.num = f.num ∧ f'.placed = false) := by
  intro ps
  induction ps with
  | nil =>
    intro tbls figs f hf hp
    exact Or.inr ⟨f, by simpa [bodyTrace] using hf, rfl, hp⟩
  | cons p ps ih =>
    intro tbls figs f hf hp
    rw [bodyTrace]
    by_cases hm : (!f.placed && figMention p.text f.num) = true
    · left
      apply List.mem_append.mpr
      left
      rw [paraTrace]
      apply List.mem_cons.mpr
      right
      apply List.mem_append.mpr
      right
      rw [figEvsP]
      exact List.mem_map.mpr ⟨f, List.mem_filter.mpr ⟨hf, hm⟩, rfl⟩
    · have hf' : { f with placed := f.placed } ∈ figMark p.text figs := by
        rw [figMark]
        refine List.mem_map.mpr ⟨f, hf, ?_⟩
        rw [if_neg (by simp [hm])]
      have hf2 : f ∈ figMark p.text figs := by
        simpa using hf'
      rcases ih (tblMark p.text tbls) (figMark p.text figs) f hf2 hp with h | ⟨f', hf'2, he, hpl⟩
      · left
        exact List.mem_append.mpr (Or.inr h)
      · right
        exact ⟨f', hf'2, he, hpl⟩

/-- C10 (corrected): `build_xml` does mutate the model it serializes, and a
second call on the returned model emits no table-wrap at all — every table's
placed flag is set, either inline or by the end sweep of lines 725–727.  But
the claim is wrong about figures: the figure end sweep (lines 729–731) never
sets the placed flag, so every figure the body did not place inline is
emitted AGAIN by the second call's end sweep — the second output is free of
tables but not of figures. -/
theorem claim_C10 (md : Str → Str) (parsed : Parsed) (jm : JM) :
    (∀ t ∈ (build_xml md parsed jm).2.tables, t.placed = true) ∧
    (∀ n, Ev.table n ∉ (build_xml md (build_xml md parsed jm).2 jm).1.evs) ∧
    (∀ f ∈ (build_xml md parsed jm).2.figures, f.placed = false →
      Ev.fig f.num ∈ (build_xml md (build_xml md parsed jm).2 jm).1.evs) := by
  have h1 := build_xml_spec md parsed jm
  have h2 := build_xml_spec md (build_xml md parsed jm).2 jm
  have hplaced : ∀ t ∈ (build_xml md parsed jm).2.tables, t.placed = true := by
    rw [h1.2.1]
    intro t ht
    rcases List.mem_map.mp ht with ⟨t0, _, ht0⟩
    rw [← ht0]
  refine ⟨hplaced, ?_, ?_⟩
  · intro n hmem
    rw [h2.1] at hmem
    have hnt := bodyTrace_no_table n (docParas (build_xml md parsed jm).2.sections)
      (build_xml md parsed jm).2.tables (build_xml md parsed jm).2.figures hplaced
    rcases List.mem_append.mp hmem with hmem | hmem
    · rcases List.mem_append.mp hmem with hmem | hmem
      · exact hnt.1 hmem
      · rw [hnt.2, sweepTblEvs_of_placed _ hplaced] at hmem
        simp at hmem
    · exact table_ev_not_mem_sweepFigEvs n _ hmem
  · intro f hf hp
    rw [h2.1]
    rcases bodyTrace_fig_ev (docParas (build_xml md parsed jm).2.sections)
        (build_xml md parsed jm).2.tables (build_xml md parsed jm).2.figures f hf hp with
      h | ⟨f', hf', he, hpl⟩
    · exact List.mem_append.mpr (Or.inl (List.mem_append.mpr (Or.inl h)))
    · apply List.mem_append.mpr
      right
      rw [sweepFigEvs]
      apply List.mem_map.mpr
      refine ⟨f', List.mem_filter.mpr ⟨hf', by simp [hpl]⟩, by rw [he]⟩

/-- A parsed model with one never-mentioned figure (no body text at all). -/
def mCexC10 : Parsed :=
  { figures := [{ num := 1 }] }

/-- A parsed model with one table and one figure, nothing mentioned inline. -/
def mWitC10 : Parsed :=
  { tables := [{ num := 1 }]
    figures := [{ num := 2 }] }

/-- C10 counterexample: after a first call on a model with one unmentioned
figure, the second call still emits that figure (its placed flag was never
set by the figure end sweep), refuting "no fig elements" in the claim. -/
theorem claim_C10_counterexample :
    Ev.fig 1 ∈ (build_xml mdTest (build_xml mdTest mCexC10 {}).2 {}).1.evs := by
  decide

/-- C10 witness: on a model with one table and one figure, every table of the
returned model is placed, no table event occurs in the second call, and the
unplaced figure is emitted again by the second call. -/
theorem claim_C10_witness :
    (∀ t ∈ (build_xml mdTest mWitC10 {}).2.tables, t.placed = true) ∧
    Ev.table 1 ∉ (build_xml mdTest (build_xml mdTest mWitC10 {}).2 {}).1.evs ∧
    Ev.fig 2 ∈ (build_xml mdTest (build_xml mdTest mWitC10 {}).2 {}).1.evs := by
  refine ⟨(claim_C10 mdTest mWitC10 {}).1, (claim_C10 mdTest mWitC10 {}).2.1 1, ?_⟩
  exact (claim_C10 mdTest mWitC10 {}).2.2 { num := 2 } (by decide) (by decide)

-- ── Counting lemmas for table/figure placement (claim C4) ───────────────────

theorem takeWhile_append_all {α : Type} (p : α → Bool) :
    ∀ (A B : List α), (∀ a ∈ A, p a = true) → (A ++ B).takeWhile p = A ++ B.takeWhile p := by
  intro A
  induction A with
  | nil => intro B _; simp
  | cons a A ih =>
    intro B h
    rw [List.cons_append, List.takeWhile_cons, if_pos (h a (by simp))]
    rw [ih B (fun x hx => h x (by simp [hx])), List.cons_append]

theorem takeWhile_append_stop {α : Type} (p : α → Bool) :
    ∀ (A B : List α), (∃ a ∈ A, p a = false) → (A ++ B).takeWhile p = A.takeWhile p := by
  intro A
  induction A with
  | nil => intro B h; simp at h
  | cons a A ih =>
    intro B h
    by_cases hp : p a = true
    · rw [List.cons_append, List.takeWhile_cons, if_pos hp, List.takeWhile_cons, if_pos hp]
      rcases h with ⟨x, hx, hpx⟩
      rcases List.mem_cons.mp hx with he | hm
      · rw [he] at hpx; rw [hpx] at hp; exact absurd hp (by simp)
      · rw [ih B ⟨x, hm, hpx⟩]
    · have hp' : p a = false := by
        cases hpa : p a
        · rfl
        · exact absurd hpa hp
      rw [List.cons_append, List.takeWhile_cons, if_neg (by simp [hp']),
        List.takeWhile_cons, if_neg (by simp [hp'])]

theorem count_para_tblEvsP (ptxt : Str) (ts : List Tbl) :
    (tblEvsP ptxt ts).count Ev.para = 0 := by
  rw [List.count_eq_zero]
  intro h
  rcases List.mem_map.mp h with ⟨t, _, ht⟩
  exact Ev.noConfusion ht

theorem count_para_figEvsP (ptxt : Str) (fs : List Fig) :
    (figEvsP ptxt fs).count Ev.para = 0 := by
  rw [List.count_eq_zero]
  intro h
  rcases List.mem_map.mp h with ⟨f, _, hf⟩
  exact Ev.noConfusion hf

theorem count_para_sweepTblEvs (ts : List Tbl) :
    (sweepTblEvs ts).count Ev.para = 0 := by
  rw [List.count_eq_zero]
  intro h
  rcases List.mem_map.mp h with ⟨t, _, ht⟩
  exact Ev.noConfusion ht

theorem count_para_le_of_sublist {l₁ l₂ : List Ev} (h : l₁.Sublist l₂) :
    l₁.count Ev.para ≤ l₂.count Ev.para := List.Sublist.count_le h Ev.para

/-- One `.para` per paragraph: the body trace has exactly `ps.length` of
them. -/
theorem bodyTrace_para_count :
    ∀ (ps : List DPara) (tbls : List Tbl) (figs : List Fig),
      (bodyTrace ps tbls figs).1.count Ev.para = ps.length := by
  intro ps
  induction ps with
  | nil => intro tbls figs; simp [bodyTrace]
  | cons p ps ih =>
    intro tbls figs
    rw [bodyTrace]
    dsimp only
    rw [List.count_append, paraTrace, List.count_cons]
    rw [List.count_append, count_para_tblEvsP, count_para_figEvsP, ih]
    simp [List.length_cons]
    omega

theorem tblMark_map_num (ptxt : Str) (ts : List Tbl) :
    (tblMark ptxt ts).map Tbl.num = ts.map Tbl.num := by
  rw [tblMark, List.map_map]
  apply List.map_congr_left
  intro t _
  simp only [Function.comp]
  split <;> rfl

theorem figMark_map_num (ptxt : Str) (fs : List Fig) :
    (figMark ptxt fs).map Fig.num = fs.map Fig.num := by
  rw [figMark, List.map_map]
  apply List.map_congr_left
  intro f _
  simp only [Function.comp]
  split <;> rfl

theorem bodyTrace_map_num :
    ∀ (ps : List DPara) (tbls : List Tbl) (figs : List Fig),
      (bodyTrace ps tbls figs).2.1.map Tbl.num = tbls.map Tbl.num ∧
      (bodyTrace ps tbls figs).2.2.map Fig.num = figs.map Fig.num := by
  intro ps
  induction ps with
  | nil => intro tbls figs; exact ⟨rfl, rfl⟩
  | cons p ps ih =>
    intro tbls figs
    rw [bodyTrace]
    dsimp only
    have hi := ih (tblMark p.text tbls) (figMark p.text figs)
    exact ⟨hi.1.trans (tblMark_map_num _ _), hi.2.trans (figMark_map_num _ _)⟩

/-- Counting a number among the mapped nums of a filtered list: if the
predicate holds on every entry with that number, filtering does not lose
any. -/
theorem count_num_filter (n : Nat) (q : Tbl → Bool) :
    ∀ ts : List Tbl, (∀ t ∈ ts, t.num = n → q t = true) →
      ((ts.filter q).map Tbl.num).count n = (ts.map Tbl.num).count n := by
  intro ts
  induction ts with
  | nil => intro _; rfl
  | cons t ts ih =>
    intro h
    rw [List.filter_cons]
    by_cases hq : q t = true
    · simp only [hq, if_true, List.map_cons, List.count_cons]
      rw [ih (fun x hx => h x (by simp [hx]))]
    · have hnum : t.num ≠ n := by
        intro he; exact hq (h t (by simp) he)
      have hq' : q t = false := by
        cases hqt : q t
        · rfl
        · exact absurd hqt hq
      simp only [hq', Bool.false_eq_true, if_false, List.map_cons, List.count_cons]
      rw [ih (fun x hx => h x (by simp [hx]))]
      simp [hnum]

theorem count_num_filter_zero (n : Nat) (q : Tbl → Bool) :
    ∀ ts : List Tbl, (∀ t ∈ ts, t.num = n → q t = false) →
      ((ts.filter q).map Tbl.num).count n = 0 := by
  intro ts
  induction ts with
  | nil => intro _; rfl
  | cons t ts ih =>
    intro h
    rw [List.filter_cons]
    by_cases hq : q t = true
    · have hnum : t.num ≠ n := by
        intro he
        rw [h t (by simp) he] at hq
        exact absurd hq (by simp)
      simp only [hq, if_true, List.map_cons, List.count_cons]
      rw [ih (fun x hx => h x (by simp [hx]))]
      simp [hnum]
    · have hq' : q t = false := by
        cases hqt : q t
        · rfl
        · exact absurd hqt hq
      simp only [hq', Bool.false_eq_true, if_false]
      exact ih (fun x hx => h x (by simp [hx]))

theorem count_table_evs (n : Nat) (l : List Tbl) :
    ((l.map (fun t => Ev.table t.num)).count (Ev.table n)) = (l.map Tbl.num).count n := by
  induction l with
  | nil => rfl
  | cons t l ih =>
    simp only [List.map_cons, List.count_cons, ih]
    by_cases h : t.num = n
    · simp [h]
    · simp [h, fun hc => h (Ev.table.inj hc)]

/-- The index of the first paragraph satisfying `q` (the spec-side "first
mentioning paragraph"). -/
def firstIdx {α : Type} (q : α → Bool) : List α → Option Nat
  | [] => none
  | a :: l => if q a then some 0 else (firstIdx q l).map (fun i => i + 1)

theorem count_table_figEvsP (n : Nat) (ptxt : Str) (fs : List Fig) :
    (figEvsP ptxt fs).count (Ev.table n) = 0 := by
  rw [List.count_eq_zero]
  intro h
  rcases List.mem_map.mp h with ⟨f, _, hf⟩
  exact Ev.noConfusion hf

theorem tblMark_placed_prop (ptxt : Str) (n : Nat) (ts : List Tbl)
    (h : ∀ t ∈ ts, t.num = n → t.placed = true) :
    ∀ t ∈ tblMark ptxt ts, t.num = n → t.placed = true := by
  intro t ht hn
  rcases List.mem_map.mp ht with ⟨t0, ht0, he⟩
  by_cases hc : (!t0.placed && tblMention ptxt t0.num) = true
  · rw [if_pos hc] at he
    rw [← he]
  · rw [if_neg hc] at he
    rw [← he] at hn ⊢
    exact h t0 ht0 hn

theorem tblMark_placed_of_mention (ptxt : Str) (n : Nat) (ts : List Tbl)
    (hm : tblMention ptxt n = true) :
    ∀ t ∈ tblMark ptxt ts, t.num = n → t.placed = true := by
  intro t ht hn
  rcases List.mem_map.mp ht with ⟨t0, ht0, he⟩
  by_cases hc : (!t0.placed && tblMention ptxt t0.num) = true
  · rw [if_pos hc] at he
    rw [← he]
  · rw [if_neg hc] at he
    rw [← he] at hn ⊢
    have : t0.placed = true := by
      by_contra hup
      have hup' : t0.placed = false := by
        cases hp : t0.placed
        · rfl
        · exact absurd hp hup
      apply hc
      rw [hup', hn, hm]
      rfl
    exact this

theorem tblMark_unplaced_of_no_mention (ptxt : Str) (n : Nat) (ts : List Tbl)
    (hm : tblMention ptxt n = false)
    (h : ∀ t ∈ ts, t.num = n → t.placed = false) :
    ∀ t ∈ tblMark ptxt ts, t.num = n → t.placed = false := by
  intro t ht hn
  rcases List.mem_map.mp ht with ⟨t0, ht0, he⟩
  by_cases hc : (!t0.placed && tblMention ptxt t0.num) = true
  · exfalso
    rw [if_pos hc] at he
    have hn0 : t0.num = n := by rw [← he] at hn; exact hn
    rw [hn0, hm] at hc
    simp at hc
  · rw [if_neg hc] at he
    rw [← he] at hn ⊢
    exact h t0 ht0 hn

theorem count_tbl_evsP_one (ptxt : Str) (n : Nat) (ts : List Tbl)
    (hm : tblMention ptxt n = true)
    (hone : (ts.map Tbl.num).count n = 1)
    (hunp : ∀ t ∈ ts, t.num = n → t.placed = false) :
    (tblEvsP ptxt ts).count (Ev.table n) = 1 := by
  rw [tblEvsP, count_table_evs]
  rw [count_num_filter n _ ts]
  · exact hone
  · intro t ht hn
    rw [hunp t ht hn, hn, hm]
    rfl

theorem count_tbl_evsP_zero_placed (ptxt : Str) (n : Nat) (ts : List Tbl)
    (h : ∀ t ∈ ts, t.num = n → t.placed = true) :
    (tblEvsP ptxt ts).count (Ev.table n) = 0 := by
  rw [tblEvsP, count_table_evs]
  apply count_num_filter_zero
  intro t ht hn
  rw [h t ht hn]
  rfl

theorem count_tbl_evsP_zero_no_mention (ptxt : Str) (n : Nat) (ts : List Tbl)
    (hm : tblMention ptxt n = false) :
    (tblEvsP ptxt ts).count (Ev.table n) = 0 := by
  rw [tblEvsP, count_table_evs]
  apply count_num_filter_zero
  intro t _ hn
  rw [hn, hm]
  simp

theorem bodyTrace_tbl_placed (n : Nat) :
    ∀ (ps : List DPara) (tbls : List Tbl) (figs : List Fig),
      (∀ t ∈ tbls, t.num = n → t.placed = true) →
      (bodyTrace ps tbls figs).1.count (Ev.table n) = 0 ∧
      (∀ t ∈ (bodyTrace ps tbls figs).2.1, t.num = n → t.placed = true) := by
  intro ps
  induction ps with
  | nil => intro tbls figs h; exact ⟨by simp [bodyTrace], h⟩
  | cons p ps ih =>
    intro tbls figs h
    rw [bodyTrace]
    dsimp only
    have hi := ih (tblMark p.text tbls) (figMark p.text figs)
      (tblMark_placed_prop p.text n tbls h)
    constructor
    · rw [List.count_append, paraTrace, List.count_cons, List.count_append]
      rw [count_tbl_evsP_zero_placed p.text n tbls h, count_table_figEvsP, hi.1]
      simp
    · exact hi.2

theorem count_para_takeWhile_tblEvsP (pred : Ev → Bool) (ptxt : Str) (ts : List Tbl) :
    (((tblEvsP ptxt ts).takeWhile pred).count Ev.para) = 0 := by
  have hle : (((tblEvsP ptxt ts).takeWhile pred).count Ev.para)
      ≤ ((tblEvsP ptxt ts).count Ev.para) :=
    count_para_le_of_sublist (List.takeWhile_sublist pred)
  rw [count_para_tblEvsP ptxt ts] at hle
  omega

theorem bodyTrace_tbl_none (n : Nat) :
    ∀ (ps : List DPara) (tbls : List Tbl) (figs : List Fig),
      firstIdx (fun p => tblMention p.text n) ps = none →
      (∀ t ∈ tbls, t.num = n → t.placed = false) →
      (bodyTrace ps tbls figs).1.count (Ev.table n) = 0 ∧
      (∀ t ∈ (bodyTrace ps tbls figs).2.1, t.num = n → t.placed = false) := by
  intro ps
  induction ps with
  | nil => intro tbls figs _ h; exact ⟨by simp [bodyTrace], h⟩
  | cons p ps ih =>
    intro tbls figs hfi h
    rw [firstIdx] at hfi
    by_cases hq : tblMention p.text n = true
    · rw [if_pos hq] at hfi; exact absurd hfi (by simp)
    · have hq' : tblMention p.text n = false := by
        cases hc : tblMention p.text n
        · rfl
        · exact absurd hc hq
      rw [if_neg hq] at hfi
      have hfi' : firstIdx (fun p => tblMention p.text n) ps = none := by
        cases hc : firstIdx (fun p => tblMention p.text n) ps
        · rfl
        · rw [hc] at hfi; simp at hfi
      rw [bodyTrace]
      dsimp only
      have hi := ih (tblMark p.text tbls) (figMark p.text figs) hfi'
        (tblMark_unplaced_of_no_mention p.text n tbls hq' h)
      constructor
      · rw [List.count_append, paraTrace, List.count_cons, List.count_append]
        rw [count_tbl_evsP_zero_no_mention p.text n tbls hq', count_table_figEvsP, hi.1]
        simp
      · exact hi.2

theorem bodyTrace_tbl_found (n : Nat) :
    ∀ (ps : List DPara) (k : Nat) (tbls : List Tbl) (figs : List Fig),
      firstIdx (fun p => tblMention p.text n) ps = some k →
      (tbls.map Tbl.num).count n = 1 →
      (∀ t ∈ tbls, t.num = n → t.placed = false) →
      (bodyTrace ps tbls figs).1.count (Ev.table n) = 1 ∧
      ((bodyTrace ps tbls figs).1.takeWhile (fun e => e ≠ Ev.table n)).count Ev.para
        = k + 1 ∧
      (∀ t ∈ (bodyTrace ps tbls figs).2.1, t.num = n → t.placed = true) := by
  intro ps
  induction ps with
  | nil => intro k tbls figs hfi _ _; exact absurd hfi (by simp [firstIdx])
  | cons p ps ih =>
    intro k tbls figs hfi hone hunp
    rw [firstIdx] at hfi
    by_cases hq : tblMention p.text n = true
    · rw [if_pos hq] at hfi
      have hk : k = 0 := by
        have := Option.some_injective _ hfi
        omega
      subst hk
      rw [bodyTrace]
      dsimp only
      have hplaced := tblMark_placed_of_mention p.text n tbls hq
      have hrest := bodyTrace_tbl_placed n ps (tblMark p.text tbls) (figMark p.text figs)
        hplaced
      have hcnt1 := count_tbl_evsP_one p.text n tbls hq hone hunp
      have hmem : Ev.table n ∈ tblEvsP p.text tbls := by
        rw [← List.count_pos_iff, hcnt1]
        omega
      refine ⟨?_, ?_, hrest.2⟩
      · rw [List.count_append, paraTrace, List.count_cons, List.count_append]
        rw [hcnt1, count_table_figEvsP, hrest.1]
        simp
      · rw [paraTrace, List.cons_append, List.takeWhile_cons, if_pos (by simp)]
        rw [List.append_assoc, takeWhile_append_stop _ (tblEvsP p.text tbls) _
          ⟨Ev.table n, hmem, by simp⟩]
        rw [List.count_cons, count_para_takeWhile_tblEvsP]
        simp
    · have hq' : tblMention p.text n = false := by
        cases hc : tblMention p.text n
        · rfl
        · exact absurd hc hq
      rw [if_neg hq] at hfi
      rcases Option.map_eq_some'.mp hfi with ⟨k', hk', hke⟩
      rw [bodyTrace]
      dsimp only
      have hone' : ((tblMark p.text tbls).map Tbl.num).count n = 1 := by
        rw [tblMark_map_num]; exact hone
      have hunp' := tblMark_unplaced_of_no_mention p.text n tbls hq' hunp
      have hi := ih k' (tblMark p.text tbls) (figMark p.text figs) hk' hone' hunp'
      have hcnt0 := count_tbl_evsP_zero_no_mention p.text n tbls hq'
      have hnomem : Ev.table n ∉ tblEvsP p.text tbls := by
        intro hmem
        have := List.count_pos_iff.mpr hmem
        omega
      refine ⟨?_, ?_, hi.2.2⟩
      · rw [List.count_append, paraTrace, List.count_cons, List.count_append]
        rw [hcnt0, count_table_figEvsP, hi.1]
        simp
      · rw [paraTrace, List.cons_append, List.takeWhile_cons, if_pos (by simp)]
        rw [List.append_assoc]
        rw [takeWhile_append_all _ (tblEvsP p.text tbls) _ ?hall]
        case hall =>
          intro a ha
          have : a ≠ Ev.table n := fun he => hnomem (he ▸ ha)
          simp [this]
        rw [takeWhile_append_all _ (figEvsP p.text figs) _ ?hall2]
        case hall2 =>
          intro a ha
          have hnm : Ev.table n ∉ figEvsP p.text figs :=
            List.count_eq_zero.mp (count_table_figEvsP n p.text figs)
          have : a ≠ Ev.table n := fun he => hnm (he ▸ ha)
          simp [this]
        rw [List.count_cons, List.count_append, List.count_append]
        rw [count_para_tblEvsP, count_para_figEvsP, hi.2.1]
        simp
        omega

theorem fig_count_num_filter (n : Nat) (q : Fig → Bool) :
    ∀ fs : List Fig, (∀ f ∈ fs, f.num = n → q f = true) →
      ((fs.filter q).map Fig.num).count n = (fs.map Fig.num).count n := by
  intro fs
  induction fs with
  | nil => intro _; rfl
  | cons f fs ih =>
    intro h
    rw [List.filter_cons]
    by_cases hq : q f = true
    · simp only [hq, if_true, List.map_cons, List.count_cons]
      rw [ih (fun x hx => h x (by simp [hx]))]
    · have hnum : f.num ≠ n := by
        intro he; exact hq (h f (by simp) he)
      have hq' : q f = false := by
        cases hqt : q f
        · rfl
        · exact absurd hqt hq
      simp only [hq', Bool.false_eq_true, if_false, List.map_cons, List.count_cons]
      rw [ih (fun x hx => h x (by simp [hx]))]
      simp [hnum]

theorem fig_count_num_filter_zero (n : Nat) (q : Fig → Bool) :
    ∀ fs : List Fig, (∀ f ∈ fs, f.num = n → q f = false) →
      ((fs.filter q).map Fig.num).count n = 0 := by
  intro fs
  induction fs with
  | nil => intro _; rfl
  | cons f fs ih =>
    intro h
    rw [List.filter_cons]
    by_cases hq : q f = true
    · have hnum : f.num ≠ n := by
        intro he
        rw [h f (by simp) he] at hq
        exact absurd hq (by simp)
      simp only [hq, if_true, List.map_cons, List.count_cons]
      rw [ih (fun x hx => h x (by simp [hx]))]
      simp [hnum]
    · have hq' : q f = false := by
        cases hqt : q f
        · rfl
        · exact absurd hqt hq
      simp only [hq', Bool.false_eq_true, if_false]
      exact ih (fun x hx => h x (by simp [hx]))

theorem count_fig_evs (n : Nat) (l : List Fig) :
    ((l.map (fun f => Ev.fig f.num)).count (Ev.fig n)) = (l.map Fig.num).count n := by
  induction l with
  | nil => rfl
  | cons f l ih =>
    simp only [List.map_cons, List.count_cons, ih]
    by_cases h : f.num = n
    · simp [h]
    · simp [h, fun hc => h (Ev.fig.inj hc)]

theorem count_fig_tblEvsP (n : Nat) (ptxt : Str) (ts : List Tbl) :
    (tblEvsP ptxt ts).count (Ev.fig n) = 0 := by
  rw [List.count_eq_zero]
  intro h
  rcases List.mem_map.mp h with ⟨t, _, ht⟩
  exact Ev.noConfusion ht

theorem count_fig_sweepTblEvs (n : Nat) (ts : List Tbl) :
    (sweepTblEvs ts).count (Ev.fig n) = 0 := by
  rw [List.count_eq_zero]
  intro h
  rcases List.mem_map.mp h with ⟨t, _, ht⟩
  exact Ev.noConfusion ht

theorem count_table_sweepFigEvs (n : Nat) (fs : List Fig) :
    (sweepFigEvs fs).count (Ev.table n) = 0 :=
  List.count_eq_zero.mpr (table_ev_not_mem_sweepFigEvs n fs)

theorem figMark_placed_prop (ptxt : Str) (n : Nat) (fs : List Fig)
    (h : ∀ f ∈ fs, f.num = n → f.placed = true) :
    ∀ f ∈ figMark ptxt fs, f.num = n → f.placed = true := by
  intro f hf hn
  rcases List.mem_map.mp hf with ⟨f0, hf0, he⟩
  by_cases hc : (!f0.placed && figMention ptxt f0.num) = true
  · rw [if_pos hc] at he
    rw [← he]
  · rw [if_neg hc] at he
    rw [← he] at hn ⊢
    exact h f0 hf0 hn

theorem figMark_placed_of_mention (ptxt : Str) (n : Nat) (fs : List Fig)
    (hm : figMention ptxt n = true) :
    ∀ f ∈ figMark ptxt fs, f.num = n → f.placed = true := by
  intro f hf hn
  rcases List.mem_map.mp hf with ⟨f0, hf0, he⟩
  by_cases hc : (!f0.placed && figMention ptxt f0.num) = true
  · rw [if_pos hc] at he
    rw [← he]
  · rw [if_neg hc] at he
    rw [← he] at hn ⊢
    by_contra hup
    have hup' : f0.placed = false := by
      cases hp : f0.placed
      · rfl
      · exact absurd hp hup
    apply hc
    rw [hup', hn, hm]
    rfl

theorem figMark_unplaced_of_no_mention (ptxt : Str) (n : Nat) (fs : List Fig)
    (hm : figMention ptxt n = false)
    (h : ∀ f ∈ fs, f.num = n → f.placed = false) :
    ∀ f ∈ figMark ptxt fs, f.num = n → f.placed = false := by
  intro f hf hn
  rcases List.mem_map.mp hf with ⟨f0, hf0, he⟩
  by_cases hc : (!f0.placed && figMention ptxt f0.num) = true
  · exfalso
    rw [if_pos hc] at he
    have hn0 : f0.num = n := by rw [← he] at hn; exact hn
    rw [hn0, hm] at hc
    simp at hc
  · rw [if_neg hc] at he
    rw [← he] at hn ⊢
    exact h f0 hf0 hn

theorem count_fig_evsP_one (ptxt : Str) (n : Nat) (fs : List Fig)
    (hm : figMention ptxt n = true)
    (hone : (fs.map Fig.num).count n = 1)
    (hunp : ∀ f ∈ fs, f.num = n → f.placed = false) :
    (figEvsP ptxt fs).count (Ev.fig n) = 1 := by
  rw [figEvsP, count_fig_evs]
  rw [fig_count_num_filter n _ fs]
  · exact hone
  · intro f hf hn
    rw [hunp f hf hn, hn, hm]
    rfl

theorem count_fig_evsP_zero_placed (ptxt : Str) (n : Nat) (fs : List Fig)
    (h : ∀ f ∈ fs, f.num = n → f.placed = true) :
    (figEvsP ptxt fs).count (Ev.fig n) = 0 := by
  rw [figEvsP, count_fig_evs]
  apply fig_count_num_filter_zero
  intro f hf hn
  rw [h f hf hn]
  rfl

theorem count_fig_evsP_zero_no_mention (ptxt : Str) (n : Nat) (fs : List Fig)
    (hm : figMention ptxt n = false) :
    (figEvsP ptxt fs).count (Ev.fig n) = 0 := by
  rw [figEvsP, count_fig_evs]
  apply fig_count_num_filter_zero
  intro f _ hn
  rw [hn, hm]
  simp

theorem bodyTrace_fig_placed_cnt (n : Nat) :
    ∀ (ps : List DPara) (tbls : List Tbl) (figs : List Fig),
      (∀ f ∈ figs, f.num = n → f.placed = true) →
      (bodyTrace ps tbls figs).1.count (Ev.fig n) = 0 ∧
      (∀ f ∈ (bodyTrace ps tbls figs).2.2, f.num = n → f.placed = true) := by
  intro ps
  induction ps with
  | nil => intro tbls figs h; exact ⟨by simp [bodyTrace], h⟩
  | cons p ps ih =>
    intro tbls figs h
    rw [bodyTrace]
    dsimp only
    have hi := ih (tblMark p.text tbls) (figMark p.text figs)
      (figMark_placed_prop p.text n figs h)
    constructor
    · rw [List.count_append, paraTrace, List.count_cons, List.count_append]
      rw [count_fig_evsP_zero_placed p.text n figs h, count_fig_tblEvsP, hi.1]
      simp
    · exact hi.2

theorem bodyTrace_fig_none_cnt (n : Nat) :
    ∀ (ps : List DPara) (tbls : List Tbl) (figs : List Fig),
      firstIdx (fun p => figMention p.text n) ps = none →
      (∀ f ∈ figs, f.num = n → f.placed = false) →
      (bodyTrace ps tbls figs).1.count (Ev.fig n) = 0 ∧
      (∀ f ∈ (bodyTrace ps tbls figs).2.2, f.num = n → f.placed = false) := by
  intro ps
  induction ps with
  | nil => intro tbls figs _ h; exact ⟨by simp [bodyTrace], h⟩
  | cons p ps ih =>
    intro tbls figs hfi h
    rw [firstIdx] at hfi
    by_cases hq : figMention p.text n = true
    · rw [if_pos hq] at hfi; exact absurd hfi (by simp)
    · have hq' : figMention p.text n = false := by
        cases hc : figMention p.text n
        · rfl
        · exact absurd hc hq
      rw [if_neg hq] at hfi
      have hfi' : firstIdx (fun p => figMention p.text n) ps = none := by
        cases hc : firstIdx (fun p => figMention p.text n) ps
        · rfl
        · rw [hc] at hfi; simp at hfi
      rw [bodyTrace]
      dsimp only
      have hi := ih (tblMark p.text tbls) (figMark p.text figs) hfi'
        (figMark_unplaced_of_no_mention p.text n figs hq' h)
      constructor
      · rw [List.count_append, paraTrace, List.count_cons, List.count_append]
        rw [count_fig_evsP_zero_no_mention p.text n figs hq', count_fig_tblEvsP, hi.1]
        simp
      · exact hi.2

theorem bodyTrace_fig_found_cnt (n : Nat) :
    ∀ (ps : List DPara) (tbls : List Tbl) (figs : List Fig),
      (∃ k, firstIdx (fun p => figMention p.text n) ps = some k) →
      (figs.map Fig.num).count n = 1 →
      (∀ f ∈ figs, f.num = n → f.placed = false) →
      (bodyTrace ps tbls figs).1.count (Ev.fig n) = 1 ∧
      (∀ f ∈ (bodyTrace ps tbls figs).2.2, f.num = n → f.placed = true) := by
  intro ps
  induction ps with
  | nil =>
    intro tbls figs hfi _ _
    rcases hfi with ⟨k, hk⟩
    exact absurd hk (by simp [firstIdx])
  | cons p ps ih =>
    intro tbls figs hfi hone hunp
    by_cases hq : figMention p.text n = true
    · rw [bodyTrace]
      dsimp only
      have hplaced := figMark_placed_of_mention p.text n figs hq
      have hrest := bodyTrace_fig_placed_cnt n ps (tblMark p.text tbls)
        (figMark p.text figs) hplaced
      refine ⟨?_, hrest.2⟩
      rw [List.count_append, paraTrace, List.count_cons, List.count_append]
      rw [count_fig_evsP_one p.text n figs hq hone hunp, count_fig_tblEvsP, hrest.1]
      simp
    · have hq' : figMention p.text n = false := by
        cases hc : figMention p.text n
        · rfl
        · exact absurd hc hq
      rcases hfi with ⟨k, hk⟩
      rw [firstIdx, if_neg hq] at hk
      rcases Option.map_eq_some'.mp hk with ⟨k', hk', _⟩
      rw [bodyTrace]
      dsimp only
      have hone' : ((figMark p.text figs).map Fig.num).count n = 1 := by
        rw [figMark_map_num]; exact hone
      have hi := ih (tblMark p.text tbls) (figMark p.text figs) ⟨k', hk'⟩ hone'
        (figMark_unplaced_of_no_mention p.text n figs hq' hunp)
      refine ⟨?_, hi.2⟩
      rw [List.count_append, paraTrace, List.count_cons, List.count_append]
      rw [count_fig_evsP_zero_no_mention p.text n figs hq', count_fig_tblEvsP, hi.1]
      simp

theorem count_sweepTbl_placed (n : Nat) (ts : List Tbl)
    (h : ∀ t ∈ ts, t.num = n → t.placed = true) :
    (sweepTblEvs ts).count (Ev.table n) = 0 := by
  rw [sweepTblEvs, count_table_evs]
  apply count_num_filter_zero
  intro t ht hn
  rw [h t ht hn]
  rfl

theorem count_sweepTbl_unplaced (n : Nat) (ts : List Tbl)
    (hone : (ts.map Tbl.num).count n = 1)
    (h : ∀ t ∈ ts, t.num = n → t.placed = false) :
    (sweepTblEvs ts).count (Ev.table n) = 1 := by
  rw [sweepTblEvs, count_table_evs]
  rw [count_num_filter n _ ts]
  · exact hone
  · intro t ht hn
    rw [h t ht hn]
    rfl

theorem count_sweepFig_placed (n : Nat) (fs : List Fig)
    (h : ∀ f ∈ fs, f.num = n → f.placed = true) :
    (sweepFigEvs fs).count (Ev.fig n) = 0 := by
  rw [sweepFigEvs, count_fig_evs]
  apply fig_count_num_filter_zero
  intro f hf hn
  rw [h f hf hn]
  rfl

theorem count_sweepFig_unplaced (n : Nat) (fs : List Fig)
    (hone : (fs.map Fig.num).count n = 1)
    (h : ∀ f ∈ fs, f.num = n → f.placed = false) :
    (sweepFigEvs fs).count (Ev.fig n) = 1 := by
  rw [sweepFigEvs, count_fig_evs]
  rw [fig_count_num_filter n _ fs]
  · exact hone
  · intro f hf hn
    rw [h f hf hn]
    rfl

theorem count_para_takeWhile_sweepTblEvs (pred : Ev → Bool) (ts : List Tbl) :
    (((sweepTblEvs ts).takeWhile pred).count Ev.para) = 0 := by
  have hle : (((sweepTblEvs ts).takeWhile pred).count Ev.para)
      ≤ ((sweepTblEvs ts).count Ev.para) :=
    count_para_le_of_sublist (List.takeWhile_sublist pred)
  rw [count_para_sweepTblEvs ts] at hle
  omega

/-- C4 (corrected): within one serialization (all placed flags initially
false, table and figure numbers distinct), every table and every figure is
emitted exactly once.  A table is emitted immediately after the FIRST body
paragraph whose text contains the substring `"Table {num}"` — the code's
membership test (lines 695/714) has no word boundary, so a paragraph
mentioning "Table 12" also counts as mentioning table 1; the claim's reading
"mentions its number" only holds under this substring interpretation (see the
counterexample).  A table whose number is never contained in any body
paragraph is emitted after all body paragraphs. -/
theorem claim_C4 (md : Str → Str) (parsed : Parsed) (jm : JM)
    (htn : (parsed.tables.map Tbl.num).Nodup)
    (hfn : (parsed.figures.map Fig.num).Nodup)
    (htu : ∀ t ∈ parsed.tables, t.placed = false)
    (hfu : ∀ f ∈ parsed.figures, f.placed = false) :
    (∀ t ∈ parsed.tables,
      (build_xml md parsed jm).1.evs.count (Ev.table t.num) = 1 ∧
      (∀ k, firstIdx (fun p => tblMention p.text t.num) (docParas parsed.sections)
          = some k →
        (((build_xml md parsed jm).1.evs.takeWhile
            (fun e => e ≠ Ev.table t.num)).count Ev.para) = k + 1) ∧
      (firstIdx (fun p => tblMention p.text t.num) (docParas parsed.sections) = none →
        (((build_xml md parsed jm).1.evs.takeWhile
            (fun e => e ≠ Ev.table t.num)).count Ev.para)
          = (docParas parsed.sections).length)) ∧
    (∀ f ∈ parsed.figures, (build_xml md parsed jm).1.evs.count (Ev.fig f.num) = 1) := by
  have hspec := build_xml_spec md parsed jm
  constructor
  · intro t ht
    have hone : (parsed.tables.map Tbl.num).count t.num = 1 :=
      List.count_eq_one_of_mem htn (List.mem_map_of_mem Tbl.num ht)
    have hunp : ∀ t' ∈ parsed.tables, t'.num = t.num → t'.placed = false :=
      fun t' ht' _ => htu t' ht'
    cases hfi : firstIdx (fun p => tblMention p.text t.num) (docParas parsed.sections) with
    | some k =>
      have hfound := bodyTrace_tbl_found t.num (docParas parsed.sections) k
        parsed.tables parsed.figures hfi hone hunp
      have hswT := count_sweepTbl_placed t.num _ hfound.2.2
      refine ⟨?_, ?_, ?_⟩
      · rw [hspec.1, List.count_append, List.count_append]
        rw [hfound.1, hswT, count_table_sweepFigEvs]
      · intro k' hk'
        have hkk : k' = k := (Option.some_injective _ hk').symm
        subst hkk
        rw [hspec.1, List.append_assoc]
        have hmem : Ev.table t.num
            ∈ (bodyTrace (docParas parsed.sections) parsed.tables parsed.figures).1 := by
          rw [← List.count_pos_iff, hfound.1]
          omega
        rw [takeWhile_append_stop _ _ _ ⟨Ev.table t.num, hmem, by simp⟩]
        exact hfound.2.1
      · intro hnone
        exact absurd hnone (by simp)
    | none =>
      have hnone := bodyTrace_tbl_none t.num (docParas parsed.sections)
        parsed.tables parsed.figures hfi hunp
      have honeOut : ((bodyTrace (docParas parsed.sections) parsed.tables
          parsed.figures).2.1.map Tbl.num).count t.num = 1 := by
        rw [(bodyTrace_map_num _ _ _).1]
        exact hone
      have hswT := count_sweepTbl_unplaced t.num _ honeOut hnone.2
      refine ⟨?_, ?_, ?_⟩
      · rw [hspec.1, List.count_append, List.count_append]
        rw [hnone.1, hswT, count_table_sweepFigEvs]
      · intro k' hk'
        exact absurd hk' (by simp)
      · intro _
        rw [hspec.1, List.append_assoc]
        rw [takeWhile_append_all _ _ _ ?hallT]
        case hallT =>
          intro a ha
          have hnm := List.count_eq_zero.mp hnone.1
          have : a ≠ Ev.table t.num := fun he => hnm (he ▸ ha)
          simp [this]
        rw [List.count_append]
        have hmemS : Ev.table t.num
            ∈ sweepTblEvs (bodyTrace (docParas parsed.sections) parsed.tables
              parsed.figures).2.1 := by
          rw [← List.count_pos_iff, hswT]
          omega
        rw [takeWhile_append_stop _ _ _ ⟨Ev.table t.num, hmemS, by simp⟩]
        rw [count_para_takeWhile_sweepTblEvs]
        rw [bodyTrace_para_count]
        simp
  · intro f hf
    have hone : (parsed.figures.map Fig.num).count f.num = 1 :=
      List.count_eq_one_of_mem hfn (List.mem_map_of_mem Fig.num hf)
    have hunp : ∀ f' ∈ parsed.figures, f'.num = f.num → f'.placed = false :=
      fun f' hf' _ => hfu f' hf'
    cases hfi : firstIdx (fun p => figMention p.text f.num) (docParas parsed.sections) with
    | some k =>
      have hfound := bodyTrace_fig_found_cnt f.num (docParas parsed.sections)
        parsed.tables parsed.figures ⟨k, hfi⟩ hone hunp
      rw [hspec.1, List.count_append, List.count_append]
      rw [hfound.1, count_fig_sweepTblEvs, count_sweepFig_placed f.num _ hfound.2]
    | none =>
      have hnone := bodyTrace_fig_none_cnt f.num (docParas parsed.sections)
        parsed.tables parsed.figures hfi hunp
      have honeOut : ((bodyTrace (docParas parsed.sections) parsed.tables
          parsed.figures).2.2.map Fig.num).count f.num = 1 := by
        rw [(bodyTrace_map_num _ _ _).2]
        exact hone
      rw [hspec.1, List.count_append, List.count_append]
      rw [hnone.1, count_fig_sweepTblEvs, count_sweepFig_unplaced f.num _ honeOut hnone.2]

/-- The claim-side reading of "mentions its number": an exact `Table {num}`
reference with a word boundary after the number (the analogue of the
boundary-correct figure regex of line 701). -/
def tblMentionExact (ptxt : Str) (n : Nat) : Bool :=
  (reSearch (.cat (reLit (S "Table")) (.cat (rePlus true reW)
    (.cat (reLit (natRepr n)) .bow))) ptxt).isSome

/-- First counterexample paragraph: mentions "Table 12" but (exactly) not
table 1. -/
def pC4a : DPara :=
  { style := S "Normal"
    runs := [{ t := S "Table 12 shows.", sup := false, ital := false, bold := false }] }

/-- Second counterexample paragraph: the first exact mention of table 1. -/
def pC4b : DPara :=
  { style := S "Normal"
    runs := [{ t := S "Table 1 is here.", sup := false, ital := false, bold := false }] }

/-- The C4 counterexample model: one table, two body paragraphs. -/
def mCexC4 : Parsed :=
  { tables := [{ num := 1 }]
    sections := [{ title := S "A", paragraphs := [pC4a, pC4b] }] }

/-- C4 counterexample: table 1 is emitted immediately after the FIRST
paragraph ("Table 12 shows.") although that paragraph does not mention the
number 1 under the exact word-boundary reading — the substring test
`"Table 1" in para.text` fires inside "Table 12".  The claim's "immediately
following the first body paragraph that mentions its number" is therefore
false for the exact reading: only one paragraph precedes the table element,
while the first exactly-mentioning paragraph is the second. -/
theorem claim_C4_counterexample :
    (build_xml mdTest mCexC4 {}).1.evs = [Ev.para, Ev.table 1, Ev.para] ∧
    tblMentionExact pC4a.text 1 = false ∧
    tblMentionExact pC4b.text 1 = true := by
  refine ⟨by decide, by decide, by decide⟩

/-- The C4 witness model: a table exactly mentioned in the second of two body
paragraphs, and a never-mentioned figure. -/
def mWitC4 : Parsed :=
  { tables := [{ num := 1 }]
    figures := [{ num := 2 }]
    sections := [{ title := S "A"
                   paragraphs := [{ style := S "Normal"
                                    runs := [{ t := S "Intro text.", sup := false,
                                               ital := false, bold := false }] },
                                  { style := S "Normal"
                                    runs := [{ t := S "See Table 1.", sup := false,
                                               ital := false, bold := false }] }] }] }

/-- C4 witness: on the witness model the table is emitted exactly once, right
after the second paragraph (two `.para` events precede it), and the
unmentioned figure is emitted exactly once. -/
theorem claim_C4_witness :
    (build_xml mdTest mWitC4 {}).1.evs.count (Ev.table 1) = 1 ∧
    (((build_xml mdTest mWitC4 {}).1.evs.takeWhile
        (fun e => e ≠ Ev.table 1)).count Ev.para) = 2 ∧
    (build_xml mdTest mWitC4 {}).1.evs.count (Ev.fig 2) = 1 := by
  have h := claim_C4 mdTest mWitC4 {} (by decide) (by decide) (by decide) (by decide)
  have ht := h.1 { num := 1 } (by decide)
  exact ⟨ht.1, ht.2.1 1 (by decide), h.2 { num := 2 } (by decide)⟩

-- ── Identifier classification (claim C3) ────────────────────────────────────

theorem splitCharAux_append_sep (sep : Char) :
    ∀ (a b : Str) (acc : Str),
      splitCharAux sep (a ++ sep :: b) acc
        = splitCharAux sep a acc ++ splitChar sep b := by
  intro a
  induction a with
  | nil =>
    intro b acc
    simp only [List.nil_append, splitCharAux, if_pos rfl]
    rfl
  | cons c a ih =>
    intro b acc
    by_cases h : c = sep
    · simp only [List.cons_append, splitCharAux, if_pos h, List.append_eq]
      rw [ih]
    · simp only [List.cons_append, splitCharAux, if_neg h, List.append_eq]
      rw [ih]

/-- Splitting at a separator between two pieces splits each piece. -/
theorem splitChar_append_sep (sep : Char) (a b : Str) :
    splitChar sep (a ++ sep :: b) = splitChar sep a ++ splitChar sep b := by
  rw [splitChar, splitCharAux_append_sep]
  rfl

theorem splitCharAux_no_sep (sep : Char) :
    ∀ (a : Str) (acc : Str), sep ∉ a → splitCharAux sep a acc = [acc.reverse ++ a] := by
  intro a
  induction a with
  | nil => intro acc _; simp [splitCharAux]
  | cons c a ih =>
    intro acc h
    have hc : c ≠ sep := fun he => h (by simp [he])
    rw [splitCharAux, if_neg hc, ih (c :: acc) (fun hm => h (by simp [hm]))]
    simp

/-- A separator-free string is a single token. -/
theorem splitChar_no_sep (sep : Char) (a : Str) (h : sep ∉ a) :
    splitChar sep a = [a] := by
  rw [splitChar, splitCharAux_no_sep sep a [] h]
  rfl

theorem splitCharAux_ne_nil (sep : Char) :
    ∀ (a acc : Str), splitCharAux sep a acc ≠ [] := by
  intro a
  induction a with
  | nil => intro acc; simp [splitCharAux]
  | cons c a ih =>
    intro acc
    rw [splitCharAux]
    split
    · simp
    · exact ih (c :: acc)

theorem splitChar_ne_nil (sep : Char) (a : Str) : splitChar sep a ≠ [] :=
  splitCharAux_ne_nil sep a []

/-- The counter value recoverable from a generated id: the second-to-last
dash component, provided there are at least four components. -/
def idK (x : Str) : Option Nat :=
  let parts := splitChar '-' x
  if parts.length ≥ 4 then natOfDigits ((parts.reverse.get? 1).getD []) else none

/-- The collision key of an id value: generated ids collapse to their counter
value, fixed-scheme ids stay themselves. -/
def idKey (x : Str) : Sum Nat Str :=
  match idK x with
  | some k => Sum.inl k
  | none => Sum.inr x

/-- Left/right projections of an id key. -/
def inlPart : Sum Nat Str → Option Nat
  | Sum.inl k => some k
  | Sum.inr _ => none

def inrPart : Sum Nat Str → Option Str
  | Sum.inl _ => none
  | Sum.inr v => some v

theorem hexStr_no_dash {s : Str} (h : HexStr s) : '-' ∉ s := by
  intro hm
  rcases h '-' hm with hd | ⟨h1, _⟩
  · exact absurd hd (by decide)
  · exact absurd h1 (by decide)

theorem no_dash_take {s : Str} (n : Nat) (h : '-' ∉ s) : '-' ∉ s.take n :=
  fun hm => h (List.mem_of_mem_take hm)

theorem makePfx_no_dash {md : Str → Str} (hmd : ∀ s, HexStr (md s)) (title : Str) :
    '-' ∉ makePfx md title := by
  rw [makePfx]
  intro hm
  rcases List.mem_append.mp hm with h | h
  · exact absurd h (by decide)
  · exact no_dash_take 8 (hexStr_no_dash (hmd _)) h

theorem splitChar_dash_block (a b : Str) (ha : '-' ∉ a) :
    splitChar '-' (a ++ '-' :: b) = a :: splitChar '-' b := by
  rw [splitChar_append_sep, splitChar_no_sep '-' a ha]
  rfl

/-- The dash-components of a counter-generated id: the label components, the
prefix, the decimal counter value and the hash slice. -/
theorem mkNid_parts (md : Str → Str) (pfx label : Str) (k : Nat)
    (hp : '-' ∉ pfx) (hh : '-' ∉ (md (label ++ S "-" ++ natRepr k)).take 12) :
    splitChar '-' (mkNid md pfx label k)
      = splitChar '-' label
        ++ [pfx, natRepr k, (md (label ++ S "-" ++ natRepr k)).take 12] := by
  rw [mkNid]
  simp only [List.append_assoc] at hh ⊢
  have he : label ++ (S "-" ++ (pfx ++ (S "-" ++ (natRepr k ++ (S "-"
      ++ (md (label ++ (S "-" ++ natRepr k))).take 12)))))
      = label ++ '-' :: (pfx ++ '-' :: (natRepr k ++ '-'
          :: (md (label ++ (S "-" ++ natRepr k))).take 12)) := rfl
  rw [he, splitChar_append_sep, splitChar_dash_block _ _ hp,
    splitChar_dash_block _ _ natRepr_no_dash, splitChar_no_sep '-' _ hh]

/-- A counter-generated id always classifies to its counter value: the
penultimate dash-component is the decimal counter. -/
theorem idK_mkNid (md : Str → Str) (pfx label : Str) (k : Nat)
    (hp : '-' ∉ pfx) (hh : '-' ∉ (md (label ++ S "-" ++ natRepr k)).take 12) :
    idK (mkNid md pfx label k) = some k := by
  rw [idK, mkNid_parts md pfx label k hp hh]
  have hLne : splitChar '-' label ≠ [] := splitChar_ne_nil '-' label
  have hlen1 : 1 ≤ (splitChar '-' label).length := by
    cases hc : splitChar '-' label
    · exact absurd hc hLne
    · simp
  rw [if_pos (by simp; omega)]
  rw [List.reverse_append]
  have hrev : ([pfx, natRepr k,
      (md (label ++ S "-" ++ natRepr k)).take 12] : List Str).reverse
      = [(md (label ++ S "-" ++ natRepr k)).take 12, natRepr k, pfx] := rfl
  rw [hrev]
  rw [List.get?_append (by simp)]
  simp [natOfDigits_natRepr]

/-- The hypotheses every id-generation site satisfies: the document prefix is
dash-free, and the hash oracle returns hex digests. -/
def MkOk (md : Str → Str) (pfx : Str) : Prop :=
  '-' ∉ pfx ∧ ∀ s, HexStr (md s)

theorem idKey_mkNid {md : Str → Str} {pfx : Str} (hm : MkOk md pfx)
    (label : Str) (k : Nat) : idKey (mkNid md pfx label k) = Sum.inl k := by
  unfold idKey
  rw [idK_mkNid md pfx label k hm.1 (no_dash_take 12 (hexStr_no_dash (hm.2 _)))]

theorem idKey_of_idK_none {x : Str} (h : idK x = none) : idKey x = Sum.inr x := by
  unfold idKey
  rw [h]

theorem idK_of_no_dash {x : Str} (h : '-' ∉ x) : idK x = none := by
  rw [idK, splitChar_no_sep '-' x h]
  rfl

theorem idK_two_blocks {a b : Str} (ha : '-' ∉ a) (hb : '-' ∉ b) :
    idK (a ++ '-' :: b) = none := by
  rw [idK, splitChar_dash_block a b ha, splitChar_no_sep '-' b hb]
  rfl

theorem idK_tw (n : Nat) : idK (S "tw-" ++ natRepr n) = none := by
  have he : S "tw-" ++ natRepr n = S "tw" ++ '-' :: natRepr n := rfl
  rw [he]
  exact idK_two_blocks (by decide) natRepr_no_dash

theorem idK_fig (n : Nat) : idK (S "fig-" ++ natRepr n) = none := by
  have he : S "fig-" ++ natRepr n = S "fig" ++ '-' :: natRepr n := rfl
  rw [he]
  exact idK_two_blocks (by decide) natRepr_no_dash

theorem idK_aff {key : Str} (h : '-' ∉ key) : idK (S "aff" ++ key) = none := by
  apply idK_of_no_dash
  intro hm
  rcases List.mem_append.mp hm with h1 | h1
  · exact absurd h1 (by decide)
  · exact h h1

theorem idK_refB {pfx : Str} (hp : '-' ∉ pfx) (n : Nat) :
    idK (pfx ++ S "-B" ++ natRepr n) = none := by
  have he : pfx ++ S "-B" ++ natRepr n = pfx ++ '-' :: ('B' :: natRepr n) := by
    rw [List.append_assoc]
    rfl
  rw [he]
  apply idK_two_blocks hp
  intro hm
  rcases List.mem_cons.mp hm with h1 | h1
  · exact absurd h1 (by decide)
  · exact natRepr_no_dash h1

/-- Classification of a freshly appended block of id keys: every
counter-derived key lies in the half-open range `(c0, c1]`, the counter keys
are pairwise distinct, and the fixed (non-counter) ids are exactly `F`, in
emission order. -/
def SegKeys (c0 c1 : Nat) (l : List (Sum Nat Str)) (F : List Str) : Prop :=
  (∀ k, Sum.inl k ∈ l → c0 < k ∧ k ≤ c1) ∧
  (l.filterMap inlPart).Nodup ∧ l.filterMap inrPart = F

theorem segKeys_nil (c0 c1 : Nat) : SegKeys c0 c1 [] [] :=
  ⟨fun k hk => absurd hk (by simp), List.nodup_nil, rfl⟩

theorem mem_inlPart {l : List (Sum Nat Str)} {k : Nat} :
    k ∈ l.filterMap inlPart ↔ Sum.inl k ∈ l := by
  rw [List.mem_filterMap]
  constructor
  · rintro ⟨a, ha, hk⟩
    cases a with
    | inl j =>
      have hj : j = k := by simpa [inlPart] using hk
      rw [← hj]
      exact ha
    | inr v => simp [inlPart] at hk
  · intro h
    exact ⟨Sum.inl k, h, rfl⟩

theorem segKeys_append {c0 c1 c2 : Nat} {l1 l2 : List (Sum Nat Str)}
    {F1 F2 : List Str} (hc0 : c0 ≤ c1) (hc1 : c1 ≤ c2)
    (h1 : SegKeys c0 c1 l1 F1) (h2 : SegKeys c1 c2 l2 F2) :
    SegKeys c0 c2 (l1 ++ l2) (F1 ++ F2) := by
  refine ⟨?_, ?_, ?_⟩
  · intro k hk
    rcases List.mem_append.mp hk with h | h
    · exact ⟨(h1.1 k h).1, le_trans (h1.1 k h).2 hc1⟩
    · exact ⟨lt_of_le_of_lt hc0 (h2.1 k h).1, (h2.1 k h).2⟩
  · rw [List.filterMap_append]
    refine List.Nodup.append h1.2.1 h2.2.1 ?_
    intro k hk1 hk2
    have hb1 := (h1.1 k (mem_inlPart.mp hk1)).2
    have hb2 := (h2.1 k (mem_inlPart.mp hk2)).1
    omega
  · rw [List.filterMap_append, h1.2.2, h2.2.2]

/-- One segment of the emission: the ids grow by a block whose keys obey
`SegKeys` over the counter movement, with fixed ids `F`. -/
def IdsSeg (st st' : BSt) (F : List Str) : Prop :=
  st.ctr ≤ st'.ctr ∧ ∃ new, st'.ids = st.ids ++ new ∧
    SegKeys st.ctr st'.ctr (new.map idKey) F

theorem idsSeg_refl (st : BSt) : IdsSeg st st [] :=
  ⟨le_refl _, [], by simp, segKeys_nil _ _⟩

theorem idsSeg_trans {st1 st2 st3 : BSt} {F1 F2 : List Str}
    (h1 : IdsSeg st1 st2 F1) (h2 : IdsSeg st2 st3 F2) :
    IdsSeg st1 st3 (F1 ++ F2) := by
  obtain ⟨hc1, n1, hi1, hs1⟩ := h1
  obtain ⟨hc2, n2, hi2, hs2⟩ := h2
  refine ⟨le_trans hc1 hc2, n1 ++ n2, ?_, ?_⟩
  · rw [hi2, hi1, List.append_assoc]
  · rw [List.map_append]
    exact segKeys_append hc1 hc2 hs1 hs2

theorem idsSeg_step {st1 st2 st3 : BSt} {F : List Str}
    (h1 : IdsSeg st1 st2 []) (h2 : IdsSeg st2 st3 F) : IdsSeg st1 st3 F := by
  have := idsSeg_trans h1 h2
  simpa using this

theorem idsSeg_last {st1 st2 st3 : BSt} {F : List Str}
    (h1 : IdsSeg st1 st2 F) (h2 : IdsSeg st2 st3 []) : IdsSeg st1 st3 F := by
  have := idsSeg_trans h1 h2
  simpa using this

theorem idsSeg_emitL (ls : List Str) (st : BSt) : IdsSeg st (emitL ls st) [] :=
  ⟨le_refl _, [], by simp [emitL], segKeys_nil _ _⟩

theorem idsSeg_pushEv (e : Ev) (st : BSt) : IdsSeg st (pushEv e st) [] :=
  ⟨le_refl _, [], by simp [pushEv], segKeys_nil _ _⟩

theorem idsSeg_emitIdL_fixed (l v : Str) (st : BSt) (h : idK v = none) :
    IdsSeg st (emitIdL l [v] st) [v] := by
  refine ⟨le_refl _, [v], by simp [emitIdL], ?_, ?_, ?_⟩
  · intro k hk
    rw [List.map_cons, idKey_of_idK_none h] at hk
    simp at hk
  · simp [idKey_of_idK_none h, inlPart]
  · simp [idKey_of_idK_none h, inrPart]

theorem filterMap_inlPart_map :
    ∀ ks : List Nat, (ks.map (fun k => (Sum.inl k : Sum Nat Str))).filterMap inlPart = ks := by
  intro ks
  induction ks with
  | nil => rfl
  | cons k ks ih => simp [inlPart, ih]

theorem filterMap_inrPart_map :
    ∀ ks : List Nat, (ks.map (fun k => (Sum.inl k : Sum Nat Str))).filterMap inrPart = [] := by
  intro ks
  induction ks with
  | nil => rfl
  | cons k ks ih => simp [inrPart, ih]

theorem segKeys_inls {c0 c1 : Nat} {ks : List Nat}
    (hr : ∀ k ∈ ks, c0 < k ∧ k ≤ c1) (hnd : ks.Nodup) :
    SegKeys c0 c1 (ks.map (fun k => (Sum.inl k : Sum Nat Str))) [] := by
  refine ⟨?_, ?_, ?_⟩
  · intro k hk
    rcases List.mem_map.mp hk with ⟨j, hj, he⟩
    have hje : j = k := by simpa using he
    rw [← hje]
    exact hr j hj
  · rw [filterMap_inlPart_map]
    exact hnd
  · exact filterMap_inrPart_map ks

theorem idsSeg_bnid_emit {md : Str → Str} {pfx : Str} (hm : MkOk md pfx)
    (lab l : Str) (st : BSt) :
    IdsSeg st (emitIdL l [(bnid md pfx lab st).1] (bnid md pfx lab st).2) [] := by
  refine ⟨Nat.le_succ st.ctr, [(bnid md pfx lab st).1], rfl, ?_⟩
  have hkey : ([(bnid md pfx lab st).1].map idKey)
      = [st.ctr + 1].map (fun k => (Sum.inl k : Sum Nat Str)) := by
    have h1 : (bnid md pfx lab st).1 = mkNid md pfx lab (st.ctr + 1) := rfl
    rw [List.map_cons, h1, idKey_mkNid hm]
    rfl
  rw [hkey]
  show SegKeys st.ctr (st.ctr + 1) _ []
  exact segKeys_inls (by intro k hk; simp at hk; omega) (by simp)

theorem idsSeg_bnid2_emit {md : Str → Str} {pfx : Str} (hm : MkOk md pfx)
    (lab1 lab2 l : Str) (st : BSt) :
    IdsSeg st (emitIdL l [(bnid md pfx lab1 st).1,
        (bnid md pfx lab2 (bnid md pfx lab1 st).2).1]
      (bnid md pfx lab2 (bnid md pfx lab1 st).2).2) [] := by
  refine ⟨show st.ctr ≤ st.ctr + 2 by omega, [(bnid md pfx lab1 st).1,
    (bnid md pfx lab2 (bnid md pfx lab1 st).2).1], rfl, ?_⟩
  have hkey : ([(bnid md pfx lab1 st).1,
      (bnid md pfx lab2 (bnid md pfx lab1 st).2).1].map idKey)
      = [st.ctr + 1, st.ctr + 2].map (fun k => (Sum.inl k : Sum Nat Str)) := by
    have h1 : (bnid md pfx lab1 st).1 = mkNid md pfx lab1 (st.ctr + 1) := rfl
    have h2 : (bnid md pfx lab2 (bnid md pfx lab1 st).2).1
        = mkNid md pfx lab2 (st.ctr + 2) := rfl
    rw [List.map_cons, List.map_cons, h1, h2, idKey_mkNid hm, idKey_mkNid hm]
    rfl
  rw [hkey]
  show SegKeys st.ctr (st.ctr + 2) _ []
  exact segKeys_inls (by intro k hk; simp at hk; omega) (by simp)

theorem idsSeg_cap_block {md : Str → Str} {pfx : Str} (hm : MkOk md pfx)
    (lab1 lab2 l1 l2 : Str) (st : BSt) :
    IdsSeg st
      (emitIdL l2 [(bnid md pfx lab2 (bnid md pfx lab1 st).2).1]
        (emitIdL l1 [(bnid md pfx lab1 st).1]
          (bnid md pfx lab2 (bnid md pfx lab1 st).2).2)) [] := by
  refine ⟨show st.ctr ≤ st.ctr + 2 by omega, [(bnid md pfx lab1 st).1,
    (bnid md pfx lab2 (bnid md pfx lab1 st).2).1], by simp [emitIdL, bnid, nid], ?_⟩
  have hkey : ([(bnid md pfx lab1 st).1,
      (bnid md pfx lab2 (bnid md pfx lab1 st).2).1].map idKey)
      = [st.ctr + 1, st.ctr + 2].map (fun k => (Sum.inl k : Sum Nat Str)) := by
    have h1 : (bnid md pfx lab1 st).1 = mkNid md pfx lab1 (st.ctr + 1) := rfl
    have h2 : (bnid md pfx lab2 (bnid md pfx lab1 st).2).1
        = mkNid md pfx lab2 (st.ctr + 2) := rfl
    rw [List.map_cons, List.map_cons, h1, h2, idKey_mkNid hm, idKey_mkNid hm]
    rfl
  rw [hkey]
  show SegKeys st.ctr (st.ctr + 2) _ []
  exact segKeys_inls (by intro k hk; simp at hk; omega) (by simp)

theorem idsSeg_abs3_block {md : Str → Str} {pfx : Str} (hm : MkOk md pfx)
    (lab1 lab2 lab3 l1 l2 l3 : Str) (st : BSt) :
    IdsSeg st
      (emitIdL l3 [(bnid md pfx lab3 (bnid md pfx lab2 (bnid md pfx lab1 st).2).2).1]
        (emitIdL l2 [(bnid md pfx lab2 (bnid md pfx lab1 st).2).1]
          (emitIdL l1 [(bnid md pfx lab1 st).1]
            (bnid md pfx lab3 (bnid md pfx lab2 (bnid md pfx lab1 st).2).2).2))) [] := by
  refine ⟨show st.ctr ≤ st.ctr + 3 by omega, [(bnid md pfx lab1 st).1,
    (bnid md pfx lab2 (bnid md pfx lab1 st).2).1,
    (bnid md pfx lab3 (bnid md pfx lab2 (bnid md pfx lab1 st).2).2).1],
    by simp [emitIdL, bnid, nid], ?_⟩
  have hkey : ([(bnid md pfx lab1 st).1,
      (bnid md pfx lab2 (bnid md pfx lab1 st).2).1,
      (bnid md pfx lab3 (bnid md pfx lab2 (bnid md pfx lab1 st).2).2).1].map idKey)
      = [st.ctr + 1, st.ctr + 2, st.ctr + 3].map
          (fun k => (Sum.inl k : Sum Nat Str)) := by
    have h1 : (bnid md pfx lab1 st).1 = mkNid md pfx lab1 (st.ctr + 1) := rfl
    have h2 : (bnid md pfx lab2 (bnid md pfx lab1 st).2).1
        = mkNid md pfx lab2 (st.ctr + 2) := rfl
    have h3 : (bnid md pfx lab3 (bnid md pfx lab2 (bnid md pfx lab1 st).2).2).1
        = mkNid md pfx lab3 (st.ctr + 3) := rfl
    rw [List.map_cons, List.map_cons, List.map_cons, h1, h2, h3,
      idKey_mkNid hm, idKey_mkNid hm, idKey_mkNid hm]
    rfl
  rw [hkey]
  show SegKeys st.ctr (st.ctr + 3) _ []
  exact segKeys_inls (by intro k hk; simp at hk; omega) (by simp)

theorem idsSeg_foldl {α : Type} (f : BSt → α → BSt)
    (hf : ∀ st a, IdsSeg st (f st a) []) :
    ∀ (l : List α) (st : BSt), IdsSeg st (l.foldl f st) [] := by
  intro l
  induction l with
  | nil => intro st; exact idsSeg_refl st
  | cons a l ih => intro st; exact idsSeg_step (hf st a) (ih (f st a))

theorem idsSeg_ite_emitL (c : Prop) [Decidable c] (ls : List Str) (st : BSt) :
    IdsSeg st (if c then emitL ls st else st) [] := by
  split
  · exact idsSeg_emitL ls st
  · exact idsSeg_refl st

theorem idsSeg_ite_emitL4 (c : Prop) [Decidable c] (l1 l2 l3 l4 : List Str) (st : BSt) :
    IdsSeg st (if c then emitL l4 (emitL l3 (emitL l2 (emitL l1 st))) else st) [] := by
  split
  · exact idsSeg_step (idsSeg_emitL _ _) (idsSeg_step (idsSeg_emitL _ _)
      (idsSeg_step (idsSeg_emitL _ _) (idsSeg_emitL _ _)))
  · exact idsSeg_refl st

/-- A block of purely counter-generated ids over a counter movement. -/
def CtrIds (c0 c1 : Nat) (ids : List Str) : Prop :=
  c0 ≤ c1 ∧ SegKeys c0 c1 (ids.map idKey) []

theorem ctrIds_refl (c : Nat) : CtrIds c c [] := ⟨le_refl _, segKeys_nil _ _⟩

theorem ctrIds_append {c0 c1 c2 : Nat} {l1 l2 : List Str}
    (h1 : CtrIds c0 c1 l1) (h2 : CtrIds c1 c2 l2) : CtrIds c0 c2 (l1 ++ l2) := by
  refine ⟨le_trans h1.1 h2.1, ?_⟩
  rw [List.map_append]
  have := segKeys_append h1.1 h2.1 h1.2 h2.2
  simpa using this

theorem ctrIds_single {md : Str → Str} {pfx : Str} (hm : MkOk md pfx)
    (lab : Str) (c : Nat) : CtrIds c (c + 1) [mkNid md pfx lab (c + 1)] := by
  refine ⟨by omega, ?_⟩
  have hkey : ([mkNid md pfx lab (c + 1)].map idKey)
      = [c + 1].map (fun k => (Sum.inl k : Sum Nat Str)) := by
    rw [List.map_cons, idKey_mkNid hm]
    rfl
  rw [hkey]
  exact segKeys_inls (by intro k hk; simp at hk; omega) (by simp)

theorem ctrIds_cons_nid {md : Str → Str} {pfx : Str} (hm : MkOk md pfx)
    (lab : Str) {c c2 : Nat} {ids : List Str}
    (h : CtrIds (c + 1) c2 ids) :
    CtrIds c c2 (mkNid md pfx lab (c + 1) :: ids) := by
  have := ctrIds_append (ctrIds_single hm lab c) h
  simpa using this

theorem citeLoop_ids {md : Str → Str} {pfx : Str} (hm : MkOk md pfx) :
    ∀ (toks : List Str) (ctr : Nat),
      CtrIds ctr (citeLoop md pfx toks ctr).2.1 (citeLoop md pfx toks ctr).2.2 := by
  intro toks
  induction toks with
  | nil => intro ctr; exact ctrIds_refl ctr
  | cons tok toks ih =>
    intro ctr
    rw [citeLoop]
    by_cases hc : pyStrip tok ≠ [] ∧ (pyStrip tok).all Char.isDigit
    · rw [if_pos hc]
      simp only [nid]
      try dsimp only
      rcases hcl : citeLoop md pfx toks (ctr + 1) with ⟨r, c2, ids⟩
      dsimp only
      have hih := ih (ctr + 1)
      rw [hcl] at hih
      dsimp only at hih
      exact ctrIds_cons_nid hm _ hih
    · rw [if_neg hc]
      exact ih ctr

theorem buildSpans_ids {md : Str → Str} {pfx : Str} (hm : MkOk md pfx)
    (full : Str) (tids fids : List (Str × Str)) :
    ∀ (ms : List (Nat × Nat × Str × Bool)) (ctr : Nat),
      CtrIds ctr (buildSpans md pfx full tids fids ms ctr).2.1
        (buildSpans md pfx full tids fids ms ctr).2.2 := by
  intro ms
  induction ms with
  | nil => intro ctr; exact ctrIds_refl ctr
  | cons m ms ih =>
    intro ctr
    obtain ⟨s, e, ds, b⟩ := m
    rw [buildSpans]
    cases hla : lookupA (if b then tids else fids) ds with
    | none =>
      dsimp only
      exact ih ctr
    | some rid =>
      simp only [nid]
      try dsimp only
      rcases hbs : buildSpans md pfx full tids fids ms (ctr + 1) with ⟨sp, c2, ids⟩
      dsimp only
      have hih := ih (ctr + 1)
      rw [hbs] at hih
      dsimp only at hih
      exact ctrIds_cons_nid hm _ hih

theorem fmtChunk_ids {md : Str → Str} {pfx : Str} (hm : MkOk md pfx)
    (rd : Run) (t : Str) (ctr : Nat) :
    CtrIds ctr (fmtChunk md pfx rd t ctr).2.1 (fmtChunk md pfx rd t ctr).2.2 := by
  rw [fmtChunk]
  by_cases h0 : t = [] ∨ pyStrip t = []
  · rw [if_pos h0]
    exact ctrIds_refl ctr
  · rw [if_neg h0]
    by_cases hsup : rd.sup = true
    · rw [if_pos hsup]
      dsimp only
      by_cases hcl : (pyStrip t).all citeClass = true
      · rw [if_pos hcl]
        rcases hc : citeLoop md pfx (splitSepRun citeSep (pyStrip t)) ctr with ⟨res, c2, ids⟩
        have hih := citeLoop_ids hm (splitSepRun citeSep (pyStrip t)) ctr
        rw [hc] at hih
        dsimp only at hih
        dsimp only
        split
        · exact hih
        · exact hih
      · rw [if_neg hcl]
        exact ctrIds_refl ctr
    · rw [if_neg hsup]
      by_cases hib : rd.ital && rd.bold
      · rw [if_pos hib]
        exact ctrIds_refl ctr
      · rw [if_neg hib]
        by_cases hit : rd.ital = true
        · rw [if_pos hit]
          exact ctrIds_refl ctr
        · rw [if_neg hit]
          by_cases hbo : rd.bold = true
          · rw [if_pos hbo]
            simp only [nid]
            try dsimp only
            exact ctrIds_cons_nid hm _ (ctrIds_refl (ctr + 1))
          · rw [if_neg hbo]
            exact ctrIds_refl ctr

theorem walkRunF_ids {md : Str → Str} {pfx : Str} (hm : MkOk md pfx)
    (spans : List (Nat × Nat × Str)) (rd : Run) :
    ∀ (fuel : Nat) (cs : Str) (abs skipTo ctr : Nat),
      CtrIds ctr (walkRunF md pfx spans rd fuel cs abs skipTo ctr).2.2.1
        (walkRunF md pfx spans rd fuel cs abs skipTo ctr).2.2.2 := by
  intro fuel
  induction fuel with
  | zero => intro cs abs skipTo ctr; exact ctrIds_refl ctr
  | succ fuel ih =>
    intro cs abs skipTo ctr
    cases cs with
    | nil => exact ctrIds_refl ctr
    | cons c rest =>
      rw [walkRunF]
      by_cases hskip : abs < skipTo
      · rw [if_pos hskip]
        exact ih rest (abs + 1) skipTo ctr
      · rw [if_neg hskip]
        cases hls : lookupSpan spans abs with
        | some pe =>
          obtain ⟨e, xml⟩ := pe
          dsimp only
          exact ih rest (abs + 1) e ctr
        | none =>
          dsimp only
          exact ctrIds_append (fmtChunk_ids hm rd _ ctr) (ih _ _ _ _)

theorem walkRuns_ids {md : Str → Str} {pfx : Str} (hm : MkOk md pfx)
    (spans : List (Nat × Nat × Str)) :
    ∀ (runs : List Run) (abs skipTo ctr : Nat),
      CtrIds ctr (walkRuns md pfx spans runs abs skipTo ctr).2.2.1
        (walkRuns md pfx spans runs abs skipTo ctr).2.2.2 := by
  intro runs
  induction runs with
  | nil => intro abs skipTo ctr; exact ctrIds_refl ctr
  | cons r rs ih =>
    intro abs skipTo ctr
    rw [walkRuns]
    dsimp only
    exact ctrIds_append (walkRunF_ids hm spans r _ _ _ _ _) (ih _ _ _)

theorem paraToInline_ids {md : Str → Str} {pfx : Str} (hm : MkOk md pfx)
    (cites : List Str) (tids fids : List (Str × Str)) (runsIn : List Run) (ctr : Nat) :
    CtrIds ctr (paraToInline md pfx cites tids fids runsIn ctr).2.1
      (paraToInline md pfx cites tids fids runsIn ctr).2.2 := by
  rw [paraToInline]
  dsimp only
  exact ctrIds_append (buildSpans_ids hm _ _ _ _ ctr) (walkRuns_ids hm _ _ _ _ _)

/-- The fixed id carried by a serialization event: `tw-{num}` for a table,
`fig-{num}` for a figure, nothing for a plain paragraph. -/
def evIdOf : Ev → Option Str
  | Ev.para => none
  | Ev.table n => some (S "tw-" ++ natRepr n)
  | Ev.fig n => some (S "fig-" ++ natRepr n)

@[simp] theorem emitL_ctr (ls : List Str) (st : BSt) : (emitL ls st).ctr = st.ctr := rfl
@[simp] theorem emitL_ids (ls : List Str) (st : BSt) : (emitL ls st).ids = st.ids := rfl
@[simp] theorem emitIdL_ctr (l : Str) (idvs : List Str) (st : BSt) :
    (emitIdL l idvs st).ctr = st.ctr := rfl
@[simp] theorem emitIdL_ids (l : Str) (idvs : List Str) (st : BSt) :
    (emitIdL l idvs st).ids = st.ids ++ idvs := rfl
@[simp] theorem pushEv_ctr (e : Ev) (st : BSt) : (pushEv e st).ctr = st.ctr := rfl
@[simp] theorem pushEv_ids (e : Ev) (st : BSt) : (pushEv e st).ids = st.ids := rfl
@[simp] theorem bnid_fst (md : Str → Str) (pfx lab : Str) (st : BSt) :
    (bnid md pfx lab st).1 = mkNid md pfx lab (st.ctr + 1) := rfl
@[simp] theorem bnid_ctr (md : Str → Str) (pfx lab : Str) (st : BSt) :
    (bnid md pfx lab st).2.ctr = st.ctr + 1 := rfl
@[simp] theorem bnid_ids (md : Str → Str) (pfx lab : Str) (st : BSt) :
    (bnid md pfx lab st).2.ids = st.ids := rfl

/-- A segment whose fresh ids are exactly the counter ids named by `labs`,
with consecutive keys: the data-level workhorse. -/
theorem idsSeg_of_keys {md : Str → Str} {pfx : Str} (hm : MkOk md pfx)
    {st st' : BSt} (labs : List (Str × Nat))
    (hctr : st'.ctr = st.ctr + labs.length)
    (hids : st'.ids = st.ids ++ labs.map (fun q => mkNid md pfx q.1 q.2))
    (hkeys : labs.map Prod.snd = List.range' (st.ctr + 1) labs.length) :
    IdsSeg st st' [] := by
  refine ⟨by omega, labs.map (fun q => mkNid md pfx q.1 q.2), hids, ?_⟩
  rw [hctr]
  have hmap : ((labs.map (fun q => mkNid md pfx q.1 q.2)).map idKey)
      = (labs.map Prod.snd).map (fun k => (Sum.inl k : Sum Nat Str)) := by
    rw [List.map_map, List.map_map]
    apply List.map_congr_left
    intro q _
    simp only [Function.comp]
    exact idKey_mkNid hm q.1 q.2
  rw [hmap, hkeys]
  refine segKeys_inls ?_ ?_
  · intro k hk
    have := List.mem_range'_1.mp hk
    omega
  · exact List.nodup_range' _ _

/-- A segment that records one fixed id and does not move the counter. -/
theorem idsSeg_fixed_block {st st' : BSt} (v : Str) (hK : idK v = none)
    (hctr : st'.ctr = st.ctr) (hids : st'.ids = st.ids ++ [v]) :
    IdsSeg st st' [v] := by
  refine ⟨by omega, [v], hids, ?_, ?_, ?_⟩
  · intro k hk
    rw [List.map_cons, idKey_of_idK_none hK] at hk
    simp at hk
  · simp [idKey_of_idK_none hK, inlPart]
  · simp [idKey_of_idK_none hK, inrPart]

/-- Optional single-counter-id emission (the `<p>` of a non-blank cell). -/
theorem idsSeg_ite_bnid1 {md : Str → Str} {pfx : Str} (hm : MkOk md pfx)
    (c : Prop) [Decidable c] (lab l : Str) (st : BSt) :
    IdsSeg st (if c then emitIdL l [(bnid md pfx lab st).1] (bnid md pfx lab st).2
      else st) [] := by
  split
  · exact idsSeg_bnid_emit hm _ _ _
  · exact idsSeg_refl st

/-- Optional double-counter-id emission (the `<p><bold>` of a non-blank
header cell). -/
theorem idsSeg_ite_bnid2 {md : Str → Str} {pfx : Str} (hm : MkOk md pfx)
    (c : Prop) [Decidable c] (lab1 lab2 l : Str) (st : BSt) :
    IdsSeg st (if c then emitIdL l [(bnid md pfx lab1 st).1,
        (bnid md pfx lab2 (bnid md pfx lab1 st).2).1]
      (bnid md pfx lab2 (bnid md pfx lab1 st).2).2 else st) [] := by
  split
  · exact idsSeg_bnid2_emit hm _ _ _ _
  · exact idsSeg_refl st

set_option maxHeartbeats 1000000 in
theorem thCells_ids {md : Str → Str} {pfx : Str} (hm : MkOk md pfx) :
    ∀ (cs : List Cell) (st : BSt), IdsSeg st (thCells md pfx cs st) [] := by
  intro cs
  induction cs with
  | nil => intro st; exact idsSeg_refl st
  | cons c cs ih =>
    intro st
    rw [thCells]
    try dsimp only
    exact idsSeg_step (idsSeg_step (idsSeg_step (idsSeg_bnid_emit hm _ _ _)
      (idsSeg_ite_bnid2 hm _ _ _ _ _)) (idsSeg_emitL _ _)) (ih _)

set_option maxHeartbeats 1000000 in
theorem tdCells_ids {md : Str → Str} {pfx : Str} (hm : MkOk md pfx) :
    ∀ (cs : List Cell) (st : BSt), IdsSeg st (tdCells md pfx cs st) [] := by
  intro cs
  induction cs with
  | nil => intro st; exact idsSeg_refl st
  | cons c cs ih =>
    intro st
    rw [tdCells]
    try dsimp only
    exact idsSeg_step (idsSeg_step (idsSeg_step (idsSeg_bnid_emit hm _ _ _)
      (idsSeg_ite_bnid1 hm _ _ _ _)) (idsSeg_emitL _ _)) (ih _)

set_option maxHeartbeats 1000000 in
theorem trRows_ids {md : Str → Str} {pfx : Str} (hm : MkOk md pfx) :
    ∀ (rs : List (List Cell)) (st : BSt), IdsSeg st (trRows md pfx rs st) [] := by
  intro rs
  induction rs with
  | nil => intro st; exact idsSeg_refl st
  | cons r rs ih =>
    intro st
    rw [trRows]
    try dsimp only
    exact idsSeg_step (idsSeg_step (idsSeg_step (idsSeg_bnid_emit hm _ _ _)
      (tdCells_ids hm _ _)) (idsSeg_emitL _ _)) (ih _)

/-- Optional caption block: two counter ids then a closing line. -/
theorem idsSeg_ite_cap {md : Str → Str} {pfx : Str} (hm : MkOk md pfx)
    (c : Prop) [Decidable c] (l1 l2 : Str) (ls : List Str) (st : BSt) :
    IdsSeg st (if c then emitL ls
      (emitIdL l2 [(bnid md pfx (S "ctitle") (bnid md pfx (S "cap") st).2).1]
        (emitIdL l1 [(bnid md pfx (S "cap") st).1]
          (bnid md pfx (S "ctitle") (bnid md pfx (S "cap") st).2).2))
      else st) [] := by
  split
  · exact idsSeg_step (idsSeg_cap_block hm _ _ _ _ _) (idsSeg_emitL _ _)
  · exact idsSeg_refl st

/-- The colgroup block: plain lines on either branch. -/
theorem idsSeg_ite_colgroup (c1 c2 : Prop) [Decidable c1] [Decidable c2]
    (l1 l2 l3 l4 l5 l6 : List Str) (st : BSt) :
    IdsSeg st (if c1 then emitL l3 (emitL l2 (emitL l1 st))
      else if c2 then emitL l6 (emitL l5 (emitL l4 st)) else st) [] := by
  split
  · exact idsSeg_step (idsSeg_step (idsSeg_emitL _ _) (idsSeg_emitL _ _))
      (idsSeg_emitL _ _)
  · split
    · exact idsSeg_step (idsSeg_step (idsSeg_emitL _ _) (idsSeg_emitL _ _))
        (idsSeg_emitL _ _)
    · exact idsSeg_refl st

set_option maxHeartbeats 1000000 in
/-- The row block of `build_table_xml`: header ids, header cells, and the
optional body with its row loop; every id is a counter id. -/
theorem idsSeg_rows_seg {md : Str → Str} {pfx : Str} (hm : MkOk md pfx)
    (c c2 : Prop) [Decidable c] [Decidable c2]
    (cl : List Cell) (rs : List (List Cell)) (l1 l2 l3 : Str)
    (ls1 ls2 : List Str) (st : BSt) :
    IdsSeg st (if c then (if c2 then
        emitL ls2 (trRows md pfx rs (emitIdL l3
          [(bnid md pfx (S "tbody") (emitL ls1 (thCells md pfx cl (emitIdL l2
            [(bnid md pfx (S "tr") (bnid md pfx (S "thead") st).2).1]
            (emitIdL l1 [(bnid md pfx (S "thead") st).1]
              (bnid md pfx (S "tr") (bnid md pfx (S "thead") st).2).2))))).1]
          (bnid md pfx (S "tbody") (emitL ls1 (thCells md pfx cl (emitIdL l2
            [(bnid md pfx (S "tr") (bnid md pfx (S "thead") st).2).1]
            (emitIdL l1 [(bnid md pfx (S "thead") st).1]
              (bnid md pfx (S "tr") (bnid md pfx (S "thead") st).2).2))))).2))
      else
        emitL ls1 (thCells md pfx cl (emitIdL l2
          [(bnid md pfx (S "tr") (bnid md pfx (S "thead") st).2).1]
          (emitIdL l1 [(bnid md pfx (S "thead") st).1]
            (bnid md pfx (S "tr") (bnid md pfx (S "thead") st).2).2))))
      else st) [] := by
  split
  · split
    · exact idsSeg_step (idsSeg_step (idsSeg_step (idsSeg_step (idsSeg_step
        (idsSeg_cap_block hm _ _ _ _ _) (thCells_ids hm _ _)) (idsSeg_emitL _ _))
        (idsSeg_bnid_emit hm _ _ _)) (trRows_ids hm _ _)) (idsSeg_emitL _ _)
    · exact idsSeg_step (idsSeg_step (idsSeg_cap_block hm _ _ _ _ _)
        (thCells_ids hm _ _)) (idsSeg_emitL _ _)
  · exact idsSeg_refl st

set_option maxHeartbeats 1000000 in
theorem build_table_xml_ids {md : Str → Str} {pfx : Str} (hm : MkOk md pfx)
    (tbl : Tbl) (st : BSt) :
    IdsSeg st (build_table_xml md pfx tbl st) [S "tw-" ++ natRepr tbl.num] := by
  rw [build_table_xml]
  try dsimp only
  refine idsSeg_last ?_ (idsSeg_emitL _ _)
  refine idsSeg_last ?_ (idsSeg_rows_seg hm _ _ _ _ _ _ _ _ _ _)
  refine idsSeg_last ?_ (idsSeg_ite_colgroup _ _ _ _ _ _ _ _ _)
  refine idsSeg_last ?_ (idsSeg_bnid_emit hm _ _ _)
  refine idsSeg_last ?_ (idsSeg_ite_cap hm _ _ _ _ _)
  refine idsSeg_last ?_ (idsSeg_emitL _ _)
  exact idsSeg_step (idsSeg_pushEv _ _) (idsSeg_emitIdL_fixed _ _ _ (idK_tw tbl.num))

set_option maxHeartbeats 1000000 in
theorem build_fig_xml_ids {md : Str → Str} {pfx : Str} (hm : MkOk md pfx)
    (fig : Fig) (st : BSt) :
    IdsSeg st (build_fig_xml md pfx fig st) [S "fig-" ++ natRepr fig.num] := by
  rw [build_fig_xml]
  try dsimp only
  refine idsSeg_last ?_ (idsSeg_emitL _ _)
  refine idsSeg_last ?_ (idsSeg_emitL _ _)
  refine idsSeg_last ?_ (idsSeg_ite_cap hm _ _ _ _ _)
  refine idsSeg_last ?_ (idsSeg_emitL _ _)
  exact idsSeg_step (idsSeg_pushEv _ _) (idsSeg_emitIdL_fixed _ _ _ (idK_fig fig.num))

theorem placeTbls_ids {md : Str → Str} {pfx : Str} (hm : MkOk md pfx) (ptxt : Str) :
    ∀ (ts : List Tbl) (st : BSt),
      IdsSeg st (placeTbls md pfx ptxt ts st).2 ((tblEvsP ptxt ts).filterMap evIdOf) := by
  intro ts
  induction ts with
  | nil => intro st; exact idsSeg_refl st
  | cons t ts ih =>
    intro st
    rw [placeTbls]
    have hTM : containsSub ptxt (S "Table " ++ natRepr t.num) = tblMention ptxt t.num :=
      rfl
    rw [hTM]
    by_cases hc : (!t.placed && tblMention ptxt t.num) = true
    · rw [if_pos hc]
      try dsimp only
      have hF : (tblEvsP ptxt (t :: ts)).filterMap evIdOf
          = (S "tw-" ++ natRepr t.num) :: (tblEvsP ptxt ts).filterMap evIdOf := by
        rw [tblEvsP, List.filter_cons, if_pos hc]
        rfl
      rw [hF]
      have := idsSeg_trans (build_table_xml_ids hm t st)
        (ih (build_table_xml md pfx t st))
      simpa using this
    · rw [if_neg hc]
      try dsimp only
      have hF : (tblEvsP ptxt (t :: ts)).filterMap evIdOf
          = (tblEvsP ptxt ts).filterMap evIdOf := by
        rw [tblEvsP, List.filter_cons, if_neg hc]
        rfl
      rw [hF]
      exact ih st

theorem placeFigs_ids {md : Str → Str} {pfx : Str} (hm : MkOk md pfx) (ptxt : Str) :
    ∀ (fs : List Fig) (st : BSt),
      IdsSeg st (placeFigs md pfx ptxt fs st).2 ((figEvsP ptxt fs).filterMap evIdOf) := by
  intro fs
  induction fs with
  | nil => intro st; exact idsSeg_refl st
  | cons f fs ih =>
    intro st
    rw [placeFigs]
    have hFM : (reSearch (figMentionRe f.num) ptxt).isSome = figMention ptxt f.num :=
      rfl
    rw [hFM]
    by_cases hc : (!f.placed && figMention ptxt f.num) = true
    · rw [if_pos hc]
      try dsimp only
      have hF : (figEvsP ptxt (f :: fs)).filterMap evIdOf
          = (S "fig-" ++ natRepr f.num) :: (figEvsP ptxt fs).filterMap evIdOf := by
        rw [figEvsP, List.filter_cons, if_pos hc]
        rfl
      rw [hF]
      have := idsSeg_trans (build_fig_xml_ids hm f st)
        (ih (build_fig_xml md pfx f st))
      simpa using this
    · rw [if_neg hc]
      try dsimp only
      have hF : (figEvsP ptxt (f :: fs)).filterMap evIdOf
          = (figEvsP ptxt fs).filterMap evIdOf := by
        rw [figEvsP, List.filter_cons, if_neg hc]
        rfl
      rw [hF]
      exact ih st

theorem segKeys_cons_inl {c0 c1 k : Nat} {l : List (Sum Nat Str)}
    (h : SegKeys c0 c1 l []) (h1 : c0 < k) (h2 : c1 < k) :
    SegKeys c0 k (Sum.inl k :: l) [] := by
  refine ⟨?_, ?_, ?_⟩
  · intro j hj
    rcases List.mem_cons.mp hj with he | hm
    · have : j = k := by simpa using he
      omega
    · have := h.1 j hm
      omega
  · rw [List.filterMap_cons]
    have hi : inlPart (Sum.inl k) = some k := rfl
    rw [hi]
    refine List.Nodup.cons ?_ h.2.1
    intro hmem
    have := (h.1 k (mem_inlPart.mp hmem)).2
    omega
  · rw [List.filterMap_cons]
    have hi : inrPart (Sum.inl k) = none := rfl
    rw [hi]
    exact h.2.2

/-- The paragraph block of the body walk: the inline formatter moves the
counter and yields counter ids; the optional `<p>` line records one more
counter id in front of them. -/
theorem idsSeg_para_block {md : Str → Str} {pfx : Str} (hm : MkOk md pfx)
    (cites : List Str) (tids fids : List (Str × Str)) (runs : List Run)
    (l : Str) (e : Ev) (st : BSt) :
    IdsSeg st
      (if pyStrip (paraToInline md pfx cites tids fids runs (pushEv e st).ctr).1 ≠ [] then
        emitIdL l
          ((bnid md pfx (S "p") { pushEv e st with
              ctr := (paraToInline md pfx cites tids fids runs (pushEv e st).ctr).2.1 }).1
            :: (paraToInline md pfx cites tids fids runs (pushEv e st).ctr).2.2)
          (bnid md pfx (S "p") { pushEv e st with
              ctr := (paraToInline md pfx cites tids fids runs (pushEv e st).ctr).2.1 }).2
      else { pushEv e st with
          ctr := (paraToInline md pfx cites tids fids runs (pushEv e st).ctr).2.1 }) [] := by
  simp only [pushEv_ctr]
  have hp := paraToInline_ids hm cites tids fids runs st.ctr
  have hb : st.ctr ≤ (paraToInline md pfx cites tids fids runs st.ctr).2.1 := hp.1
  split
  · refine ⟨by simp; omega,
      mkNid md pfx (S "p")
        ((paraToInline md pfx cites tids fids runs st.ctr).2.1 + 1)
        :: (paraToInline md pfx cites tids fids runs st.ctr).2.2,
      by simp, ?_⟩
    show SegKeys st.ctr ((paraToInline md pfx cites tids fids runs st.ctr).2.1 + 1)
      ((mkNid md pfx (S "p")
          ((paraToInline md pfx cites tids fids runs st.ctr).2.1 + 1)
        :: (paraToInline md pfx cites tids fids runs st.ctr).2.2).map idKey) []
    rw [List.map_cons, idKey_mkNid hm]
    exact segKeys_cons_inl hp.2 (by omega) (by omega)
  · exact ⟨hb, [], by simp, segKeys_nil _ _⟩

set_option maxHeartbeats 1000000 in
theorem bodyPara_ids {md : Str → Str} {pfx : Str} (hm : MkOk md pfx)
    (cites : List Str) (tids fids : List (Str × Str)) (ind : Str) (p : DPara)
    (tbls : List Tbl) (figs : List Fig) (st : BSt) :
    IdsSeg st (bodyPara md pfx cites tids fids ind p tbls figs st).2.2
      ((paraTrace p tbls figs).filterMap evIdOf) := by
  rw [bodyPara]
  try dsimp only
  have hF : (paraTrace p tbls figs).filterMap evIdOf
      = [] ++ ((tblEvsP p.text tbls).filterMap evIdOf
          ++ (figEvsP p.text figs).filterMap evIdOf) := by
    rw [paraTrace, List.filterMap_cons]
    have he : evIdOf Ev.para = none := rfl
    rw [he, List.filterMap_append]
    rfl
  rw [hF]
  exact idsSeg_trans (idsSeg_para_block hm _ _ _ _ _ _ _)
    (idsSeg_trans (placeTbls_ids hm _ _ _) (placeFigs_ids hm _ _ _))

theorem bodyParas_ids {md : Str → Str} {pfx : Str} (hm : MkOk md pfx)
    (cites : List Str) (tids fids : List (Str × Str)) (ind : Str) :
    ∀ (ps : List DPara) (tbls : List Tbl) (figs : List Fig) (st : BSt),
      IdsSeg st (bodyParas md pfx cites tids fids ind ps tbls figs st).2.2
        ((bodyTrace ps tbls figs).1.filterMap evIdOf) := by
  intro ps
  induction ps with
  | nil => intro tbls figs st; exact idsSeg_refl st
  | cons p ps ih =>
    intro tbls figs st
    rw [bodyParas]
    try dsimp only
    have hb := bodyPara_spec md pfx cites tids fids ind p tbls figs st
    rw [hb.1, hb.2.1]
    have hF : ((bodyTrace (p :: ps) tbls figs).1.filterMap evIdOf)
        = (paraTrace p tbls figs).filterMap evIdOf
          ++ ((bodyTrace ps (tblMark p.text tbls) (figMark p.text figs)).1.filterMap
              evIdOf) := by
      rw [bodyTrace]
      dsimp only
      rw [List.filterMap_append]
    rw [hF]
    exact idsSeg_trans (bodyPara_ids hm _ _ _ _ _ _ _ _) (ih _ _ _)

theorem bodySubs_ids {md : Str → Str} {pfx : Str} (hm : MkOk md pfx)
    (cites : List Str) (tids fids : List (Str × Str)) :
    ∀ (subs : List SubSec) (tbls : List Tbl) (figs : List Fig) (st : BSt),
      IdsSeg st (bodySubs md pfx cites tids fids subs tbls figs st).2.2
        ((bodyTrace ((subs.map (fun sb => sb.paragraphs)).flatten) tbls figs).1.filterMap
          evIdOf) := by
  intro subs
  induction subs with
  | nil => intro tbls figs st; exact idsSeg_refl st
  | cons sub subs ih =>
    intro tbls figs st
    rw [bodySubs]
    try dsimp only
    have hp := bodyParas_spec md pfx cites tids fids (S "        ") sub.paragraphs tbls figs
    rw [(hp _).1, (hp _).2.1]
    simp only [List.map_cons, List.flatten_cons]
    rw [bodyTrace_append]
    try dsimp only
    rw [List.filterMap_append]
    exact idsSeg_trans
      (idsSeg_step (idsSeg_emitL _ _) (idsSeg_step (idsSeg_bnid_emit hm _ _ _)
        (idsSeg_last (bodyParas_ids hm _ _ _ _ _ _ _ _) (idsSeg_emitL _ _))))
      (ih _ _ _)

theorem bodySecs_ids {md : Str → Str} {pfx : Str} (hm : MkOk md pfx)
    (cites : List Str) (tids fids : List (Str × Str)) :
    ∀ (secs : List Sec) (tbls : List Tbl) (figs : List Fig) (st : BSt),
      IdsSeg st (bodySecs md pfx cites tids fids secs tbls figs st).2.2
        ((bodyTrace (docParas secs) tbls figs).1.filterMap evIdOf) := by
  intro secs
  induction secs with
  | nil => intro tbls figs st; exact idsSeg_refl st
  | cons sec secs ih =>
    intro tbls figs st
    rw [bodySecs]
    try dsimp only
    have hp := bodyParas_spec md pfx cites tids fids (S "      ") sec.paragraphs tbls figs
    rw [(hp _).1, (hp _).2.1]
    have hs := bodySubs_spec md pfx cites tids fids sec.subsections
      (bodyTrace sec.paragraphs tbls figs).2.1 (bodyTrace sec.paragraphs tbls figs).2.2
    rw [(hs _).1, (hs _).2.1]
    simp only [docParas, List.map_cons, List.flatten_cons]
    rw [bodyTrace_append, bodyTrace_append]
    try dsimp only
    rw [List.filterMap_append, List.filterMap_append]
    exact idsSeg_trans
      (idsSeg_trans
        (idsSeg_step (idsSeg_emitL _ _) (idsSeg_step (idsSeg_bnid_emit hm _ _ _)
          (bodyParas_ids hm _ _ _ _ _ _ _ _)))
        (idsSeg_last (bodySubs_ids hm _ _ _ _ _ _ _) (idsSeg_emitL _ _)))
      (ih _ _ _)

theorem sweepTbls_ids {md : Str → Str} {pfx : Str} (hm : MkOk md pfx) :
    ∀ (ts : List Tbl) (st : BSt),
      IdsSeg st (sweepTbls md pfx ts st).2 ((sweepTblEvs ts).filterMap evIdOf) := by
  intro ts
  induction ts with
  | nil => intro st; exact idsSeg_refl st
  | cons t ts ih =>
    intro st
    rw [sweepTbls]
    by_cases hc : (!t.placed) = true
    · rw [if_pos hc]
      try dsimp only
      have hF : (sweepTblEvs (t :: ts)).filterMap evIdOf
          = (S "tw-" ++ natRepr t.num) :: (sweepTblEvs ts).filterMap evIdOf := by
        rw [sweepTblEvs, List.filter_cons, if_pos hc]
        rfl
      rw [hF]
      have := idsSeg_trans (build_table_xml_ids hm t st)
        (ih (build_table_xml md pfx t st))
      simpa using this
    · rw [if_neg hc]
      try dsimp only
      have hF : (sweepTblEvs (t :: ts)).filterMap evIdOf
          = (sweepTblEvs ts).filterMap evIdOf := by
        rw [sweepTblEvs, List.filter_cons, if_neg hc]
        rfl
      rw [hF]
      exact ih st

theorem sweepFigs_ids {md : Str → Str} {pfx : Str} (hm : MkOk md pfx) :
    ∀ (fs : List Fig) (st : BSt),
      IdsSeg st (sweepFigs md pfx fs st).2 ((sweepFigEvs fs).filterMap evIdOf) := by
  intro fs
  induction fs with
  | nil => intro st; exact idsSeg_refl st
  | cons f fs ih =>
    intro st
    rw [sweepFigs]
    by_cases hc : (!f.placed) = true
    · rw [if_pos hc]
      try dsimp only
      have hF : (sweepFigEvs (f :: fs)).filterMap evIdOf
          = (S "fig-" ++ natRepr f.num) :: (sweepFigEvs fs).filterMap evIdOf := by
        rw [sweepFigEvs, List.filter_cons, if_pos hc]
        rfl
      rw [hF]
      have := idsSeg_trans (build_fig_xml_ids hm f st)
        (ih (build_fig_xml md pfx f st))
      simpa using this
    · rw [if_neg hc]
      try dsimp only
      have hF : (sweepFigEvs (f :: fs)).filterMap evIdOf
          = (sweepFigEvs fs).filterMap evIdOf := by
        rw [sweepFigEvs, List.filter_cons, if_neg hc]
        rfl
      rw [hF]
      exact ih st

theorem backRefs_ids {pfx : Str} (hp : '-' ∉ pfx) :
    ∀ (rs : List RefRec) (st : BSt),
      IdsSeg st (backRefs pfx rs st)
        (rs.map (fun r => pfx ++ S "-B" ++ natRepr r.num)) := by
  intro rs
  induction rs with
  | nil => intro st; exact idsSeg_refl st
  | cons r rs ih =>
    intro st
    rw [backRefs]
    try dsimp only
    have h1 : IdsSeg st
        { st with
          lines := st.lines ++ refEntry pfx r,
          ids := st.ids ++ [pfx ++ S "-B" ++ natRepr r.num] }
        [pfx ++ S "-B" ++ natRepr r.num] :=
      idsSeg_fixed_block _ (idK_refB hp r.num) rfl rfl
    have := idsSeg_trans h1 (ih _)
    simpa using this

theorem contribLoop_ids {md : Str → Str} {pfx : Str} (hm : MkOk md pfx) :
    ∀ (as_ : List Auth) (st : BSt), IdsSeg st (contribLoop md pfx as_ st) [] := by
  intro as_
  induction as_ with
  | nil => intro st; exact idsSeg_refl st
  | cons a as_ ih =>
    intro st
    rw [contribLoop]
    try dsimp only
    refine idsSeg_step ?_ (idsSeg_step (idsSeg_emitL _ _) (ih _))
    refine idsSeg_step ?_ (idsSeg_ite_bnid1 hm _ _ _ _)
    refine idsSeg_step ?_ (idsSeg_foldl _ (fun st2 an => idsSeg_bnid_emit hm _ _ _) _ _)
    refine idsSeg_step ?_ (idsSeg_emitL _ _)
    refine idsSeg_step ?_ (idsSeg_ite_emitL _ _ _)
    refine idsSeg_step ?_ (idsSeg_emitL _ _)
    refine idsSeg_step ?_ (idsSeg_ite_emitL _ _ _)
    exact idsSeg_emitL _ _

/-- The institution block of one affiliation entry: plain lines only. -/
theorem idsSeg_aff_body (c1 c2 c3 : Prop) [Decidable c1] [Decidable c2] [Decidable c3]
    (l1 l2 l3 l4 l5 : List Str) (st : BSt) :
    IdsSeg st (if c1 then
        emitL l4 (if c3 then
          emitL l3 (if c2 then emitL l2 (emitL l1 st) else emitL l1 st)
          else (if c2 then emitL l2 (emitL l1 st) else emitL l1 st))
      else emitL l5 st) [] := by
  split
  · split
    · split
      · exact idsSeg_step (idsSeg_step (idsSeg_step (idsSeg_emitL _ _)
          (idsSeg_emitL _ _)) (idsSeg_emitL _ _)) (idsSeg_emitL _ _)
      · exact idsSeg_step (idsSeg_step (idsSeg_emitL _ _) (idsSeg_emitL _ _))
          (idsSeg_emitL _ _)
    · split
      · exact idsSeg_step (idsSeg_step (idsSeg_emitL _ _) (idsSeg_emitL _ _))
          (idsSeg_emitL _ _)
      · exact idsSeg_step (idsSeg_emitL _ _) (idsSeg_emitL _ _)
  · exact idsSeg_emitL _ _

theorem affLoop_ids : ∀ (affs : List (Str × Str)) (st : BSt),
    (∀ kv ∈ affs, '-' ∉ kv.1) →
    IdsSeg st (affLoop affs st) (affs.map (fun kv => S "aff" ++ kv.1)) := by
  intro affs
  induction affs with
  | nil => intro st _; exact idsSeg_refl st
  | cons kv affs ih =>
    intro st h
    obtain ⟨num, txt⟩ := kv
    rw [affLoop]
    try dsimp only
    have hF : (((num, txt) :: affs).map (fun kv => S "aff" ++ kv.1))
        = [S "aff" ++ num] ++ affs.map (fun kv => S "aff" ++ kv.1) := by simp
    rw [hF]
    refine idsSeg_trans ?_ (idsSeg_step (idsSeg_emitL _ _)
      (ih _ (fun kv2 hk2 => h kv2 (by simp [hk2]))))
    refine idsSeg_last ?_ (idsSeg_aff_body _ _ _ _ _ _ _ _ _)
    refine idsSeg_last ?_ (idsSeg_emitL _ _)
    exact idsSeg_emitIdL_fixed _ _ _ (idK_aff (h (num, txt) (by simp)))

theorem absItems_ids {md : Str → Str} {pfx : Str} (hm : MkOk md pfx) :
    ∀ (items : List (Str × Str)) (st : BSt), IdsSeg st (absItems md pfx items st) [] := by
  intro items
  induction items with
  | nil => intro st; exact idsSeg_refl st
  | cons kv items ih =>
    intro st
    obtain ⟨label, text⟩ := kv
    rw [absItems]
    try dsimp only
    split
    · exact idsSeg_step (idsSeg_bnid_emit hm _ _ _) (ih _)
    · exact idsSeg_step (idsSeg_step (idsSeg_abs3_block hm _ _ _ _ _ _ _)
        (idsSeg_emitL _ _)) (ih _)

/-- The corresponding-author note: one fixed id `cor1` when a corresponding
author exists. -/
theorem idsSeg_corr_seg (c : Prop) [Decidable c] (l : Str) (ls : List Str) (st : BSt) :
    IdsSeg st (if c then emitL ls (emitIdL l [S "cor1"] st) else st)
      (if c then [S "cor1"] else []) := by
  split
  · exact idsSeg_last (idsSeg_emitIdL_fixed _ _ _ (by decide)) (idsSeg_emitL _ _)
  · exact idsSeg_refl st

/-- The abstract block: counter ids only. -/
theorem idsSeg_abs_seg {md : Str → Str} {pfx : Str} (hm : MkOk md pfx)
    (c c2 : Prop) [Decidable c] [Decidable c2]
    (items : List (Str × Str)) (l1 l2 : Str) (ls2 ls3 : List Str) (st : BSt) :
    IdsSeg st (if c then
        emitL ls3 (if c2 then
          emitIdL l2 [(bnid md pfx (S "p") (emitL ls2 (emitIdL l1
              [(bnid md pfx (S "abstract") st).1] (bnid md pfx (S "abstract") st).2))).1]
            (bnid md pfx (S "p") (emitL ls2 (emitIdL l1
              [(bnid md pfx (S "abstract") st).1] (bnid md pfx (S "abstract") st).2))).2
          else absItems md pfx items (emitL ls2 (emitIdL l1
              [(bnid md pfx (S "abstract") st).1] (bnid md pfx (S "abstract") st).2)))
      else st) [] := by
  split
  · refine idsSeg_last ?_ (idsSeg_emitL _ _)
    split
    · exact idsSeg_step (idsSeg_step (idsSeg_bnid_emit hm _ _ _) (idsSeg_emitL _ _))
        (idsSeg_bnid_emit hm _ _ _)
    · exact idsSeg_step (idsSeg_step (idsSeg_bnid_emit hm _ _ _) (idsSeg_emitL _ _))
        (absItems_ids hm _ _)
  · exact idsSeg_refl st

/-- The keyword group block: one counter id and plain lines. -/
theorem idsSeg_kwd_seg {md : Str → Str} {pfx : Str} (hm : MkOk md pfx)
    (c : Prop) [Decidable c] (l1 : Str) (l2 l3 l4 : List Str) (st : BSt) :
    IdsSeg st (if c then emitL l4 (emitL l3 (emitL l2
        (emitIdL l1 [(bnid md pfx (S "kwd-group") st).1]
          (bnid md pfx (S "kwd-group") st).2))) else st) [] := by
  split
  · exact idsSeg_step (idsSeg_step (idsSeg_step (idsSeg_bnid_emit hm _ _ _)
      (idsSeg_emitL _ _)) (idsSeg_emitL _ _)) (idsSeg_emitL _ _)
  · exact idsSeg_refl st

set_option maxHeartbeats 2000000 in
/-- The front matter records the affiliation ids (fixed `aff{label}` ids, in
order) and possibly the fixed `cor1` id; every other id it emits is a
counter id. -/
theorem frontMatter_ids (md : Str → Str) (parsed : Parsed) (jm : JM)
    (hmd : ∀ s, HexStr (md s))
    (haff : ∀ kv ∈ parsed.affiliations, '-' ∉ kv.1) :
    IdsSeg {} (frontMatter md parsed jm)
      (parsed.affiliations.map (fun kv => S "aff" ++ kv.1)
        ++ (if parsed.authors.filter (fun a => a.isCorresponding) ≠ []
            then [S "cor1"] else [])) := by
  have hm : MkOk md (makePfx md parsed.title) := ⟨makePfx_no_dash hmd _, hmd⟩
  rw [frontMatter]
  try dsimp only
  refine idsSeg_last ?_ (idsSeg_emitL _ _)
  refine idsSeg_last ?_ (idsSeg_emitL _ _)
  refine idsSeg_last ?_ (idsSeg_kwd_seg hm _ _ _ _ _ _)
  refine idsSeg_last ?_ (idsSeg_abs_seg hm _ _ _ _ _ _ _ _)
  refine idsSeg_last ?_ (idsSeg_emitL _ _)
  refine idsSeg_last ?_ (idsSeg_ite_emitL4 _ _ _ _ _ _)
  refine idsSeg_last ?_ (idsSeg_ite_emitL _ _ _)
  refine idsSeg_last ?_ (idsSeg_ite_emitL _ _ _)
  refine idsSeg_last ?_ (idsSeg_ite_emitL _ _ _)
  refine idsSeg_last ?_ (idsSeg_ite_emitL _ _ _)
  refine idsSeg_last ?_ (idsSeg_emitL _ _)
  refine idsSeg_last ?_ (idsSeg_emitL _ _)
  refine idsSeg_trans ?_ (idsSeg_corr_seg _ _ _ _)
  refine idsSeg_last ?_ (idsSeg_emitL _ _)
  refine idsSeg_last ?_ (idsSeg_emitL _ _)
  refine idsSeg_step ?_ (affLoop_ids _ _ haff)
  refine idsSeg_last ?_ (contribLoop_ids hm _ _)
  refine idsSeg_last ?_ (idsSeg_emitL _ _)
  refine idsSeg_last ?_ (idsSeg_ite_emitL _ _ _)
  refine idsSeg_last ?_ (idsSeg_bnid_emit hm _ _ _)
  refine idsSeg_last ?_ (idsSeg_emitL _ _)
  refine idsSeg_last ?_ (idsSeg_ite_emitL _ _ _)
  refine idsSeg_last ?_ (idsSeg_ite_emitL _ _ _)
  refine idsSeg_last ?_ (idsSeg_ite_emitL _ _ _)
  refine idsSeg_last ?_ (idsSeg_emitL _ _)
  refine idsSeg_last ?_ (idsSeg_bnid_emit hm _ _ _)
  exact idsSeg_emitL _ _

/-- The refs block of the back matter: the fixed `{pfx}-B{num}` ids. -/
theorem idsSeg_refs_seg {pfx : Str} (hp : '-' ∉ pfx)
    (rs : List RefRec) (l1 l2 : List Str) (st : BSt) :
    IdsSeg st (if rs ≠ [] then emitL l2 (backRefs pfx rs (emitL l1 st)) else st)
      (rs.map (fun r => pfx ++ S "-B" ++ natRepr r.num)) := by
  split
  · exact idsSeg_step (idsSeg_emitL _ _)
      (idsSeg_last (backRefs_ids hp rs _) (idsSeg_emitL _ _))
  · next h =>
    have hrs : rs = [] := not_not.mp h
    subst hrs
    exact idsSeg_refl st

/-- Every fixed (non-counter) id of one `build_xml` run, in emission order:
the affiliation ids and the optional `cor1` of the front matter, the
`tw-`/`fig-` ids of the body trace and the two end sweeps, and the reference
ids of the back matter. -/
def fixedIds (md : Str → Str) (parsed : Parsed) : List Str :=
  ((((parsed.affiliations.map (fun kv => S "aff" ++ kv.1)
      ++ (if parsed.authors.filter (fun a => a.isCorresponding) ≠ []
          then [S "cor1"] else []))
    ++ (bodyTrace (docParas parsed.sections) parsed.tables
        parsed.figures).1.filterMap evIdOf)
    ++ (sweepTblEvs (bodyTrace (docParas parsed.sections) parsed.tables
        parsed.figures).2.1).filterMap evIdOf)
    ++ (sweepFigEvs (bodyTrace (docParas parsed.sections) parsed.tables
        parsed.figures).2.2).filterMap evIdOf)
    ++ parsed.references.map (fun r =>
        makePfx md parsed.title ++ S "-B" ++ natRepr r.num)

set_option maxHeartbeats 2000000 in
/-- One `build_xml` run, from the empty emission state: the recorded ids are
the initial (empty) ledger plus a block whose counter ids are pairwise
distinct and whose fixed ids are exactly `fixedIds`. -/
theorem build_xml_ids (md : Str → Str) (parsed : Parsed) (jm : JM)
    (hmd : ∀ s, HexStr (md s))
    (haff : ∀ kv ∈ parsed.affiliations, '-' ∉ kv.1) :
    IdsSeg {} (build_xml md parsed jm).1 (fixedIds md parsed) := by
  have hm : MkOk md (makePfx md parsed.title) := ⟨makePfx_no_dash hmd _, hmd⟩
  rw [build_xml]
  try dsimp only
  have hsecs := bodySecs_spec md (makePfx md parsed.title)
    (parsed.references.map (fun r => natRepr r.num))
    (parsed.tables.map (fun t => (natRepr t.num, S "tw-" ++ natRepr t.num)))
    (parsed.figures.map (fun f => (natRepr f.num, S "fig-" ++ natRepr f.num)))
    parsed.sections parsed.tables parsed.figures
  rw [(hsecs _).1, (hsecs _).2.1]
  rw [fixedIds]
  refine idsSeg_last ?_ (idsSeg_emitL _ _)
  refine idsSeg_trans ?_ (idsSeg_refs_seg (makePfx_no_dash hmd _) _ _ _ _)
  refine idsSeg_last ?_ (idsSeg_emitL _ _)
  refine idsSeg_last ?_ (idsSeg_emitL _ _)
  refine idsSeg_trans ?_ (sweepFigs_ids hm _ _)
  refine idsSeg_trans ?_ (sweepTbls_ids hm _ _)
  refine idsSeg_trans ?_ (bodySecs_ids hm _ _ _ _ _ _ _)
  exact frontMatter_ids md parsed jm hmd haff

theorem mem_inrPart {l : List (Sum Nat Str)} {v : Str} :
    v ∈ l.filterMap inrPart ↔ Sum.inr v ∈ l := by
  rw [List.mem_filterMap]
  constructor
  · rintro ⟨a, ha, hk⟩
    cases a with
    | inl j => simp [inrPart] at hk
    | inr w =>
      have hw : w = v := by simpa [inrPart] using hk
      rw [← hw]
      exact ha
  · intro h
    exact ⟨Sum.inr v, h, rfl⟩

/-- A list of key classifications is duplicate-free when its counter part and
its fixed part each are. -/
theorem sum_nodup_of_parts : ∀ (l : List (Sum Nat Str)),
    (l.filterMap inlPart).Nodup → (l.filterMap inrPart).Nodup → l.Nodup := by
  intro l
  induction l with
  | nil => intro _ _; exact List.nodup_nil
  | cons a t ih =>
    intro h1 h2
    cases a with
    | inl k =>
      rw [List.filterMap_cons] at h1 h2
      have hik : inlPart (Sum.inl k) = some k := rfl
      have hrk : inrPart (Sum.inl k) = (none : Option Str) := rfl
      rw [hik] at h1
      rw [hrk] at h2
      rcases List.nodup_cons.mp h1 with ⟨hnm, h1t⟩
      refine List.nodup_cons.mpr ⟨?_, ih h1t h2⟩
      intro hmem
      exact hnm (mem_inlPart.mpr hmem)
    | inr v =>
      rw [List.filterMap_cons] at h1 h2
      have hik : inlPart (Sum.inr v) = (none : Option Nat) := rfl
      have hrk : inrPart (Sum.inr v) = some v := rfl
      rw [hik] at h1
      rw [hrk] at h2
      rcases List.nodup_cons.mp h2 with ⟨hnm, h2t⟩
      refine List.nodup_cons.mpr ⟨?_, ih h1 h2t⟩
      intro hmem
      exact hnm (mem_inrPart.mpr hmem)

/-- `filterMap` of a list keeps no duplicates when the function is injective
on its domain and every relevant element occurs at most once. -/
theorem nodup_filterMap_of_count {α β : Type} [DecidableEq α] (f : α → Option β) :
    ∀ (l : List α),
      (∀ a b v, f a = some v → f b = some v → a = b) →
      (∀ a ∈ l, (f a).isSome → l.count a ≤ 1) →
      (l.filterMap f).Nodup := by
  intro l
  induction l with
  | nil => intro _ _; simp
  | cons a t ih =>
    intro hinj hcnt
    rw [List.filterMap_cons]
    have hcnt2 : ∀ x ∈ t, (f x).isSome → t.count x ≤ 1 := by
      intro x hx hfx
      have h1 := hcnt x (by simp [hx]) hfx
      have h2 : t.count x ≤ (a :: t).count x := by
        rw [List.count_cons]
        omega
      omega
    cases hfa : f a with
    | none => exact ih hinj hcnt2
    | some v =>
      refine List.nodup_cons.mpr ⟨?_, ih hinj hcnt2⟩
      intro hv
      rcases List.mem_filterMap.mp hv with ⟨b, hb, hfb⟩
      have hab : b = a := hinj b a v hfb hfa
      subst hab
      have hc := hcnt b (by simp) (by simp [hfa])
      rw [List.count_cons_self] at hc
      have := List.count_pos_iff.mpr hb
      omega

theorem count_tbl_evsP_le (ptxt : Str) (n : Nat) (ts : List Tbl) :
    (tblEvsP ptxt ts).count (Ev.table n) ≤ (ts.map Tbl.num).count n := by
  rw [tblEvsP, count_table_evs]
  exact ((List.filter_sublist _).map Tbl.num).count_le n

theorem count_sweepTbl_le (n : Nat) (ts : List Tbl) :
    (sweepTblEvs ts).count (Ev.table n) ≤ (ts.map Tbl.num).count n := by
  rw [sweepTblEvs, count_table_evs]
  exact ((List.filter_sublist _).map Tbl.num).count_le n

theorem count_fig_evsP_le (ptxt : Str) (n : Nat) (fs : List Fig) :
    (figEvsP ptxt fs).count (Ev.fig n) ≤ (fs.map Fig.num).count n := by
  rw [figEvsP, count_fig_evs]
  exact ((List.filter_sublist _).map Fig.num).count_le n

theorem count_sweepFig_le (n : Nat) (fs : List Fig) :
    (sweepFigEvs fs).count (Ev.fig n) ≤ (fs.map Fig.num).count n := by
  rw [sweepFigEvs, count_fig_evs]
  exact ((List.filter_sublist _).map Fig.num).count_le n

theorem bodyTrace_tbl_zero (n : Nat) :
    ∀ (ps : List DPara) (tbls : List Tbl) (figs : List Fig),
      (tbls.map Tbl.num).count n = 0 →
      (bodyTrace ps tbls figs).1.count (Ev.table n) = 0 := by
  intro ps
  induction ps with
  | nil => intro tbls figs _; simp [bodyTrace]
  | cons p ps ih =>
    intro tbls figs h
    rw [bodyTrace]
    dsimp only
    rw [List.count_append, paraTrace, List.count_cons, List.count_append]
    have h1 : (tblEvsP p.text tbls).count (Ev.table n) = 0 := by
      have := count_tbl_evsP_le p.text n tbls
      omega
    have h2 := count_table_figEvsP n p.text figs
    have h3 : ((tblMark p.text tbls).map Tbl.num).count n = 0 := by
      rw [tblMark_map_num]
      exact h
    rw [h1, h2, ih _ _ h3]
    simp

theorem bodyTrace_fig_zero (n : Nat) :
    ∀ (ps : List DPara) (tbls : List Tbl) (figs : List Fig),
      (figs.map Fig.num).count n = 0 →
      (bodyTrace ps tbls figs).1.count (Ev.fig n) = 0 := by
  intro ps
  induction ps with
  | nil => intro tbls figs _; simp [bodyTrace]
  | cons p ps ih =>
    intro tbls figs h
    rw [bodyTrace]
    dsimp only
    rw [List.count_append, paraTrace, List.count_cons, List.count_append]
    have h1 : (figEvsP p.text figs).count (Ev.fig n) = 0 := by
      have := count_fig_evsP_le p.text n figs
      omega
    have h2 := count_fig_tblEvsP n p.text tbls
    have h3 : ((figMark p.text figs).map Fig.num).count n = 0 := by
      rw [figMark_map_num]
      exact h
    rw [h2, h1, ih _ _ h3]
    simp

/-- Within one run (initially unplaced tables with distinct numbers), the
full event trace of body placement plus both end sweeps holds any given
table event at most once. -/
theorem trace_table_count_le (n : Nat) (ps : List DPara) (tbls : List Tbl)
    (figs : List Fig) (htn : (tbls.map Tbl.num).Nodup)
    (htu : ∀ t ∈ tbls, t.placed = false) :
    ((bodyTrace ps tbls figs).1
      ++ (sweepTblEvs (bodyTrace ps tbls figs).2.1
        ++ sweepFigEvs (bodyTrace ps tbls figs).2.2)).count (Ev.table n) ≤ 1 := by
  rw [List.count_append, List.count_append, count_table_sweepFigEvs]
  by_cases hn : n ∈ tbls.map Tbl.num
  · have hone := List.count_eq_one_of_mem htn hn
    have hunp : ∀ t ∈ tbls, t.num = n → t.placed = false := fun t ht _ => htu t ht
    cases hfi : firstIdx (fun p => tblMention p.text n) ps with
    | some k =>
      have hfound := bodyTrace_tbl_found n ps k tbls figs hfi hone hunp
      have hb := hfound.1
      have hsw := count_sweepTbl_placed n _ hfound.2.2
      omega
    | none =>
      have hnone := bodyTrace_tbl_none n ps tbls figs hfi hunp
      have hb := hnone.1
      have honeOut : ((bodyTrace ps tbls figs).2.1.map Tbl.num).count n = 1 := by
        rw [(bodyTrace_map_num _ _ _).1]
        exact hone
      have hsw := count_sweepTbl_unplaced n _ honeOut hnone.2
      omega
  · have hz : (tbls.map Tbl.num).count n = 0 := List.count_eq_zero_of_not_mem hn
    have h1 := bodyTrace_tbl_zero n ps tbls figs hz
    have h2 := count_sweepTbl_le n (bodyTrace ps tbls figs).2.1
    have h3 : ((bodyTrace ps tbls figs).2.1.map Tbl.num).count n = 0 := by
      rw [(bodyTrace_map_num _ _ _).1]
      exact hz
    omega

/-- The figure analogue of `trace_table_count_le`. -/
theorem trace_fig_count_le (n : Nat) (ps : List DPara) (tbls : List Tbl)
    (figs : List Fig) (hfn : (figs.map Fig.num).Nodup)
    (hfu : ∀ f ∈ figs, f.placed = false) :
    ((bodyTrace ps tbls figs).1
      ++ (sweepTblEvs (bodyTrace ps tbls figs).2.1
        ++ sweepFigEvs (bodyTrace ps tbls figs).2.2)).count (Ev.fig n) ≤ 1 := by
  rw [List.count_append, List.count_append, count_fig_sweepTblEvs]
  by_cases hn : n ∈ figs.map Fig.num
  · have hone := List.count_eq_one_of_mem hfn hn
    have hunp : ∀ f ∈ figs, f.num = n → f.placed = false := fun f hf _ => hfu f hf
    by_cases hfi : ∃ k, firstIdx (fun p => figMention p.text n) ps = some k
    · have hfound := bodyTrace_fig_found_cnt n ps tbls figs hfi hone hunp
      have hb := hfound.1
      have hsw := count_sweepFig_placed n _ hfound.2
      omega
    · have hno : firstIdx (fun p => figMention p.text n) ps = none := by
        cases hc : firstIdx (fun p => figMention p.text n) ps with
        | none => rfl
        | some k => exact absurd ⟨k, hc⟩ hfi
      have hnone := bodyTrace_fig_none_cnt n ps tbls figs hno hunp
      have hb := hnone.1
      have honeOut : ((bodyTrace ps tbls figs).2.2.map Fig.num).count n = 1 := by
        rw [(bodyTrace_map_num _ _ _).2]
        exact hone
      have hsw := count_sweepFig_unplaced n _ honeOut hnone.2
      omega
  · have hz : (figs.map Fig.num).count n = 0 := List.count_eq_zero_of_not_mem hn
    have h1 := bodyTrace_fig_zero n ps tbls figs hz
    have h2 := count_sweepFig_le n (bodyTrace ps tbls figs).2.2
    have h3 : ((bodyTrace ps tbls figs).2.2.map Fig.num).count n = 0 := by
      rw [(bodyTrace_map_num _ _ _).2]
      exact hz
    omega

theorem str_append_left_cancel : ∀ (p a b : Str), p ++ a = p ++ b → a = b := by
  intro p
  induction p with
  | nil => intro a b h; exact h
  | cons c p ih =>
    intro a b h
    rw [List.cons_append, List.cons_append] at h
    injection h with _ h2
    exact ih a b h2

/-- The event-to-id assignment is injective where defined: `tw-` and `fig-`
ids determine the event kind (first character) and the number (decimal
digits). -/
theorem evIdOf_inj : ∀ (a b : Ev) (v : Str),
    evIdOf a = some v → evIdOf b = some v → a = b := by
  intro a b v ha hb
  cases a with
  | para => simp [evIdOf] at ha
  | table n =>
    have hva : v = S "tw-" ++ natRepr n := by
      have : some (S "tw-" ++ natRepr n) = some v := ha
      exact (Option.some_injective _ this).symm
    cases b with
    | para => simp [evIdOf] at hb
    | table m =>
      have hvb : v = S "tw-" ++ natRepr m := by
        have : some (S "tw-" ++ natRepr m) = some v := hb
        exact (Option.some_injective _ this).symm
      have he : S "tw-" ++ natRepr n = S "tw-" ++ natRepr m := by
        rw [← hva, hvb]
      have := natRepr_injective (str_append_left_cancel _ _ _ he)
      rw [this]
    | fig m =>
      have hvb : v = S "fig-" ++ natRepr m := by
        have : some (S "fig-" ++ natRepr m) = some v := hb
        exact (Option.some_injective _ this).symm
      have h1 : v.head? = some 't' := by rw [hva]; rfl
      have h2 : v.head? = some 'f' := by rw [hvb]; rfl
      rw [h1] at h2
      exact absurd h2 (by decide)
  | fig n =>
    have hva : v = S "fig-" ++ natRepr n := by
      have : some (S "fig-" ++ natRepr n) = some v := ha
      exact (Option.some_injective _ this).symm
    cases b with
    | para => simp [evIdOf] at hb
    | table m =>
      have hvb : v = S "tw-" ++ natRepr m := by
        have : some (S "tw-" ++ natRepr m) = some v := hb
        exact (Option.some_injective _ this).symm
      have h1 : v.head? = some 'f' := by rw [hva]; rfl
      have h2 : v.head? = some 't' := by rw [hvb]; rfl
      rw [h1] at h2
      exact absurd h2 (by decide)
    | fig m =>
      have hvb : v = S "fig-" ++ natRepr m := by
        have : some (S "fig-" ++ natRepr m) = some v := hb
        exact (Option.some_injective _ this).symm
      have he : S "fig-" ++ natRepr n = S "fig-" ++ natRepr m := by
        rw [← hva, hvb]
      have := natRepr_injective (str_append_left_cancel _ _ _ he)
      rw [this]

theorem mem_affIds_head {affs : List (Str × Str)} {x : Str}
    (h : x ∈ affs.map (fun kv => S "aff" ++ kv.1)) : x.head? = some 'a' := by
  rcases List.mem_map.mp h with ⟨kv, _, he⟩
  rw [← he]
  rfl

theorem mem_corrIds_head {c : Prop} [Decidable c] {x : Str}
    (h : x ∈ (if c then [S "cor1"] else [])) : x.head? = some 'c' := by
  split at h
  · have hx : x = S "cor1" := by simpa using h
    rw [hx]
    rfl
  · simp at h

theorem mem_evIds_head {evs : List Ev} {x : Str}
    (h : x ∈ evs.filterMap evIdOf) :
    x.head? = some 't' ∨ x.head? = some 'f' := by
  rcases List.mem_filterMap.mp h with ⟨e, _, hfe⟩
  cases e with
  | para => simp [evIdOf] at hfe
  | table n =>
    left
    have hx : S "tw-" ++ natRepr n = x := by simpa [evIdOf] using hfe
    rw [← hx]
    rfl
  | fig n =>
    right
    have hx : S "fig-" ++ natRepr n = x := by simpa [evIdOf] using hfe
    rw [← hx]
    rfl

theorem mem_refIds_head {md : Str → Str} {title : Str} {refs : List RefRec} {x : Str}
    (h : x ∈ refs.map (fun r => makePfx md title ++ S "-B" ++ natRepr r.num)) :
    x.head? = some 'i' := by
  rcases List.mem_map.mp h with ⟨r, _, he⟩
  rw [← he]
  rfl

theorem affIds_nodup {affs : List (Str × Str)}
    (h : (affs.map Prod.fst).Nodup) :
    (affs.map (fun kv => S "aff" ++ kv.1)).Nodup := by
  have he : affs.map (fun kv => S "aff" ++ kv.1)
      = (affs.map Prod.fst).map (fun k => S "aff" ++ k) := by
    rw [List.map_map]
    rfl
  rw [he]
  exact List.Nodup.map (fun a b hab => str_append_left_cancel _ _ _ hab) h

theorem backIds_nodup {md : Str → Str} {title : Str} {refs : List RefRec}
    (h : (refs.map RefRec.num).Nodup) :
    (refs.map (fun r => makePfx md title ++ S "-B" ++ natRepr r.num)).Nodup := by
  have he : refs.map (fun r => makePfx md title ++ S "-B" ++ natRepr r.num)
      = (refs.map RefRec.num).map
          (fun n => makePfx md title ++ S "-B" ++ natRepr n) := by
    rw [List.map_map]
    rfl
  rw [he]
  refine List.Nodup.map ?_ h
  intro a b hab
  exact natRepr_injective (str_append_left_cancel _ _ _ hab)

set_option maxHeartbeats 1000000 in
/-- Under the invariants `parse_docx` guarantees (distinct table, figure and
reference numbers; affiliation labels distinct and dash-free; placement
flags initially cleared), the fixed ids of one `build_xml` run are pairwise
distinct. -/
theorem fixedIds_nodup (md : Str → Str) (parsed : Parsed)
    (htn : (parsed.tables.map Tbl.num).Nodup)
    (hfn : (parsed.figures.map Fig.num).Nodup)
    (hrn : (parsed.references.map RefRec.num).Nodup)
    (haffk : (parsed.affiliations.map Prod.fst).Nodup)
    (htu : ∀ t ∈ parsed.tables, t.placed = false)
    (hfu : ∀ f ∈ parsed.figures, f.placed = false) :
    (fixedIds md parsed).Nodup := by
  rw [fixedIds]
  have hre : ((((parsed.affiliations.map (fun kv => S "aff" ++ kv.1)
      ++ (if parsed.authors.filter (fun a => a.isCorresponding) ≠ []
          then [S "cor1"] else []))
    ++ (bodyTrace (docParas parsed.sections) parsed.tables
        parsed.figures).1.filterMap evIdOf)
    ++ (sweepTblEvs (bodyTrace (docParas parsed.sections) parsed.tables
        parsed.figures).2.1).filterMap evIdOf)
    ++ (sweepFigEvs (bodyTrace (docParas parsed.sections) parsed.tables
        parsed.figures).2.2).filterMap evIdOf)
    ++ parsed.references.map (fun r =>
        makePfx md parsed.title ++ S "-B" ++ natRepr r.num)
    = (parsed.affiliations.map (fun kv => S "aff" ++ kv.1)
      ++ (if parsed.authors.filter (fun a => a.isCorresponding) ≠ []
          then [S "cor1"] else []))
    ++ ((((bodyTrace (docParas parsed.sections) parsed.tables parsed.figures).1
        ++ (sweepTblEvs (bodyTrace (docParas parsed.sections) parsed.tables
            parsed.figures).2.1
          ++ sweepFigEvs (bodyTrace (docParas parsed.sections) parsed.tables
            parsed.figures).2.2)).filterMap evIdOf)
      ++ parsed.references.map (fun r =>
          makePfx md parsed.title ++ S "-B" ++ natRepr r.num)) := by
    rw [List.filterMap_append, List.filterMap_append]
    simp [List.append_assoc]
  rw [hre]
  refine List.Nodup.append ?_ (List.Nodup.append ?_ ?_ ?_) ?_
  · refine List.Nodup.append (affIds_nodup haffk) ?_ ?_
    · split
      · simp
      · simp
    · intro x hx1 hx2
      have h1 := mem_affIds_head hx1
      have h2 := mem_corrIds_head hx2
      rw [h1] at h2
      exact absurd h2 (by decide)
  · refine nodup_filterMap_of_count evIdOf _ evIdOf_inj ?_
    intro e he hs
    cases e with
    | para => simp [evIdOf] at hs
    | table n => exact trace_table_count_le n _ _ _ htn htu
    | fig n => exact trace_fig_count_le n _ _ _ hfn hfu
  · exact backIds_nodup hrn
  · intro x hx1 hx2
    have h2 := mem_refIds_head hx2
    rcases mem_evIds_head hx1 with h1 | h1
    · rw [h1] at h2
      exact absurd h2 (by decide)
    · rw [h1] at h2
      exact absurd h2 (by decide)
  · intro x hx1 hx2
    have h1 : x.head? = some 'a' ∨ x.head? = some 'c' := by
      rcases List.mem_append.mp hx1 with h | h
      · exact Or.inl (mem_affIds_head h)
      · exact Or.inr (mem_corrIds_head h)
    have h2 : x.head? = some 't' ∨ x.head? = some 'f' ∨ x.head? = some 'i' := by
      rcases List.mem_append.mp hx2 with h | h
      · rcases mem_evIds_head h with ht | hf
        · exact Or.inl ht
        · exact Or.inr (Or.inl hf)
      · exact Or.inr (Or.inr (mem_refIds_head h))
    rcases h1 with h1 | h1 <;> rcases h2 with h2 | h2 | h2 <;>
      (rw [h1] at h2; exact absurd h2 (by decide))

/-- C3: within a single conversion run — one `build_xml` call on one parsed
model — no two entries of the run's identifier ledger coincide, assuming the
md5 oracle returns hex digests and the model satisfies the invariants that
`parse_docx` establishes: table, figure and reference numbers pairwise
distinct, affiliation labels pairwise distinct and dash-free, and no element
pre-marked as placed.  So every id generated by the counter-plus-hash scheme
and every fixed-scheme id (table-wrap, fig, aff, corresp, ref) is unique in
the output document. -/
theorem claim_C3 (md : Str → Str) (parsed : Parsed) (jm : JM)
    (hmd : ∀ s, HexStr (md s))
    (haff : ∀ kv ∈ parsed.affiliations, '-' ∉ kv.1)
    (htn : (parsed.tables.map Tbl.num).Nodup)
    (hfn : (parsed.figures.map Fig.num).Nodup)
    (hrn : (parsed.references.map RefRec.num).Nodup)
    (haffk : (parsed.affiliations.map Prod.fst).Nodup)
    (htu : ∀ t ∈ parsed.tables, t.placed = false)
    (hfu : ∀ f ∈ parsed.figures, f.placed = false) :
    (build_xml md parsed jm).1.ids.Nodup := by
  obtain ⟨hc, new, hids, hkeys⟩ := build_xml_ids md parsed jm hmd haff
  rw [hids]
  have h0 : ({} : BSt).ids = [] := rfl
  rw [h0, List.nil_append]
  refine List.Nodup.of_map idKey ?_
  refine sum_nodup_of_parts _ hkeys.2.1 ?_
  rw [hkeys.2.2]
  exact fixedIds_nodup md parsed htn hfn hrn haffk htu hfu

def mWitC3 : Parsed :=
  { title := S "Study"
    authors := [{ surname := S "Roe", given := S "Ann",
                  affiliationNums := [S "1"], isCorresponding := true }]
    affiliations := [(S "1", S "Unit")]
    abstract := [([], S "We report.")]
    keywords := [S "jats"]
    figures := [{ num := 2, caption := S "A figure." }]
    sections := [{ title := S "Methods"
                   paragraphs := [{ style := S "Normal"
                                    runs := [{ t := S "See Table 1.",
                                               sup := false, ital := false,
                                               bold := false }] }] }]
    references := [{ num := 1, raw := S "Roe A. Title. 2020." }]
    tables := [{ num := 1, caption := S "A table."
                 rows := [[{ text := S "x" }]] }] }

/-- C3 witness: on a concrete model with a table, a figure, a reference, an
affiliation and a corresponding author, the full identifier ledger of the
`build_xml` run is duplicate-free. -/
theorem claim_C3_witness : (build_xml mdTest mWitC3 {}).1.ids.Nodup :=
  claim_C3 mdTest mWitC3 {} (fun s => by rw [mdTest]; decide) (by decide)
    (by decide) (by decide) (by decide) (by decide) (by decide) (by decide)
